import Mathlib

/-!
# Paracross commit executor (`executor/drivers/paracross/action.go`)

A shallow embedding of the commit-processing state machine of the paracross
executor, followed by theorems about it.

Conventions of the embedding.

* A Go `(value, error)` result is an `Except Err value`; the pair returned by
  `Commit` is kept as a pair (`Outcome.ret receipt err`) so that the shape of
  every `return` statement is visible.  A run-time panic (nil dereference,
  index out of range) is the separate outcome `Outcome.panic` / `none`.
* The KV handle `a.db` is threaded through `Commit` explicitly: `Commit`
  returns the store after the call together with the outcome.
* `int64` fields are integers; the only arithmetic on them, `Height + 1`, is
  wrapped with `wrapInt64`; `int32(...)` conversions use `wrapInt32`.
* `float32` values are represented exactly, as integers counting units of
  `2 ^ (-149)` (every finite binary32 value is a multiple of that unit).
* Go's map iteration order is unspecified; the order in which `range` visits
  the counting map of `getMostCommit` is a parameter (`MapOrder`).
-/

namespace Paracross

/-! ## Errors, keys, messages -/

/-- Error values.  `ErrInputPara` and `ErrNotFound` are the two sentinel errors
of package `types` that `action.go` names; `ErrDecode` stands for a failed
`types.Decode`; `other` covers every other error a store may return. -/
inductive Err where
  | ErrInputPara
  | ErrNotFound
  | ErrDecode
  | other (code : Nat)
  deriving DecidableEq, Repr

/-- Modelled from the spec: the key codec (`calcConfigNodesKey`, `calcTitleKey`,
`calcTitleHeightKey` are defined in another file of the package).  Section 4.1
asks for one family of keys per entity, deterministic and unique; a key is
therefore the tagged tuple it is derived from. -/
inductive Key where
  | configNodes (title : String)
  | title (title : String)
  | titleHeight (title : String) (height : Int)
  deriving DecidableEq, Repr

/-- Roster key of a title. -/
def calcConfigNodesKey (title : String) : Key := Key.configNodes title

/-- Cursor key of a title. -/
def calcTitleKey (title : String) : Key := Key.title title

/-- Aggregation-record key of a title and height. -/
def calcTitleHeightKey (title : String) (height : Int) : Key := Key.titleHeight title height

/-- The message carried in `commit.Status`: only the three fields that
`action.go` reads. -/
structure ParacrossNodeStatus where
  Title : String
  Height : Int
  StateHash : String
  deriving DecidableEq, Repr

/-- The commit payload `types.ParacrossCommitAction`; `Status` is a pointer. -/
structure ParacrossCommitAction where
  Status : Option ParacrossNodeStatus
  deriving DecidableEq, Repr

/-- The title cursor `types.ParacrossStatus`. -/
structure ParacrossStatus where
  Title : String
  Height : Int
  deriving DecidableEq, Repr

/-- The vote lists `types.ParacrossStatusDetails`. -/
structure ParacrossStatusDetails where
  Addrs : List String
  StateHash : List String
  deriving DecidableEq, Repr

/-- The aggregation record `types.ParacrossHeightStatus`; `Details` is a
pointer. -/
structure ParacrossHeightStatus where
  Status : Int
  Title : String
  Height : Int
  Details : Option ParacrossStatusDetails
  deriving DecidableEq, Repr

/-- Modelled from the spec: status constant `pt.ParacrossStatusCommiting`
(declared in package `types/executor/paracross`); the spec lists the two
statuses Committing and Done, only their being different is used. -/
def ParacrossStatusCommiting : Int := 0

/-- Modelled from the spec: status constant `pt.ParacrossStatusDone`. -/
def ParacrossStatusDone : Int := 1

/-- The roster item `types.ConfigItem`, reduced to what `GetArr()` returns: the
string array when the item holds one. -/
structure ConfigItem where
  Arr : Option (List String)
  deriving DecidableEq, Repr

/-- Log payload `types.ReceiptParacrossCommit`. -/
structure ReceiptParacrossCommit where
  Addr : String
  Status : Option ParacrossNodeStatus
  Prev : Option ParacrossHeightStatus
  Current : Option ParacrossHeightStatus
  deriving DecidableEq, Repr

/-- Log payload `types.ReceiptParacrossRecord`. -/
structure ReceiptParacrossRecord where
  Addr : String
  Status : Option ParacrossNodeStatus
  deriving DecidableEq, Repr

/-- Log payload `types.ReceiptParacrossDone`. -/
structure ReceiptParacrossDone where
  N : List Int
  Title : String
  Height : Int
  StateHash : String
  deriving DecidableEq, Repr

/-- Modelled from the spec: the result of `types.Encode`.  Section 8 requires
that encoding followed by decoding is the identity on every persisted entity,
so an encoded message is represented by the message itself, tagged with its
type; `raw` stands for bytes that are no encoding of a message. -/
inductive Bytes where
  | configItem (c : ConfigItem)
  | paraStatus (s : ParacrossStatus)
  | heightStatus (s : ParacrossHeightStatus)
  | commitLog (l : ReceiptParacrossCommit)
  | recordLog (l : ReceiptParacrossRecord)
  | doneLog (l : ReceiptParacrossDone)
  | raw (data : List Nat)
  deriving DecidableEq, Repr

/-- Modelled from the spec: `types.Decode` into a `ConfigItem`. -/
def decodeConfigItem : Bytes → Except Err ConfigItem
  | Bytes.configItem c => Except.ok c
  | _ => Except.error Err.ErrDecode

/-- Modelled from the spec: `types.Decode` into a `ParacrossStatus`. -/
def decodeParacrossStatus : Bytes → Except Err ParacrossStatus
  | Bytes.paraStatus s => Except.ok s
  | _ => Except.error Err.ErrDecode

/-- Modelled from the spec: `types.Decode` into a `ParacrossHeightStatus`. -/
def decodeParacrossHeightStatus : Bytes → Except Err ParacrossHeightStatus
  | Bytes.heightStatus s => Except.ok s
  | _ => Except.error Err.ErrDecode

/-- The store `dbm.KV`: what `Get` returns for every key.  A key that was
never set answers `ErrNotFound`. -/
abbrev KV := Key → Except Err Bytes

/-- The store with no key set. -/
def emptyKV : KV := fun _ => Except.error Err.ErrNotFound

/-- Store write `db.Set(key, value)`. -/
def KV.set (db : KV) (key : Key) (value : Bytes) : KV :=
  fun k => if k = key then Except.ok value else db k

/-- Log kinds (`types.TyLogParacrossCommit`, `types.TyLogParacrossRecord`,
`types.TyLogParacrossDode`). -/
inductive LogTy where
  | TyLogParacrossCommit
  | TyLogParacrossRecord
  | TyLogParacrossDode
  deriving DecidableEq, Repr

/-- Receipt kinds; `action.go` only builds `ExecOk` receipts. -/
inductive ReceiptTy where
  | ExecErr
  | ExecPack
  | ExecOk
  deriving DecidableEq, Repr

/-- A receipt KV entry `types.KeyValue`. -/
structure KeyValue where
  Key : Key
  Value : Bytes
  deriving DecidableEq, Repr

/-- A receipt log entry `types.ReceiptLog`. -/
structure ReceiptLog where
  Ty : LogTy
  Log : Bytes
  deriving DecidableEq, Repr

/-- The receipt `types.Receipt`; a nil slice is the empty list. -/
structure Receipt where
  Ty : ReceiptTy
  KV : List KeyValue
  Logs : List ReceiptLog
  deriving DecidableEq, Repr

/-- The per-transaction context `action`; the store handle `db` is passed to
`Commit` separately and the coin-account handle is not used by `Commit`. -/
structure action where
  txhash : List Nat
  fromaddr : String
  blocktime : Int
  height : Int
  execaddr : String
  deriving DecidableEq, Repr

/-- What a call of `Commit` does: return a `(receipt, error)` pair, or panic. -/
inductive Outcome where
  | ret (receipt : Option Receipt) (err : Option Err)
  | panic
  deriving DecidableEq, Repr

/-! ## Machine arithmetic -/

/-- Two's-complement wrap of an integer to `int64`. -/
def wrapInt64 (x : Int) : Int := (x + 2 ^ 63) % 2 ^ 64 - 2 ^ 63

/-- Two's-complement wrap of an integer to `int32`. -/
def wrapInt32 (x : Int) : Int := (x + 2 ^ 31) % 2 ^ 32 - 2 ^ 31

/-- The integer nearest to `num / den`, ties going to the even one. -/
def roundNearestEven (num den : Nat) : Nat :=
  let q := num / den
  let r := num % den
  if 2 * r < den then q
  else if den < 2 * r then q + 1
  else if q % 2 = 0 then q else q + 1

/-- Position of the leading binary digit of `n` (`0` for `n < 2`), computed
with `fuel` halvings. -/
def log2Fuel : Nat → Nat → Nat
  | 0, _ => 0
  | fuel + 1, n => if 2 ≤ n then log2Fuel fuel (n / 2) + 1 else 0

/-- Rounding of the non-negative rational `num / den` to binary32, round to
nearest with ties to even.  The result `r` stands for the value
`r * 2 ^ (-149)`.  The unit in the last place is `2 ^ (e - 23)` for a value in
`[2 ^ e, 2 ^ (e + 1))` and `2 ^ (-149)` in the subnormal range.  Overflow to
infinity (values of `2 ^ 128` and more) is not represented: the operands below
are conversions of Go `int`s. -/
def float32Round (num den : Nat) : Nat :=
  let scaled := num * 2 ^ 149
  let ulp := 2 ^ (log2Fuel (scaled / den) (scaled / den) - 23)
  roundNearestEven scaled (den * ulp) * ulp

/-- The conversion `float32(n)` of an integer. -/
def float32OfInt (n : Int) : Int :=
  if n < 0 then -(float32Round n.natAbs 1 : Nat) else (float32Round n.natAbs 1 : Nat)

/-- The binary32 product `x * y`. -/
def float32Mul (x y : Int) : Int :=
  let mag : Int := (float32Round (x.natAbs * y.natAbs) (2 ^ 149 * 2 ^ 149) : Nat)
  if (x < 0) = (y < 0) then mag else -mag

/-- The binary32 quotient `x / y` (for `y ≠ 0`). -/
def float32Div (x y : Int) : Int :=
  let mag : Int := (float32Round x.natAbs y.natAbs : Nat)
  if (x < 0) = (y < 0) then mag else -mag

/-! ## The functions of `action.go` -/

/-- `getNodes`: the roster of a title. -/
def getNodes (db : KV) (title : String) : Except Err (List String) :=
  let key := calcConfigNodesKey title
  match db key with
  | Except.error err => Except.error err
  | Except.ok item =>
    match decodeConfigItem item with
    | Except.error err => Except.error err
    | Except.ok config =>
      match config.Arr with
      | none => Except.ok []
      | some value => Except.ok value

/-- `validTitle`: `len(title) > 0`. -/
def validTitle (title : String) : Bool := decide (title.length > 0)

/-- `validNode`: linear search of `addr` in `nodes`. -/
def validNode (addr : String) : List String → Bool
  | [] => false
  | n :: rest => if n = addr then true else validNode addr rest

/-- `checkCommitInfo`: `some e` is the returned error, `none` is `nil`. -/
def checkCommitInfo (commit : ParacrossCommitAction) : Option Err :=
  match commit.Status with
  | none => some Err.ErrInputPara
  | some status =>
    if status.StateHash.length = 0 then some Err.ErrInputPara
    else if !validTitle status.Title || decide (status.Height < 0) then some Err.ErrInputPara
    else none

/-- `isCommitDone`: the comparison
`float32(mostSameHash) > float32(len(nodes)) * float32(2) / float32(3)`,
every operation rounded to binary32. -/
def isCommitDone {α : Type} (_f : α) (nodes : List String) (mostSameHash : Int) : Bool :=
  decide (float32OfInt mostSameHash >
    float32Div (float32Mul (float32OfInt (nodes.length : Int)) (float32OfInt 2)) (float32OfInt 3))

/-- `makeCommitReceipt`; `none` is the nil dereference of `commit.Status`.
Both `types.Encode` calls run here, on the records as they are at the call. -/
def makeCommitReceipt (addr : String) (commit : ParacrossCommitAction)
    (prev : Option ParacrossHeightStatus) (current : ParacrossHeightStatus) : Option Receipt :=
  match commit.Status with
  | none => none
  | some status =>
    let key := calcTitleHeightKey status.Title status.Height
    let log : ReceiptParacrossCommit :=
      { Addr := addr, Status := commit.Status, Prev := prev, Current := some current }
    some
      { Ty := ReceiptTy.ExecOk
        KV := [{ Key := key, Value := Bytes.heightStatus current }]
        Logs := [{ Ty := LogTy.TyLogParacrossCommit, Log := Bytes.commitLog log }] }

/-- `makeRecordReceipt`. -/
def makeRecordReceipt (addr : String) (commit : ParacrossCommitAction) : Receipt :=
  let log : ReceiptParacrossRecord := { Addr := addr, Status := commit.Status }
  { Ty := ReceiptTy.ExecOk
    KV := []
    Logs := [{ Ty := LogTy.TyLogParacrossRecord, Log := Bytes.recordLog log }] }

/-- `makeDoneReceipt`; `none` is the nil dereference of `commit.Status`.  The
arguments `addr` and `current` are not used by the source either. -/
def makeDoneReceipt (_addr : String) (commit : ParacrossCommitAction)
    (_current : ParacrossHeightStatus) (most commitCount totalCount : Int) : Option Receipt :=
  match commit.Status with
  | none => none
  | some status =>
    let log : ReceiptParacrossDone :=
      { N := [most, commitCount, totalCount]
        Title := status.Title
        Height := status.Height
        StateHash := status.StateHash }
    some
      { Ty := ReceiptTy.ExecOk
        KV := []
        Logs := [{ Ty := LogTy.TyLogParacrossDode, Log := Bytes.doneLog log }] }

/-- The counting map of `getMostCommit`, as the list of its entries. -/
abbrev Stats := List (String × Int)

/-- One iteration of the counting loop: `stats[h]++` when `h` is a key of the
map, `stats[h] = 1` otherwise. -/
def bump : Stats → String → Stats
  | [], h => [(h, 1)]
  | (k, v) :: rest, h => if k = h then (k, v + 1) :: rest else (k, v) :: bump rest h

/-- The loop `for i := 0; i < n; i++` of `getMostCommit`, with `fuel = n - i`
iterations left; `none` is the index-out-of-range panic of `StateHash[i]`. -/
def countLoop (stateHash : List String) : Nat → Nat → Stats → Option Stats
  | 0, _, stats => some stats
  | fuel + 1, i, stats =>
    match stateHash.get? i with
    | none => none
    | some h => countLoop stateHash fuel (i + 1) (bump stats h)

/-- The loop `for k, v := range stats` of `getMostCommit` over the entries in
the order they are visited, from the current `(most, statHash)`. -/
def selectMost : List (String × Int) → Int × String → Int × String
  | [], acc => acc
  | (k, v) :: rest, (most, statHash) =>
    if v > most then selectMost rest (v, k) else selectMost rest (most, statHash)

/-- An iteration order of a map: the sequence in which `range` visits the
entries.  Go leaves it unspecified; a legitimate order is a permutation. -/
abbrev MapOrder := Stats → Stats

/-- A legitimate iteration order visits every entry exactly once. -/
def MapOrder.Legit (order : MapOrder) : Prop := ∀ stats, List.Perm (order stats) stats

/-- `getMostCommit`; `none` is a panic (nil `Details`, index out of range). -/
def getMostCommit (order : MapOrder) (stat : ParacrossHeightStatus) : Option (Int × String) :=
  match stat.Details with
  | none => none
  | some details =>
    let n := details.Addrs.length
    match countLoop details.StateHash n 0 [] with
    | none => none
    | some stats => some (selectMost (order stats) (-1, ""))

/-- Modelled from the spec: `getTitle` (defined in another file of the
package), section 4.2 `getCursor`: a missing key yields a cursor of height
`-1`; any other read error and a decode error are returned. -/
def getTitle (db : KV) (key : Key) : Except Err ParacrossStatus :=
  match db key with
  | Except.error err =>
    if err = Err.ErrNotFound then Except.ok { Title := "", Height := -1 }
    else Except.error err
  | Except.ok val => decodeParacrossStatus val

/-- Modelled from the spec: `getTitleHeight` (defined in another file of the
package), section 4.2 `getAgg`: the record, or `ErrNotFound`, or the read or
decode error. -/
def getTitleHeight (db : KV) (key : Key) : Except Err ParacrossHeightStatus :=
  match db key with
  | Except.error err => Except.error err
  | Except.ok val => decodeParacrossHeightStatus val

/-- Modelled from the spec: `saveTitle` (defined in another file of the
package), section 4.2 `putCursor`: write-through of the encoded cursor. -/
def saveTitle (db : KV) (key : Key) (title : ParacrossStatus) : KV :=
  db.set key (Bytes.paraStatus title)

/-- Modelled from the spec: `saveTitleHeight` (defined in another file of the
package), section 4.2 `putAgg`: write-through of the encoded record. -/
def saveTitleHeight (db : KV) (key : Key) (stat : ParacrossHeightStatus) : KV :=
  db.set key (Bytes.heightStatus stat)

/-- The tail of `Commit` from `commitCount := len(stat.Details.Addrs)` on:
tally, supermajority test, the Done receipt and the store writes. -/
def commitTally (order : MapOrder) (a : action) (db : KV) (commit : ParacrossCommitAction)
    (status : ParacrossNodeStatus) (nodes : List String) (titleStatus : ParacrossStatus)
    (stat : ParacrossHeightStatus) (receipt : Receipt) : KV × Outcome :=
  match stat.Details with
  | none => (db, Outcome.panic)
  | some details =>
    let commitCount : Int := details.Addrs.length
    match getMostCommit order stat with
    | none => (db, Outcome.panic)
    | some (most, _) =>
      if isCommitDone stat nodes most then
        let stat := { stat with Status := ParacrossStatusDone }
        match makeDoneReceipt a.fromaddr commit stat (wrapInt32 most) (wrapInt32 commitCount)
            (wrapInt32 nodes.length) with
        | none => (db, Outcome.panic)
        | some receiptDone =>
          let receipt :=
            { receipt with
              KV := receipt.KV ++ receiptDone.KV
              Logs := receipt.Logs ++ receiptDone.Logs }
          let db := saveTitleHeight db (calcTitleHeightKey status.Title status.Height) stat
          let titleStatus :=
            { titleStatus with Title := status.Title, Height := status.Height }
          let db := saveTitle db (calcTitleKey status.Title) titleStatus
          (db, Outcome.ret (some receipt) none)
      else
        let db := saveTitleHeight db (calcTitleHeightKey status.Title status.Height) stat
        (db, Outcome.ret (some receipt) none)

/-- The part of `Commit` that handles the current height: read of the record,
first vote or further vote, then `commitTally`. -/
def commitCurrent (order : MapOrder) (a : action) (db : KV) (commit : ParacrossCommitAction)
    (status : ParacrossNodeStatus) (nodes : List String) (titleStatus : ParacrossStatus) :
    KV × Outcome :=
  match getTitleHeight db (calcTitleHeightKey status.Title status.Height) with
  | Except.error err =>
    if err ≠ Err.ErrNotFound then (db, Outcome.ret none (some err))
    else
      let stat : ParacrossHeightStatus :=
        { Status := ParacrossStatusCommiting
          Title := status.Title
          Height := status.Height
          Details := some { Addrs := [a.fromaddr], StateHash := [status.StateHash] } }
      match makeCommitReceipt a.fromaddr commit none stat with
      | none => (db, Outcome.panic)
      | some receipt => commitTally order a db commit status nodes titleStatus stat receipt
  | Except.ok stat =>
    match stat.Details with
    | none => (db, Outcome.panic)
    | some details =>
      -- `copyStat := *stat` copies the pointer `Details`: the two appends below
      -- are seen through `copyStat.Details` as well.
      let details : ParacrossStatusDetails :=
        { Addrs := details.Addrs ++ [a.fromaddr]
          StateHash := details.StateHash ++ [status.StateHash] }
      let copyStat := { stat with Details := some details }
      let stat := { stat with Details := some details }
      match makeCommitReceipt a.fromaddr commit (some copyStat) stat with
      | none => (db, Outcome.panic)
      | some receipt => commitTally order a db commit status nodes titleStatus stat receipt

/-- `(a *action) Commit`: the store after the call and its outcome. -/
def Commit (order : MapOrder) (a : action) (db : KV) (commit : ParacrossCommitAction) :
    KV × Outcome :=
  match checkCommitInfo commit with
  | some err => (db, Outcome.ret none (some err))
  | none =>
    match commit.Status with
    | none => (db, Outcome.panic)
    | some status =>
      if !validTitle status.Title then (db, Outcome.ret none (some Err.ErrInputPara))
      else
        match getNodes db status.Title with
        | Except.error _ => (db, Outcome.ret none (some Err.ErrInputPara))
        | Except.ok nodes =>
          if !validNode a.fromaddr nodes then (db, Outcome.ret none (some Err.ErrInputPara))
          else
            match getTitle db (calcTitleKey status.Title) with
            | Except.error err => (db, Outcome.ret none (some err))
            | Except.ok titleStatus =>
              if status.Height > wrapInt64 (titleStatus.Height + 1) then
                (db, Outcome.ret none (some Err.ErrInputPara))
              else if status.Height ≤ titleStatus.Height then
                (db, Outcome.ret (some (makeRecordReceipt a.fromaddr commit)) none)
              else commitCurrent order a db commit status nodes titleStatus

/-! ## Sample inputs -/

/-- A store holding nothing but the roster `nodes` of `title`. -/
def rosterKV (title : String) (nodes : List String) : KV :=
  emptyKV.set (calcConfigNodesKey title) (Bytes.configItem { Arr := some nodes })

/-- A transaction context with sender `fromaddr`. -/
def mkAction (fromaddr : String) : action :=
  { txhash := [], fromaddr := fromaddr, blocktime := 0, height := 0, execaddr := "" }

/-- A commit payload `(title, height, stateHash)`. -/
def mkCommit (title : String) (height : Int) (stateHash : String) : ParacrossCommitAction :=
  { Status := some { Title := title, Height := height, StateHash := stateHash } }

/-- A Committing record of `title` at `height` with the given votes. -/
def mkRecord (title : String) (height : Int) (addrs hashes : List String) :
    ParacrossHeightStatus :=
  { Status := ParacrossStatusCommiting
    Title := title
    Height := height
    Details := some { Addrs := addrs, StateHash := hashes } }

/-- Roster `A, B, C, D` of title `T`, no cursor, and a record at height 0 in
which `A` has voted `h`. -/
def votedKV : KV :=
  (rosterKV "T" ["A", "B", "C", "D"]).set (calcTitleHeightKey "T" 0)
    (Bytes.heightStatus (mkRecord "T" 0 ["A"] ["h"]))

/-- The log kinds of a receipt, in order. -/
def logKinds (r : Receipt) : List LogTy := r.Logs.map ReceiptLog.Ty

/-- Roster `A, B, C, D` of title `T`, no cursor, and a record at height 0
that lists the address `B` but no state hash. -/
def shortVoteKV : KV :=
  (rosterKV "T" ["A", "B", "C", "D"]).set (calcTitleHeightKey "T" 0)
    (Bytes.heightStatus (mkRecord "T" 0 ["B"] []))

/-- Roster `nodes` of title `T` and a cursor of `T` at `height`. -/
def cursorKV (nodes : List String) (height : Int) : KV :=
  (rosterKV "T" nodes).set (calcTitleKey "T")
    (Bytes.paraStatus { Title := "T", Height := height })

/-- Whether a call returned a receipt that carries a Done log. -/
def emitsDone : Outcome → Bool
  | Outcome.ret (some r) none => decide (LogTy.TyLogParacrossDode ∈ logKinds r)
  | _ => false

/-- The cursor height of `title` as `getTitle` reads it from the store. -/
def cursorHeight (db : KV) (title : String) : Except Err Int :=
  match getTitle db (calcTitleKey title) with
  | Except.error err => Except.error err
  | Except.ok titleStatus => Except.ok titleStatus.Height

/-- The value range of `int64`. -/
def isInt64 (x : Int) : Prop := -2 ^ 63 ≤ x ∧ x < 2 ^ 63

/-- The call with result `res` put the record of `title` at height `cur + 1`
into status Done: the payload is for that title and height, the receipt
carries a Done log, and the record stored after the call has status Done. -/
def putsDone (title : String) (cur : Int) (commit : ParacrossCommitAction)
    (res : KV × Outcome) : Prop :=
  ∃ status stat, commit.Status = some status ∧ status.Title = title ∧
    status.Height = cur + 1 ∧ emitsDone res.2 = true ∧
    getTitleHeight res.1 (calcTitleHeightKey title (cur + 1)) = Except.ok stat ∧
    stat.Status = ParacrossStatusDone

/-- A sequence of `Commit` calls, each with its own map iteration order,
applied to a store from left to right; the outcomes are dropped. -/
def runCommits : List (MapOrder × action × ParacrossCommitAction) → KV → KV
  | [], db => db
  | (order, a, commit) :: rest, db => runCommits rest (Commit order a db commit).1

/-- The counting map after the counting loop has run over the hashes `l`. -/
def tally (l : List String) : Stats := l.foldl bump []

/-- The value `stats[h]` of the counting map, `0` for a missing key. -/
def statOf : Stats → String → Int
  | [], _ => 0
  | (k, v) :: rest, h => if k = h then v else statOf rest h

/-- The record that `Commit` creates for the first vote at a height. -/
def firstVote (a : action) (status : ParacrossNodeStatus) : ParacrossHeightStatus :=
  { Status := ParacrossStatusCommiting
    Title := status.Title
    Height := status.Height
    Details := some { Addrs := [a.fromaddr], StateHash := [status.StateHash] } }

/-- The stored record `old`, with details `od`, after `Commit` has appended
the vote of the call. -/
def addVote (a : action) (status : ParacrossNodeStatus) (old : ParacrossHeightStatus)
    (od : ParacrossStatusDetails) : ParacrossHeightStatus :=
  { old with
    Details := some
      { Addrs := od.Addrs ++ [a.fromaddr], StateHash := od.StateHash ++ [status.StateHash] } }

/-- The receipt that `makeCommitReceipt` builds for the record `stat`. -/
def commitReceiptOf (a : action) (status : ParacrossNodeStatus)
    (prev : Option ParacrossHeightStatus) (stat : ParacrossHeightStatus) : Receipt :=
  { Ty := ReceiptTy.ExecOk
    KV := [{ Key := calcTitleHeightKey status.Title status.Height,
             Value := Bytes.heightStatus stat }]
    Logs := [{ Ty := LogTy.TyLogParacrossCommit,
               Log := Bytes.commitLog
                { Addr := a.fromaddr, Status := some status, Prev := prev,
                  Current := some stat } }] }

/-- The Done log that `Commit` appends for a tally `most` over a record with
details `details` and a roster `nodes`. -/
def doneLogOf (status : ParacrossNodeStatus) (nodes : List String)
    (details : ParacrossStatusDetails) (most : Int) : ReceiptLog :=
  { Ty := LogTy.TyLogParacrossDode
    Log := Bytes.doneLog
      { N := [wrapInt32 most, wrapInt32 (details.Addrs.length : Int),
          wrapInt32 (nodes.length : Int)]
        Title := status.Title
        Height := status.Height
        StateHash := status.StateHash } }

/-- The result `res` of a call that accepted a vote at the current height:
the record `stat` that was tallied is the first vote or the stored record with
the vote appended, and `res` is the Commit receipt with `stat` written, or,
when the tally passes `isCommitDone`, that receipt with the Done log and with
the Done record and the cursor written. -/
def acceptedVote (order : MapOrder) (a : action) (db : KV) (status : ParacrossNodeStatus)
    (nodes : List String) (titleStatus : ParacrossStatus) (res : KV × Outcome) : Prop :=
  ∃ stat details prev most winner,
    ((getTitleHeight db (calcTitleHeightKey status.Title status.Height) =
          Except.error Err.ErrNotFound ∧
        prev = none ∧ stat = firstVote a status) ∨
      ∃ old od,
        getTitleHeight db (calcTitleHeightKey status.Title status.Height) = Except.ok old ∧
          old.Details = some od ∧ stat = addVote a status old od ∧ prev = some stat) ∧
    stat.Details = some details ∧
    getMostCommit order stat = some (most, winner) ∧
    ((isCommitDone stat nodes most = false ∧
        res =
          (saveTitleHeight db (calcTitleHeightKey status.Title status.Height) stat,
            Outcome.ret (some (commitReceiptOf a status prev stat)) none)) ∨
      (isCommitDone stat nodes most = true ∧
        res =
          (saveTitle
              (saveTitleHeight db (calcTitleHeightKey status.Title status.Height)
                { stat with Status := ParacrossStatusDone })
              (calcTitleKey status.Title)
              { titleStatus with Title := status.Title, Height := status.Height },
            Outcome.ret
              (some
                { commitReceiptOf a status prev stat with
                  Logs := (commitReceiptOf a status prev stat).Logs ++
                    [doneLogOf status nodes details most] })
              none)))

/-- A store whose roster entry for `T` holds bytes that do not decode. -/
def garbledRosterKV : KV := emptyKV.set (calcConfigNodesKey "T") (Bytes.raw [0])

/-- Roster `C, D` of title `T`, no cursor, and a record at height 0 with the
votes `A: y` and `B: y` (cast while the roster was larger). -/
def shrunkRosterKV : KV :=
  (rosterKV "T" ["C", "D"]).set (calcTitleHeightKey "T" 0)
    (Bytes.heightStatus (mkRecord "T" 0 ["A", "B"] ["y", "y"]))

/-- Roster `A, B, C, D` of title `T`, no cursor, and a record at height 0 with
the votes `A: x`, `B: y`, `C: y`. -/
def xyyKV : KV :=
  (rosterKV "T" ["A", "B", "C", "D"]).set (calcTitleHeightKey "T" 0)
    (Bytes.heightStatus (mkRecord "T" 0 ["A", "B", "C"] ["x", "y", "y"]))

/-- Roster `A, B, C, D` of title `T`, no cursor, and a record at height 0 with
the votes `C: x`, `D: x`. -/
def xxKV : KV :=
  (rosterKV "T" ["A", "B", "C", "D"]).set (calcTitleHeightKey "T" 0)
    (Bytes.heightStatus (mkRecord "T" 0 ["C", "D"] ["x", "x"]))

/-- No aggregation record is stored. -/
def NoRecords (db : KV) : Prop :=
  ∀ title height, db (calcTitleHeightKey title height) = Except.error Err.ErrNotFound

/-- No cursor is stored. -/
def NoCursors (db : KV) : Prop :=
  ∀ title, db (calcTitleKey title) = Except.error Err.ErrNotFound

/-- Every stored cursor height is an `int64` value. -/
def CursorsInt64 (db : KV) : Prop :=
  ∀ title titleStatus, getTitle db (calcTitleKey title) = Except.ok titleStatus →
    isInt64 titleStatus.Height

/-- Every call of the sequence visits the counting map in a legitimate order. -/
def LegitCalls (calls : List (MapOrder × action × ParacrossCommitAction)) : Prop :=
  ∀ call ∈ calls, call.1.Legit

/-- The number `m` is the largest multiplicity of a hash in `l`. -/
def maxVotes (l : List String) (m : Int) : Prop :=
  (∀ h, (l.count h : Int) ≤ m) ∧ ∃ h ∈ l, (l.count h : Int) = m

/-- Invariant of the stored records: the cursors are `int64` values, and every
stored record lies at most one height above the cursor of its title, has
details with as many addresses as state hashes, and lies at or below the cursor
when its status is Done. -/
def RecordsOk (db : KV) : Prop :=
  CursorsInt64 db ∧
    ∀ title height stat,
      getTitleHeight db (calcTitleHeightKey title height) = Except.ok stat →
      ∃ titleStatus details,
        getTitle db (calcTitleKey title) = Except.ok titleStatus ∧
          height ≤ titleStatus.Height + 1 ∧
          stat.Details = some details ∧
          details.Addrs.length = details.StateHash.length ∧
          (stat.Status = ParacrossStatusDone → height ≤ titleStatus.Height)

/-- Invariant of the record at the current height of a title: its largest
multiplicity does not pass `isCommitDone` for the roster of the title. -/
def CurrentNotDone (db : KV) : Prop :=
  ∀ title titleStatus stat details nodes m,
    getTitle db (calcTitleKey title) = Except.ok titleStatus →
    getTitleHeight db (calcTitleHeightKey title (titleStatus.Height + 1)) = Except.ok stat →
    stat.Details = some details →
    getNodes db title = Except.ok nodes →
    maxVotes details.StateHash m →
    isCommitDone () nodes m = false

/-- Roster `A, B, C, D` of title `T`, the commits `A: y` and `B: y` for height
0 applied by `Commit`, and then the roster of `T` replaced by `C, D`. -/
def shrinkingRosterKV : KV :=
  (runCommits [(id, mkAction "A", mkCommit "T" 0 "y"), (id, mkAction "B", mkCommit "T" 0 "y")]
      (rosterKV "T" ["A", "B", "C", "D"])).set
    (calcConfigNodesKey "T") (Bytes.configItem { Arr := some ["C", "D"] })

/-! ## Binary32 rounding -/

theorem log2Fuel_eq (fuel n : Nat) (h : n ≤ fuel) : log2Fuel fuel n = Nat.log2 n := by
  induction fuel generalizing n with
  | zero =>
    have : n = 0 := by omega
    subst this; simp [log2Fuel, Nat.log2]
  | succ k ih =>
    rw [log2Fuel, Nat.log2]
    by_cases h2 : 2 ≤ n
    · have : n / 2 ≤ k := by omega
      simp [h2, ih _ this]
    · simp [h2]

theorem roundNearestEven_exact (k den : Nat) (h : 0 < den) :
    roundNearestEven (k * den) den = k := by
  unfold roundNearestEven
  have h1 : k * den / den = k := Nat.mul_div_cancel k h
  have h2 : k * den % den = 0 := Nat.mul_mod_left k den
  simp [h1, h2, h]

theorem roundNearestEven_bounds (num den : Nat) (h : 0 < den) :
    2 * (roundNearestEven num den * den) ≤ 2 * num + den ∧
      2 * num ≤ 2 * (roundNearestEven num den * den) + den := by
  unfold roundNearestEven
  have e : num / den * den + num % den = num := Nat.div_add_mod' num den
  have hr : num % den < den := Nat.mod_lt _ h
  generalize num / den = q at *
  generalize num % den = r at *
  simp only []
  split_ifs <;> (try simp only [Nat.add_mul, Nat.one_mul]) <;> constructor <;> omega

/-- The unit in the last place chosen by `float32Round` is at most
`2 ^ (k - 23)` when the scaled value is below `2 ^ (k + 1)`. -/
theorem ulp_le (F k : Nat) (hF : F < 2 ^ (k + 1)) :
    2 ^ (log2Fuel F F - 23) ≤ 2 ^ (k - 23) := by
  rw [log2Fuel_eq F F (le_refl _)]
  apply Nat.pow_le_pow_right (by norm_num)
  by_cases h0 : F = 0
  · subst h0; simp [Nat.log2_zero]
  · have : F.log2 < k + 1 := (Nat.log2_lt h0).2 hF
    omega

theorem ulp_mul_le (F : Nat) (hF : 2 ^ 23 ≤ F) :
    2 ^ (log2Fuel F F - 23) * 2 ^ 23 ≤ F := by
  rw [log2Fuel_eq F F (le_refl _)]
  have h0 : F ≠ 0 := by
    intro h; subst h; simp at hF
  have h23 : 23 ≤ F.log2 := (Nat.le_log2 h0).2 hF
  rw [← Nat.pow_add, Nat.sub_add_cancel h23]
  exact Nat.log2_self_le h0

theorem float32Round_bounds (num den : Nat) (h : 0 < den) :
    ∃ u, u = 2 ^ (log2Fuel (num * 2 ^ 149 / den) (num * 2 ^ 149 / den) - 23) ∧
      2 * (float32Round num den * den) ≤ 2 * (num * 2 ^ 149) + den * u ∧
      2 * (num * 2 ^ 149) ≤ 2 * (float32Round num den * den) + den * u := by
  refine ⟨_, rfl, ?_⟩
  unfold float32Round
  simp only []
  have hu : 0 < 2 ^ (log2Fuel (num * 2 ^ 149 / den) (num * 2 ^ 149 / den) - 23) :=
    by positivity
  generalize 2 ^ (log2Fuel (num * 2 ^ 149 / den) (num * 2 ^ 149 / den) - 23) = u at hu
  have hb := roundNearestEven_bounds (num * 2 ^ 149) (den * u) (Nat.mul_pos h hu)
  have e : roundNearestEven (num * 2 ^ 149) (den * u) * u * den
      = roundNearestEven (num * 2 ^ 149) (den * u) * (den * u) := by ring
  rw [e]
  exact hb

/-- A value `m * 2 ^ j` (in units of `2 ^ (-149)`) with `m < 2 ^ 24` is a
binary32 value: rounding returns it. -/
theorem float32Round_exact (num den m j : Nat) (h : 0 < den) (hm : m < 2 ^ 24)
    (hq : num * 2 ^ 149 = m * 2 ^ j * den) : float32Round num den = m * 2 ^ j := by
  unfold float32Round
  simp only []
  have hF : num * 2 ^ 149 / den = m * 2 ^ j := by
    rw [hq]; exact Nat.mul_div_cancel _ h
  rw [hF, log2Fuel_eq _ _ (le_refl _)]
  by_cases hm0 : m = 0
  · subst hm0
    have hz : num * 2 ^ 149 = 0 := by simpa using hq
    rw [hz]
    simp [roundNearestEven]
  have hpos : m * 2 ^ j ≠ 0 := Nat.mul_ne_zero hm0 (by positivity)
  have hlog : (m * 2 ^ j).log2 < 24 + j := by
    rw [Nat.log2_lt hpos, Nat.pow_add]
    exact Nat.mul_lt_mul_of_pos_right hm (by positivity)
  have hle : (m * 2 ^ j).log2 - 23 ≤ j := by omega
  obtain ⟨d, hd⟩ := Nat.exists_eq_add_of_le hle
  generalize (m * 2 ^ j).log2 - 23 = e at hd
  subst hd
  have e1 : m * 2 ^ (e + d) * den = (m * 2 ^ d) * (den * 2 ^ e) := by
    rw [Nat.pow_add]; ring
  rw [hq, e1, roundNearestEven_exact _ _ (Nat.mul_pos h (by positivity)), Nat.pow_add]
  ring

theorem float32OfInt_small (k : Nat) (h : k < 2 ^ 24) :
    float32OfInt (k : Int) = ((k * 2 ^ 149 : Nat) : Int) := by
  unfold float32OfInt
  have hk : ¬ ((k : Int) < 0) := by omega
  rw [if_neg hk, Int.natAbs_ofNat, float32Round_exact k 1 k 149 (by norm_num) h (by ring)]

theorem float32OfInt_nat (k : Nat) :
    float32OfInt (k : Int) = ((float32Round k 1 : Nat) : Int) := by
  unfold float32OfInt
  have hk : ¬ ((k : Int) < 0) := by omega
  rw [if_neg hk, Int.natAbs_ofNat]

theorem float32Mul_nat (a b : Nat) :
    float32Mul (a : Int) (b : Int) = ((float32Round (a * b) (2 ^ 149 * 2 ^ 149) : Nat) : Int) := by
  unfold float32Mul
  have ha : ¬ ((a : Int) < 0) := by omega
  have hb : ¬ ((b : Int) < 0) := by omega
  simp [ha, hb]

theorem float32Div_nat (a b : Nat) :
    float32Div (a : Int) (b : Int) = ((float32Round a b : Nat) : Int) := by
  unfold float32Div
  have ha : ¬ ((a : Int) < 0) := by omega
  have hb : ¬ ((b : Int) < 0) := by omega
  simp [ha, hb]

/-- The right-hand side of the comparison in `isCommitDone`, for a roster of
`n` nodes. -/
theorem twoThirds_eq (n : Nat) (hn : n < 2 ^ 24) :
    float32Div (float32Mul (float32OfInt (n : Int)) (float32OfInt 2)) (float32OfInt 3)
      = ((float32Round (n * 2 ^ 150) (3 * 2 ^ 149) : Nat) : Int) := by
  have h2 : float32OfInt 2 = ((2 * 2 ^ 149 : Nat) : Int) := float32OfInt_small 2 (by norm_num)
  have h3 : float32OfInt 3 = ((3 * 2 ^ 149 : Nat) : Int) := float32OfInt_small 3 (by norm_num)
  rw [float32OfInt_small n hn, h2, h3, float32Mul_nat,
    float32Round_exact (n * 2 ^ 149 * (2 * 2 ^ 149)) (2 ^ 149 * 2 ^ 149) n 150 (by positivity) hn
      (by ring),
    float32Div_nat]

theorem twoThirds_exact (t : Nat) (ht : t ≤ 2 ^ 22) :
    float32Round (3 * t * 2 ^ 150) (3 * 2 ^ 149) = 2 * t * 2 ^ 149 :=
  float32Round_exact _ _ (2 * t) 149 (by positivity) (by omega) (by ring)

theorem twoThirds_bounds (n : Nat) (hn : n < 3 * 2 ^ 22) :
    6 * float32Round (n * 2 ^ 150) (3 * 2 ^ 149) ≤ 4 * n * 2 ^ 149 + 3 * 2 ^ 148 ∧
      4 * n * 2 ^ 149 ≤ 6 * float32Round (n * 2 ^ 150) (3 * 2 ^ 149) + 3 * 2 ^ 148 := by
  obtain ⟨u, hu, h1, h2⟩ := float32Round_bounds (n * 2 ^ 150) (3 * 2 ^ 149) (by positivity)
  have hF : n * 2 ^ 150 * 2 ^ 149 / (3 * 2 ^ 149) < 2 ^ (171 + 1) := by
    rw [Nat.div_lt_iff_lt_mul (by positivity)]
    omega
  have hu2 : u ≤ 2 ^ (171 - 23) := hu ▸ ulp_le _ 171 hF
  generalize float32Round (n * 2 ^ 150) (3 * 2 ^ 149) = c at *
  constructor <;> omega

theorem float32OfInt_large (k : Nat) (hk : 2 ^ 24 ≤ k) :
    (2 ^ 24 - 1) * 2 ^ 149 ≤ float32Round k 1 := by
  obtain ⟨u, hu, h1, h2⟩ := float32Round_bounds k 1 (by norm_num)
  have hF : 2 ^ 23 ≤ k * 2 ^ 149 / 1 := by
    rw [Nat.div_one]; omega
  have hu2 := ulp_mul_le _ hF
  rw [← hu, Nat.div_one] at hu2
  generalize float32Round k 1 = c at *
  omega

theorem isCommitDone_iff_nat (n mo : Nat) (hn : n ≤ 12582912) :
    float32Round (n * 2 ^ 150) (3 * 2 ^ 149) < float32Round mo 1 ↔ 2 * n < mo * 3 := by
  have hc : float32Round (n * 2 ^ 150) (3 * 2 ^ 149) ≤ 2 ^ 23 * 2 ^ 149 ∧
      ∀ m, m < 2 ^ 24 →
        (float32Round (n * 2 ^ 150) (3 * 2 ^ 149) < m * 2 ^ 149 ↔ 2 * n < m * 3) := by
    by_cases h3 : n % 3 = 0
    · obtain ⟨t, rfl⟩ : ∃ t, n = 3 * t := ⟨n / 3, by omega⟩
      rw [twoThirds_exact t (by omega)]
      constructor
      · omega
      · intro m _; omega
    · have hb := twoThirds_bounds n (by omega)
      have hn1 : n ≤ 12582911 := by omega
      generalize float32Round (n * 2 ^ 150) (3 * 2 ^ 149) = c at *
      constructor
      · omega
      · intro m _
        have hne : 2 * n ≠ m * 3 := by omega
        by_cases hlt : 2 * n < m * 3
        · simp only [hlt, iff_true]; omega
        · simp only [hlt, iff_false]; omega
  by_cases hm : mo < 2 ^ 24
  · rw [float32Round_exact mo 1 mo 149 (by norm_num) hm (by ring)]
    exact hc.2 mo hm
  · have hl := float32OfInt_large mo (by omega)
    have h1 := hc.1
    constructor
    · intro _; omega
    · intro _; omega

/-! ## C1: the supermajority predicate -/

/-- C1 (as amended): for every roster of at most 12582912 nodes and every
integer `mostSameHash >= 0`, `isCommitDone` returns true exactly when
`mostSameHash * 3 > 2 * len(nodes)` in exact integer arithmetic. -/
theorem isCommitDone_iff_exact {α : Type} (f : α) (nodes : List String) (mostSameHash : Int)
    (hn : nodes.length ≤ 12582912) (h0 : 0 ≤ mostSameHash) :
    isCommitDone f nodes mostSameHash = true ↔ mostSameHash * 3 > 2 * (nodes.length : Int) := by
  obtain ⟨mo, rfl⟩ := Int.eq_ofNat_of_zero_le h0
  unfold isCommitDone
  rw [twoThirds_eq nodes.length (by omega), float32OfInt_nat, decide_eq_true_eq]
  have h := isCommitDone_iff_nat nodes.length mo hn
  constructor
  · intro hgt
    have : float32Round (nodes.length * 2 ^ 150) (3 * 2 ^ 149) < float32Round mo 1 := by
      exact_mod_cast hgt
    have := h.1 this
    omega
  · intro hgt
    have : 2 * nodes.length < mo * 3 := by omega
    have := h.2 this
    exact_mod_cast this

set_option maxRecDepth 100000 in
/-- C1, witness: the boundary cases 1 of 1 (Done), 2 of 3 (not Done) and 3 of 4
(Done). -/
theorem isCommitDone_iff_exact_witness :
    (["A", "B", "C", "D"].length ≤ 12582912 ∧ (0 : Int) ≤ 3 ∧
      (isCommitDone () ["A", "B", "C", "D"] 3 = true ↔
        (3 : Int) * 3 > 2 * (["A", "B", "C", "D"].length : Int))) ∧
      isCommitDone () ["A"] 1 = true ∧ isCommitDone () ["A", "B", "C"] 2 = false ∧
      isCommitDone () ["A", "B", "C", "D"] 3 = true :=
  ⟨⟨by decide, by decide,
      isCommitDone_iff_exact () ["A", "B", "C", "D"] 3 (by decide) (by decide)⟩,
    by decide, by decide, by decide⟩

set_option maxRecDepth 100000 in
/-- C1, counterexample: with a roster of 12582913 nodes and 8388609 equal
votes, `8388609 * 3 > 2 * 12582913` holds in exact arithmetic, but
`float32(12582913) * 2 / 3` rounds up to 8388609 and `isCommitDone` is false. -/
theorem isCommitDone_not_exact :
    isCommitDone () (List.replicate 12582913 "n") 8388609 = false ∧
      (8388609 : Int) * 3 > 2 * ((List.replicate 12582913 "n").length : Int) := by
  have h : (List.replicate 12582913 "n").length = 12582913 := List.length_replicate _ _
  unfold isCommitDone
  rw [h]
  decide


/-! ## The store and the helpers -/

theorem KV.set_same (db : KV) (key : Key) (value : Bytes) : db.set key value key = Except.ok value := by
  simp [KV.set]

theorem KV.set_other (db : KV) (key k : Key) (value : Bytes) (h : k ≠ key) :
    db.set key value k = db k := by
  simp [KV.set, h]

theorem validNode_iff (addr : String) (nodes : List String) :
    validNode addr nodes = true ↔ addr ∈ nodes := by
  induction nodes with
  | nil => simp [validNode]
  | cons n rest ih =>
    by_cases h : n = addr
    · simp [validNode, h]
    · have h2 : ¬ addr = n := fun e => h e.symm
      simp [validNode, h, h2, ih]

/-- The counting loop runs through exactly when every index it reads exists. -/
theorem countLoop_isSome (stateHash : List String) (fuel i : Nat) (stats : Stats) :
    (countLoop stateHash fuel i stats).isSome = true ↔ (fuel = 0 ∨ i + fuel ≤ stateHash.length) := by
  induction fuel generalizing i stats with
  | zero => simp [countLoop]
  | succ k ih =>
    rw [countLoop]
    cases h : stateHash.get? i with
    | none =>
      have : stateHash.length ≤ i := List.get?_eq_none.1 h
      simp
      omega
    | some s =>
      have hi : i < stateHash.length := by
        by_contra hc
        have := List.get?_eq_none.2 (Nat.le_of_not_lt hc)
        rw [this] at h
        cases h
      simp only [ih]
      constructor
      · intro hk
        right
        rcases hk with rfl | hk <;> omega
      · intro hk
        right
        rcases hk with hk | hk <;> omega

/-- The tally of a record does not panic when the record has details with at
least as many state hashes as addresses. -/
theorem getMostCommit_isSome (order : MapOrder) (stat : ParacrossHeightStatus)
    (details : ParacrossStatusDetails) (hd : stat.Details = some details)
    (hlen : details.Addrs.length ≤ details.StateHash.length) :
    ∃ most winner, getMostCommit order stat = some (most, winner) := by
  have h := (countLoop_isSome details.StateHash details.Addrs.length 0 []).2
    (Or.inr (by omega))
  obtain ⟨stats, hstats⟩ := Option.isSome_iff_exists.1 h
  refine ⟨(selectMost (order stats) (-1, "")).1, (selectMost (order stats) (-1, "")).2, ?_⟩
  simp [getMostCommit, hd, hstats]

/-- The three ways the tail of `Commit` ends. -/
theorem commitTally_cases (order : MapOrder) (a : action) (db : KV) (commit : ParacrossCommitAction)
    (status : ParacrossNodeStatus) (nodes : List String) (titleStatus : ParacrossStatus)
    (stat : ParacrossHeightStatus) (receipt : Receipt) (hs : commit.Status = some status) :
    (commitTally order a db commit status nodes titleStatus stat receipt = (db, Outcome.panic) ∧
        getMostCommit order stat = none) ∨
      (∃ most winner, getMostCommit order stat = some (most, winner) ∧
        isCommitDone stat nodes most = false ∧
        commitTally order a db commit status nodes titleStatus stat receipt =
          (saveTitleHeight db (calcTitleHeightKey status.Title status.Height) stat,
            Outcome.ret (some receipt) none)) ∨
      (∃ most winner details, getMostCommit order stat = some (most, winner) ∧
        stat.Details = some details ∧
        isCommitDone stat nodes most = true ∧
        commitTally order a db commit status nodes titleStatus stat receipt =
          (saveTitle
              (saveTitleHeight db (calcTitleHeightKey status.Title status.Height)
                { stat with Status := ParacrossStatusDone })
              (calcTitleKey status.Title)
              { titleStatus with Title := status.Title, Height := status.Height },
            Outcome.ret
              (some
                { receipt with
                  KV := receipt.KV
                  Logs := receipt.Logs ++
                    [{ Ty := LogTy.TyLogParacrossDode
                       Log := Bytes.doneLog
                        { N := [wrapInt32 most, wrapInt32 (details.Addrs.length : Int),
                            wrapInt32 (nodes.length : Int)]
                          Title := status.Title
                          Height := status.Height
                          StateHash := status.StateHash } }] })
              none)) := by
  unfold commitTally
  cases hd : stat.Details with
  | none =>
    left
    simp [getMostCommit, hd]
  | some details =>
    cases hm : getMostCommit order stat with
    | none => left; simp
    | some mw =>
      obtain ⟨most, winner⟩ := mw
      by_cases hdone : isCommitDone stat nodes most = true
      · right; right
        refine ⟨most, winner, details, rfl, rfl, hdone, ?_⟩
        simp [hdone, makeDoneReceipt, hs]
      · right; left
        refine ⟨most, winner, rfl, by simpa using hdone, ?_⟩
        simp [hdone]

/-- The tail of `Commit`, started on a Commit receipt for `stat`, ends in a
panic, in that receipt with `stat` written, or in that receipt extended by a
Done log with the Done record and the cursor written. -/
theorem commitTally_shape (order : MapOrder) (a : action) (db : KV)
    (commit : ParacrossCommitAction) (status : ParacrossNodeStatus) (nodes : List String)
    (titleStatus : ParacrossStatus) (stat : ParacrossHeightStatus)
    (log : ReceiptParacrossCommit) (hs : commit.Status = some status) :
    (∃ e, commitTally order a db commit status nodes titleStatus stat
          { Ty := ReceiptTy.ExecOk
            KV := [{ Key := calcTitleHeightKey status.Title status.Height,
                     Value := Bytes.heightStatus stat }]
            Logs := [{ Ty := LogTy.TyLogParacrossCommit, Log := Bytes.commitLog log }] } =
        (db, Outcome.ret none (some e))) ∨
      commitTally order a db commit status nodes titleStatus stat
          { Ty := ReceiptTy.ExecOk
            KV := [{ Key := calcTitleHeightKey status.Title status.Height,
                     Value := Bytes.heightStatus stat }]
            Logs := [{ Ty := LogTy.TyLogParacrossCommit, Log := Bytes.commitLog log }] } =
        (db, Outcome.panic) ∨
      ∃ stat1 log1,
        commitTally order a db commit status nodes titleStatus stat
            { Ty := ReceiptTy.ExecOk
              KV := [{ Key := calcTitleHeightKey status.Title status.Height,
                       Value := Bytes.heightStatus stat }]
              Logs := [{ Ty := LogTy.TyLogParacrossCommit, Log := Bytes.commitLog log }] } =
            (saveTitleHeight db (calcTitleHeightKey status.Title status.Height) stat1,
              Outcome.ret
                (some
                  { Ty := ReceiptTy.ExecOk
                    KV := [{ Key := calcTitleHeightKey status.Title status.Height,
                             Value := Bytes.heightStatus stat1 }]
                    Logs := [{ Ty := LogTy.TyLogParacrossCommit, Log := Bytes.commitLog log1 }] })
                none) ∨
          ∃ done,
            commitTally order a db commit status nodes titleStatus stat
                { Ty := ReceiptTy.ExecOk
                  KV := [{ Key := calcTitleHeightKey status.Title status.Height,
                           Value := Bytes.heightStatus stat }]
                  Logs := [{ Ty := LogTy.TyLogParacrossCommit, Log := Bytes.commitLog log }] } =
              (saveTitle
                  (saveTitleHeight db (calcTitleHeightKey status.Title status.Height)
                    { stat1 with Status := ParacrossStatusDone })
                  (calcTitleKey status.Title)
                  { titleStatus with Title := status.Title, Height := status.Height },
                Outcome.ret
                  (some
                    { Ty := ReceiptTy.ExecOk
                      KV := [{ Key := calcTitleHeightKey status.Title status.Height,
                               Value := Bytes.heightStatus stat1 }]
                      Logs := [{ Ty := LogTy.TyLogParacrossCommit, Log := Bytes.commitLog log1 },
                        { Ty := LogTy.TyLogParacrossDode, Log := Bytes.doneLog done }] })
                  none) := by
  rcases commitTally_cases order a db commit status nodes titleStatus stat
    { Ty := ReceiptTy.ExecOk
      KV := [{ Key := calcTitleHeightKey status.Title status.Height,
               Value := Bytes.heightStatus stat }]
      Logs := [{ Ty := LogTy.TyLogParacrossCommit, Log := Bytes.commitLog log }] } hs with
    h | h | h
  · right; left; exact h.1
  · obtain ⟨_, _, _, _, h⟩ := h
    right; right
    exact ⟨stat, log, Or.inl h⟩
  · obtain ⟨_, _, _, _, _, _, h⟩ := h
    right; right
    exact ⟨stat, log, Or.inr ⟨_, h⟩⟩

/-- The ways the current-height part of `Commit` ends. -/
theorem commitCurrent_cases (order : MapOrder) (a : action) (db : KV)
    (commit : ParacrossCommitAction) (status : ParacrossNodeStatus) (nodes : List String)
    (titleStatus : ParacrossStatus) (hs : commit.Status = some status) :
    (∃ e, commitCurrent order a db commit status nodes titleStatus =
        (db, Outcome.ret none (some e))) ∨
      commitCurrent order a db commit status nodes titleStatus = (db, Outcome.panic) ∨
      ∃ stat log,
        commitCurrent order a db commit status nodes titleStatus =
            (saveTitleHeight db (calcTitleHeightKey status.Title status.Height) stat,
              Outcome.ret
                (some
                  { Ty := ReceiptTy.ExecOk
                    KV := [{ Key := calcTitleHeightKey status.Title status.Height,
                             Value := Bytes.heightStatus stat }]
                    Logs := [{ Ty := LogTy.TyLogParacrossCommit, Log := Bytes.commitLog log }] })
                none) ∨
          ∃ done,
            commitCurrent order a db commit status nodes titleStatus =
              (saveTitle
                  (saveTitleHeight db (calcTitleHeightKey status.Title status.Height)
                    { stat with Status := ParacrossStatusDone })
                  (calcTitleKey status.Title)
                  { titleStatus with Title := status.Title, Height := status.Height },
                Outcome.ret
                  (some
                    { Ty := ReceiptTy.ExecOk
                      KV := [{ Key := calcTitleHeightKey status.Title status.Height,
                               Value := Bytes.heightStatus stat }]
                      Logs := [{ Ty := LogTy.TyLogParacrossCommit, Log := Bytes.commitLog log },
                        { Ty := LogTy.TyLogParacrossDode, Log := Bytes.doneLog done }] })
                  none) := by
  unfold commitCurrent
  cases hg : getTitleHeight db (calcTitleHeightKey status.Title status.Height) with
  | error err =>
    by_cases he : err = Err.ErrNotFound
    · subst he
      simp only [ne_eq, not_true_eq_false, if_false, makeCommitReceipt, hs]
      exact commitTally_shape order a db commit status nodes titleStatus _ _ hs
    · left
      exact ⟨err, by simp [he]⟩
  | ok stat =>
    cases hd : stat.Details with
    | none => right; left; simp [hd]
    | some details =>
      simp only [hd, makeCommitReceipt, hs]
      exact commitTally_shape order a db commit status nodes titleStatus _ _ hs

/-- Every way a call of `Commit` ends: an error return with the store
untouched, a panic with the store untouched, the Record receipt of a stale
height with the store untouched, or, at the current height, a Commit receipt
with the record written, possibly followed by the Done log with the record
and the cursor written. -/
theorem Commit_cases (order : MapOrder) (a : action) (db : KV) (commit : ParacrossCommitAction) :
    (∃ e, Commit order a db commit = (db, Outcome.ret none (some e))) ∨
      Commit order a db commit = (db, Outcome.panic) ∨
      (∃ status titleStatus, commit.Status = some status ∧
        getTitle db (calcTitleKey status.Title) = Except.ok titleStatus ∧
        status.Height ≤ titleStatus.Height ∧
        Commit order a db commit =
          (db, Outcome.ret (some (makeRecordReceipt a.fromaddr commit)) none)) ∨
      ∃ status titleStatus stat log, commit.Status = some status ∧
        getTitle db (calcTitleKey status.Title) = Except.ok titleStatus ∧
        titleStatus.Height < status.Height ∧
        status.Height ≤ wrapInt64 (titleStatus.Height + 1) ∧
        (Commit order a db commit =
            (saveTitleHeight db (calcTitleHeightKey status.Title status.Height) stat,
              Outcome.ret
                (some
                  { Ty := ReceiptTy.ExecOk
                    KV := [{ Key := calcTitleHeightKey status.Title status.Height,
                             Value := Bytes.heightStatus stat }]
                    Logs := [{ Ty := LogTy.TyLogParacrossCommit, Log := Bytes.commitLog log }] })
                none) ∨
          ∃ done,
            Commit order a db commit =
              (saveTitle
                  (saveTitleHeight db (calcTitleHeightKey status.Title status.Height)
                    { stat with Status := ParacrossStatusDone })
                  (calcTitleKey status.Title)
                  { titleStatus with Title := status.Title, Height := status.Height },
                Outcome.ret
                  (some
                    { Ty := ReceiptTy.ExecOk
                      KV := [{ Key := calcTitleHeightKey status.Title status.Height,
                               Value := Bytes.heightStatus stat }]
                      Logs := [{ Ty := LogTy.TyLogParacrossCommit, Log := Bytes.commitLog log },
                        { Ty := LogTy.TyLogParacrossDode, Log := Bytes.doneLog done }] })
                  none)) := by
  cases hc : checkCommitInfo commit with
  | some err => left; exact ⟨err, by simp [Commit, hc]⟩
  | none =>
    cases hs : commit.Status with
    | none => right; left; simp [Commit, hc, hs]
    | some status =>
      by_cases hv : validTitle status.Title = true
      swap
      · left; exact ⟨Err.ErrInputPara, by simp [Commit, hc, hs, hv]⟩
      cases hn : getNodes db status.Title with
      | error e => left; exact ⟨Err.ErrInputPara, by simp [Commit, hc, hs, hv, hn]⟩
      | ok nodes =>
        by_cases hm : validNode a.fromaddr nodes = true
        swap
        · left; exact ⟨Err.ErrInputPara, by simp [Commit, hc, hs, hv, hn, hm]⟩
        cases ht : getTitle db (calcTitleKey status.Title) with
        | error e => left; exact ⟨e, by simp [Commit, hc, hs, hv, hn, hm, ht]⟩
        | ok titleStatus =>
          by_cases hf : status.Height > wrapInt64 (titleStatus.Height + 1)
          · left; exact ⟨Err.ErrInputPara, by simp [Commit, hc, hs, hv, hn, hm, ht, hf]⟩
          by_cases hst : status.Height ≤ titleStatus.Height
          · right; right; left
            exact ⟨status, titleStatus, rfl, ht, hst,
              by simp [Commit, hc, hs, hv, hn, hm, ht, hf, hst]⟩
          have hcur : Commit order a db commit =
              commitCurrent order a db commit status nodes titleStatus := by
            simp [Commit, hc, hs, hv, hn, hm, ht, hf, hst]
          rw [hcur]
          rcases commitCurrent_cases order a db commit status nodes titleStatus hs with
            h | h | h
          · left; exact h
          · right; left; exact h
          · right; right; right
            obtain ⟨stat, log, h⟩ := h
            exact ⟨status, titleStatus, stat, log, rfl, ht, by omega, by omega, h⟩

/-! ## C2: a second vote of the same address -/

theorem wrapInt64_of_range (x : Int) (h1 : -2 ^ 63 ≤ x) (h2 : x < 2 ^ 63) : wrapInt64 x = x := by
  unfold wrapInt64
  omega

/-- At the current height `Commit` is its current-height part. -/
theorem Commit_eq_commitCurrent (order : MapOrder) (a : action) (db : KV)
    (commit : ParacrossCommitAction) (status : ParacrossNodeStatus) (nodes : List String)
    (titleStatus : ParacrossStatus) (hs : commit.Status = some status)
    (hc : checkCommitInfo commit = none) (hnodes : getNodes db status.Title = Except.ok nodes)
    (hmem : validNode a.fromaddr nodes = true)
    (htitle : getTitle db (calcTitleKey status.Title) = Except.ok titleStatus)
    (hlo : -2 ^ 63 ≤ titleStatus.Height) (hhi : titleStatus.Height < 2 ^ 63 - 1)
    (hH : status.Height = titleStatus.Height + 1) :
    Commit order a db commit = commitCurrent order a db commit status nodes titleStatus := by
  have hv : validTitle status.Title = true := by
    unfold checkCommitInfo at hc
    rw [hs] at hc
    simp only at hc
    split_ifs at hc with h1 h2
    exact (by simpa using h2 : validTitle status.Title = true ∧ 0 ≤ status.Height).1
  have hw : wrapInt64 (titleStatus.Height + 1) = titleStatus.Height + 1 :=
    wrapInt64_of_range _ (by omega) (by omega)
  have hf : ¬ status.Height > wrapInt64 (titleStatus.Height + 1) := by rw [hw]; omega
  have hst : ¬ status.Height ≤ titleStatus.Height := by omega
  simp [Commit, hc, hs, hv, hnodes, hmem, htitle, hf, hst]

/-- A vote on a record that has details with at least as many state hashes as
addresses: the call returns a receipt that starts with the Commit log, and the
record it leaves in the store is the old one with the vote appended. -/
theorem commitCurrent_append (order : MapOrder) (a : action) (db : KV)
    (commit : ParacrossCommitAction) (status : ParacrossNodeStatus) (nodes : List String)
    (titleStatus : ParacrossStatus) (stat : ParacrossHeightStatus)
    (details : ParacrossStatusDetails) (hs : commit.Status = some status)
    (hstat : getTitleHeight db (calcTitleHeightKey status.Title status.Height) = Except.ok stat)
    (hdet : stat.Details = some details)
    (hlen : details.Addrs.length ≤ details.StateHash.length) :
    ∃ receipt stat1,
      (commitCurrent order a db commit status nodes titleStatus).2 =
          Outcome.ret (some receipt) none ∧
        (logKinds receipt).head? = some LogTy.TyLogParacrossCommit ∧
        getTitleHeight (commitCurrent order a db commit status nodes titleStatus).1
            (calcTitleHeightKey status.Title status.Height) = Except.ok stat1 ∧
        stat1.Details = some ⟨details.Addrs ++ [a.fromaddr], details.StateHash ++ [status.StateHash]⟩ := by
  obtain ⟨most, winner, hmost⟩ := getMostCommit_isSome order
    { stat with Details := some ⟨details.Addrs ++ [a.fromaddr], details.StateHash ++ [status.StateHash]⟩ }
    ⟨details.Addrs ++ [a.fromaddr], details.StateHash ++ [status.StateHash]⟩ rfl (by simp; omega)
  unfold commitCurrent
  simp only [hstat, hdet, makeCommitReceipt, hs]
  rcases commitTally_cases order a db commit status nodes titleStatus
    { stat with Details := some ⟨details.Addrs ++ [a.fromaddr], details.StateHash ++ [status.StateHash]⟩ }
    { Ty := ReceiptTy.ExecOk
      KV := [{ Key := calcTitleHeightKey status.Title status.Height,
               Value := Bytes.heightStatus
                { stat with Details := some ⟨details.Addrs ++ [a.fromaddr], details.StateHash ++ [status.StateHash]⟩ } }]
      Logs := [{ Ty := LogTy.TyLogParacrossCommit,
                 Log := Bytes.commitLog
                  { Addr := a.fromaddr
                    Status := some status
                    Prev := some
                      { stat with Details := some ⟨details.Addrs ++ [a.fromaddr], details.StateHash ++ [status.StateHash]⟩ }
                    Current := some
                      { stat with Details := some ⟨details.Addrs ++ [a.fromaddr], details.StateHash ++ [status.StateHash]⟩ } } }] }
    hs with h | h | h
  · rw [hmost] at h
    exact absurd h.2 (by simp)
  · obtain ⟨_, _, _, _, h⟩ := h
    rw [h]
    refine ⟨_, { stat with Details := some ⟨details.Addrs ++ [a.fromaddr], details.StateHash ++ [status.StateHash]⟩ },
      rfl, rfl, ?_, rfl⟩
    simp [getTitleHeight, saveTitleHeight, KV.set, decodeParacrossHeightStatus]
  · obtain ⟨_, _, _, _, _, _, h⟩ := h
    rw [h]
    refine ⟨_, { stat with Status := ParacrossStatusDone, Details := some ⟨details.Addrs ++ [a.fromaddr], details.StateHash ++ [status.StateHash]⟩ },
      rfl, rfl, ?_, rfl⟩
    simp [getTitleHeight, saveTitle, saveTitleHeight, KV.set, decodeParacrossHeightStatus,
      calcTitleHeightKey, calcTitleKey]

/-- C2 (as amended): when the record for (T,H) exists at the current height
(details present, at least as many state hashes as addresses, cursor below the
largest `int64`) and its addresses already contain the sender, `Commit` by
that roster member with a valid payload returns no error: it returns a receipt
that starts with the Commit log and stores the record with the pair
(sender, state hash) appended once more. -/
theorem Commit_duplicate_vote_appended (order : MapOrder) (a : action) (db : KV)
    (commit : ParacrossCommitAction) (status : ParacrossNodeStatus) (nodes : List String)
    (titleStatus : ParacrossStatus) (stat : ParacrossHeightStatus)
    (details : ParacrossStatusDetails) (hs : commit.Status = some status)
    (hc : checkCommitInfo commit = none) (hnodes : getNodes db status.Title = Except.ok nodes)
    (hmem : validNode a.fromaddr nodes = true)
    (htitle : getTitle db (calcTitleKey status.Title) = Except.ok titleStatus)
    (hlo : -2 ^ 63 ≤ titleStatus.Height) (hhi : titleStatus.Height < 2 ^ 63 - 1)
    (hH : status.Height = titleStatus.Height + 1)
    (hstat : getTitleHeight db (calcTitleHeightKey status.Title status.Height) = Except.ok stat)
    (hdet : stat.Details = some details)
    (hlen : details.Addrs.length ≤ details.StateHash.length)
    (_hdup : a.fromaddr ∈ details.Addrs) :
    ∃ receipt stat1,
      (Commit order a db commit).2 = Outcome.ret (some receipt) none ∧
        (logKinds receipt).head? = some LogTy.TyLogParacrossCommit ∧
        getTitleHeight (Commit order a db commit).1
            (calcTitleHeightKey status.Title status.Height) = Except.ok stat1 ∧
        stat1.Details = some
          ⟨details.Addrs ++ [a.fromaddr], details.StateHash ++ [status.StateHash]⟩ := by
  rw [Commit_eq_commitCurrent order a db commit status nodes titleStatus hs hc hnodes hmem htitle
    hlo hhi hH]
  exact commitCurrent_append order a db commit status nodes titleStatus stat details hs hstat hdet
    hlen

/-- C2, witness: `A` votes `h` at height 0 of `T` a second time. -/
theorem Commit_duplicate_vote_appended_witness :
    ∃ receipt stat1,
      (Commit id (mkAction "A") votedKV (mkCommit "T" 0 "h")).2 =
          Outcome.ret (some receipt) none ∧
        (logKinds receipt).head? = some LogTy.TyLogParacrossCommit ∧
        getTitleHeight (Commit id (mkAction "A") votedKV (mkCommit "T" 0 "h")).1
            (calcTitleHeightKey "T" 0) = Except.ok stat1 ∧
        stat1.Details = some ⟨["A"] ++ ["A"], ["h"] ++ ["h"]⟩ :=
  Commit_duplicate_vote_appended id (mkAction "A") votedKV (mkCommit "T" 0 "h")
    ⟨"T", 0, "h"⟩ ["A", "B", "C", "D"] ⟨"", -1⟩ (mkRecord "T" 0 ["A"] ["h"]) ⟨["A"], ["h"]⟩
    rfl (by decide) (by rfl) (by decide) (by rfl) (by decide) (by decide) (by decide) (by rfl)
    rfl (by decide) (by decide)

set_option maxRecDepth 100000 in
/-- C2, counterexample: roster `A, B, C, D`, no cursor, `A` has already voted
`h` at height 0.  The same vote sent again is not rejected with `ErrInputPara`:
it returns a receipt, and the stored record lists `A` twice. -/
theorem Commit_duplicate_not_rejected :
    getTitleHeight votedKV (calcTitleHeightKey "T" 0) =
        Except.ok (mkRecord "T" 0 ["A"] ["h"]) ∧
      getNodes votedKV "T" = Except.ok ["A", "B", "C", "D"] ∧
      cursorHeight votedKV "T" = Except.ok (-1) ∧
      checkCommitInfo (mkCommit "T" 0 "h") = none ∧
      (Commit id (mkAction "A") votedKV (mkCommit "T" 0 "h")).2 ≠
        Outcome.ret none (some Err.ErrInputPara) ∧
      getTitleHeight (Commit id (mkAction "A") votedKV (mkCommit "T" 0 "h")).1
          (calcTitleHeightKey "T" 0) =
        Except.ok (mkRecord "T" 0 ["A", "A"] ["h", "h"]) := by
  refine ⟨by rfl, by rfl, by rfl, by decide, by decide, by rfl⟩

/-! ## C3: the KV list of a receipt with a Done log -/

set_option maxRecDepth 100000 in
/-- C3 (the code at the failing input): roster `A` alone, empty store, `A`
commits `(T, 0, h)`.  The call emits the Commit and the Done log; the store
then holds the record with status Done and the cursor at height 0, but the KV
list of the receipt is the single entry written by `makeCommitReceipt`, whose
value is the record with status Committing, and it has no entry for the
cursor key. -/
theorem Commit_done_receipt_kv :
    (Commit id (mkAction "A") (rosterKV "T" ["A"]) (mkCommit "T" 0 "h")).2 =
        Outcome.ret
          (some
            { Ty := ReceiptTy.ExecOk
              KV := [{ Key := calcTitleHeightKey "T" 0,
                       Value := Bytes.heightStatus (mkRecord "T" 0 ["A"] ["h"]) }]
              Logs := [{ Ty := LogTy.TyLogParacrossCommit,
                         Log := Bytes.commitLog
                          { Addr := "A"
                            Status := some ⟨"T", 0, "h"⟩
                            Prev := none
                            Current := some (mkRecord "T" 0 ["A"] ["h"]) } },
                       { Ty := LogTy.TyLogParacrossDode,
                         Log := Bytes.doneLog
                          { N := [1, 1, 1], Title := "T", Height := 0, StateHash := "h" } }] })
          none ∧
      (mkRecord "T" 0 ["A"] ["h"]).Status = ParacrossStatusCommiting ∧
      (Commit id (mkAction "A") (rosterKV "T" ["A"]) (mkCommit "T" 0 "h")).1
          (calcTitleHeightKey "T" 0) =
        Except.ok (Bytes.heightStatus
          { mkRecord "T" 0 ["A"] ["h"] with Status := ParacrossStatusDone }) ∧
      (Commit id (mkAction "A") (rosterKV "T" ["A"]) (mkCommit "T" 0 "h")).1
          (calcTitleKey "T") =
        Except.ok (Bytes.paraStatus { Title := "T", Height := 0 }) := by
  refine ⟨by decide, by rfl, by rfl, by rfl⟩

/-! ## C4: payload validation -/

/-- C4: `checkCommitInfo` returns `ErrInputPara` exactly when the status is
nil, or the state hash is empty, or the title is empty, or the height is
negative, and returns nil in every other case. -/
theorem checkCommitInfo_spec (commit : ParacrossCommitAction) :
    (checkCommitInfo commit = some Err.ErrInputPara ↔
        (commit.Status = none ∨
          ∃ status, commit.Status = some status ∧
            (status.StateHash.length = 0 ∨ status.Title.length = 0 ∨ status.Height < 0))) ∧
      (checkCommitInfo commit = none ↔
        ¬ (commit.Status = none ∨
          ∃ status, commit.Status = some status ∧
            (status.StateHash.length = 0 ∨ status.Title.length = 0 ∨ status.Height < 0))) := by
  unfold checkCommitInfo validTitle
  cases hs : commit.Status with
  | none => simp
  | some status =>
    by_cases h1 : status.StateHash.length = 0
    · simp [h1]
    · by_cases h2 : status.Title.length = 0
      · simp [h1, h2]
      · by_cases h3 : status.Height < 0
        · simp [h1, h2, h3]
        · have h2p : 0 < status.Title.length := Nat.pos_of_ne_zero h2
          simp [h1, h2, h3, h2p]

/-- The only error of `checkCommitInfo` is `ErrInputPara`. -/
theorem checkCommitInfo_err (commit : ParacrossCommitAction) (e : Err)
    (h : checkCommitInfo commit = some e) : e = Err.ErrInputPara := by
  unfold checkCommitInfo at h
  split at h
  · cases h; rfl
  · split_ifs at h <;> cases h <;> rfl

/-! ## C5: classification of the height -/

/-- The first vote at a height: the call returns a receipt that starts with
the Commit log. -/
theorem commitCurrent_first (order : MapOrder) (a : action) (db : KV)
    (commit : ParacrossCommitAction) (status : ParacrossNodeStatus) (nodes : List String)
    (titleStatus : ParacrossStatus) (hs : commit.Status = some status)
    (hstat : getTitleHeight db (calcTitleHeightKey status.Title status.Height) =
      Except.error Err.ErrNotFound) :
    ∃ receipt,
      (commitCurrent order a db commit status nodes titleStatus).2 =
          Outcome.ret (some receipt) none ∧
        (logKinds receipt).head? = some LogTy.TyLogParacrossCommit := by
  obtain ⟨most, winner, hmost⟩ := getMostCommit_isSome order
    { Status := ParacrossStatusCommiting, Title := status.Title, Height := status.Height, Details := some ⟨[a.fromaddr], [status.StateHash]⟩ }
    ⟨[a.fromaddr], [status.StateHash]⟩ rfl (by simp)
  unfold commitCurrent
  simp only [hstat, ne_eq, not_true_eq_false, if_false, makeCommitReceipt, hs]
  rcases commitTally_cases order a db commit status nodes titleStatus
    { Status := ParacrossStatusCommiting, Title := status.Title, Height := status.Height, Details := some ⟨[a.fromaddr], [status.StateHash]⟩ }
    { Ty := ReceiptTy.ExecOk
      KV := [{ Key := calcTitleHeightKey status.Title status.Height,
               Value := Bytes.heightStatus
                { Status := ParacrossStatusCommiting, Title := status.Title, Height := status.Height, Details := some ⟨[a.fromaddr], [status.StateHash]⟩ } }]
      Logs := [{ Ty := LogTy.TyLogParacrossCommit,
                 Log := Bytes.commitLog
                  { Addr := a.fromaddr
                    Status := some status
                    Prev := none
                    Current := some
                      { Status := ParacrossStatusCommiting, Title := status.Title, Height := status.Height, Details := some ⟨[a.fromaddr], [status.StateHash]⟩ } } }] }
    hs with h | h | h
  · rw [hmost] at h
    exact absurd h.2 (by simp)
  · obtain ⟨_, _, _, _, h⟩ := h
    rw [h]
    exact ⟨_, rfl, rfl⟩
  · obtain ⟨_, _, _, _, _, _, h⟩ := h
    rw [h]
    exact ⟨_, rfl, rfl⟩

/-- C5 (as amended): for a valid payload, a sender in the roster and a cursor
height `Cur` below the largest `int64`, `Commit` fails with `ErrInputPara` if
`H > Cur + 1`, returns a receipt whose only log is a Record log if `H <= Cur`,
and, if `H = Cur + 1` and the record read reports NotFound or yields a record
that has details with at least as many state hashes as addresses, returns a
receipt whose first log is a Commit log. -/
theorem Commit_classifies_height (order : MapOrder) (a : action) (db : KV)
    (commit : ParacrossCommitAction) (status : ParacrossNodeStatus) (nodes : List String)
    (titleStatus : ParacrossStatus) (hs : commit.Status = some status)
    (hc : checkCommitInfo commit = none) (hnodes : getNodes db status.Title = Except.ok nodes)
    (hmem : validNode a.fromaddr nodes = true)
    (htitle : getTitle db (calcTitleKey status.Title) = Except.ok titleStatus)
    (hlo : -2 ^ 63 ≤ titleStatus.Height) (hhi : titleStatus.Height < 2 ^ 63 - 1) :
    (status.Height > titleStatus.Height + 1 →
        Commit order a db commit = (db, Outcome.ret none (some Err.ErrInputPara))) ∧
      (status.Height ≤ titleStatus.Height →
        ∃ receipt, Commit order a db commit = (db, Outcome.ret (some receipt) none) ∧
          logKinds receipt = [LogTy.TyLogParacrossRecord]) ∧
      (status.Height = titleStatus.Height + 1 →
        (getTitleHeight db (calcTitleHeightKey status.Title status.Height) =
            Except.error Err.ErrNotFound ∨
          ∃ stat details,
            getTitleHeight db (calcTitleHeightKey status.Title status.Height) = Except.ok stat ∧
              stat.Details = some details ∧
              details.Addrs.length ≤ details.StateHash.length) →
        ∃ receipt, (Commit order a db commit).2 = Outcome.ret (some receipt) none ∧
          (logKinds receipt).head? = some LogTy.TyLogParacrossCommit) := by
  have hv : validTitle status.Title = true := by
    unfold checkCommitInfo at hc
    rw [hs] at hc
    simp only at hc
    split_ifs at hc with h1 h2
    exact (by simpa using h2 : validTitle status.Title = true ∧ 0 ≤ status.Height).1
  have hw : wrapInt64 (titleStatus.Height + 1) = titleStatus.Height + 1 :=
    wrapInt64_of_range _ (by omega) (by omega)
  refine ⟨?_, ?_, ?_⟩
  · intro hgt
    have hf : status.Height > wrapInt64 (titleStatus.Height + 1) := by rw [hw]; exact hgt
    simp [Commit, hc, hs, hv, hnodes, hmem, htitle, hf]
  · intro hle
    have hf : ¬ status.Height > wrapInt64 (titleStatus.Height + 1) := by rw [hw]; omega
    refine ⟨makeRecordReceipt a.fromaddr commit, ?_, rfl⟩
    simp [Commit, hc, hs, hv, hnodes, hmem, htitle, hf, hle]
  · intro hH hrec
    rw [Commit_eq_commitCurrent order a db commit status nodes titleStatus hs hc hnodes hmem
      htitle hlo hhi hH]
    rcases hrec with hnf | ⟨stat, details, hstat, hdet, hlen⟩
    · exact commitCurrent_first order a db commit status nodes titleStatus hs hnf
    · obtain ⟨receipt, _, h1, h2, _⟩ :=
        commitCurrent_append order a db commit status nodes titleStatus stat details hs hstat
          hdet hlen
      exact ⟨receipt, h1, h2⟩

/-- C5, witness: roster `A, B, C, D`, cursor at height 1; the conclusion of
the theorem for `A` committing height 3 of `T`. -/
theorem Commit_classifies_height_witness :
    ((3 : Int) > 1 + 1 →
        Commit id (mkAction "A") (cursorKV ["A", "B", "C", "D"] 1) (mkCommit "T" 3 "h") =
          (cursorKV ["A", "B", "C", "D"] 1, Outcome.ret none (some Err.ErrInputPara))) ∧
      ((3 : Int) ≤ 1 →
        ∃ receipt,
          Commit id (mkAction "A") (cursorKV ["A", "B", "C", "D"] 1) (mkCommit "T" 3 "h") =
              (cursorKV ["A", "B", "C", "D"] 1, Outcome.ret (some receipt) none) ∧
            logKinds receipt = [LogTy.TyLogParacrossRecord]) ∧
      ((3 : Int) = 1 + 1 →
        (getTitleHeight (cursorKV ["A", "B", "C", "D"] 1) (calcTitleHeightKey "T" 3) =
            Except.error Err.ErrNotFound ∨
          ∃ stat details,
            getTitleHeight (cursorKV ["A", "B", "C", "D"] 1) (calcTitleHeightKey "T" 3) =
                Except.ok stat ∧
              stat.Details = some details ∧
              details.Addrs.length ≤ details.StateHash.length) →
        ∃ receipt,
          (Commit id (mkAction "A") (cursorKV ["A", "B", "C", "D"] 1) (mkCommit "T" 3 "h")).2 =
              Outcome.ret (some receipt) none ∧
            (logKinds receipt).head? = some LogTy.TyLogParacrossCommit) :=
  Commit_classifies_height id (mkAction "A") (cursorKV ["A", "B", "C", "D"] 1)
    (mkCommit "T" 3 "h") ⟨"T", 3, "h"⟩ ["A", "B", "C", "D"] ⟨"T", 1⟩ rfl (by decide) (by rfl)
    (by decide) (by rfl) (by decide) (by decide)

set_option maxRecDepth 100000 in
/-- C5, counterexample: roster `A, B, C, D`, no cursor (so the current height
is 0), and a stored record at height 0 with the address list `[B]` and an empty
state-hash list.  The payload is valid, `A` is in the roster, the height is the
current one and the record read succeeds, but `getMostCommit` indexes the
state-hash list out of range: the call panics and returns no receipt. -/
theorem Commit_current_short_record_panics :
    checkCommitInfo (mkCommit "T" 0 "h") = none ∧
      getNodes shortVoteKV "T" = Except.ok ["A", "B", "C", "D"] ∧
      cursorHeight shortVoteKV "T" = Except.ok (-1) ∧
      getTitleHeight shortVoteKV (calcTitleHeightKey "T" 0) =
        Except.ok (mkRecord "T" 0 ["B"] []) ∧
      Commit id (mkAction "A") shortVoteKV (mkCommit "T" 0 "h") =
        (shortVoteKV, Outcome.panic) := by
  refine ⟨by decide, by rfl, by rfl, by rfl, by rfl⟩

/-! ## C6: senders outside the roster -/

/-- C6: if the sender is not an element of the roster read for the title, in
particular when that roster is empty, `Commit` returns `ErrInputPara` with a
nil receipt and leaves the store as it was, whatever height and state hash the
payload has. -/
theorem Commit_non_member_rejected (order : MapOrder) (a : action) (db : KV)
    (commit : ParacrossCommitAction)
    (h : ∀ status nodes, commit.Status = some status →
      getNodes db status.Title = Except.ok nodes → a.fromaddr ∉ nodes) :
    Commit order a db commit = (db, Outcome.ret none (some Err.ErrInputPara)) := by
  cases hc : checkCommitInfo commit with
  | some err =>
    have := checkCommitInfo_err commit err hc
    subst this
    simp [Commit, hc]
  | none =>
    cases hs : commit.Status with
    | none => simp [checkCommitInfo, hs] at hc
    | some status =>
      by_cases hv : validTitle status.Title = true
      swap
      · simp [Commit, hc, hs, hv]
      cases hn : getNodes db status.Title with
      | error e => simp [Commit, hc, hs, hv, hn]
      | ok nodes =>
        have hm : validNode a.fromaddr nodes = false := by
          have := h status nodes hs hn
          rw [← validNode_iff] at this
          simpa using this
        simp [Commit, hc, hs, hv, hn, hm]

/-- C6, witness: with roster `A, B, C, D` the sender `E` is rejected, and so
is every sender when the roster is empty. -/
theorem Commit_non_member_rejected_witness :
    Commit id (mkAction "E") (rosterKV "T" ["A", "B", "C", "D"]) (mkCommit "T" 2 "h") =
        (rosterKV "T" ["A", "B", "C", "D"], Outcome.ret none (some Err.ErrInputPara)) ∧
      Commit id (mkAction "A") (rosterKV "T" []) (mkCommit "T" 0 "h") =
        (rosterKV "T" [], Outcome.ret none (some Err.ErrInputPara)) :=
  ⟨Commit_non_member_rejected id (mkAction "E") (rosterKV "T" ["A", "B", "C", "D"])
      (mkCommit "T" 2 "h") (by
        intro status nodes hs hn
        cases hs
        have hroster : getNodes (rosterKV "T" ["A", "B", "C", "D"]) "T" =
            Except.ok ["A", "B", "C", "D"] := by rfl
        rw [hroster] at hn
        cases hn
        decide),
    Commit_non_member_rejected id (mkAction "A") (rosterKV "T" []) (mkCommit "T" 0 "h") (by
        intro status nodes hs hn
        cases hs
        have hroster : getNodes (rosterKV "T" []) "T" = Except.ok [] := by rfl
        rw [hroster] at hn
        cases hn
        decide)⟩

/-! ## C7: stale heights -/

/-- C7 (as amended): for a roster member with a valid payload whose height
satisfies `H <= Cur`, where the cursor height `Cur` is below the largest
`int64`, the call succeeds with an `ExecOk` receipt that has an empty KV list
and exactly one log, the Record log carrying the sender and the submitted
status, and the store after the call is the store before it. -/
theorem Commit_stale_record (order : MapOrder) (a : action) (db : KV)
    (commit : ParacrossCommitAction) (status : ParacrossNodeStatus) (nodes : List String)
    (titleStatus : ParacrossStatus) (hs : commit.Status = some status)
    (hc : checkCommitInfo commit = none) (hnodes : getNodes db status.Title = Except.ok nodes)
    (hmem : validNode a.fromaddr nodes = true)
    (htitle : getTitle db (calcTitleKey status.Title) = Except.ok titleStatus)
    (hlo : -2 ^ 63 ≤ titleStatus.Height) (hhi : titleStatus.Height < 2 ^ 63 - 1)
    (hH : status.Height ≤ titleStatus.Height) :
    Commit order a db commit =
      (db,
        Outcome.ret
          (some
            { Ty := ReceiptTy.ExecOk
              KV := []
              Logs := [{ Ty := LogTy.TyLogParacrossRecord,
                         Log := Bytes.recordLog { Addr := a.fromaddr, Status := some status } }] })
          none) := by
  have hv : validTitle status.Title = true := by
    unfold checkCommitInfo at hc
    rw [hs] at hc
    simp only at hc
    split_ifs at hc with h1 h2
    exact (by simpa using h2 : validTitle status.Title = true ∧ 0 ≤ status.Height).1
  have hw : wrapInt64 (titleStatus.Height + 1) = titleStatus.Height + 1 :=
    wrapInt64_of_range _ (by omega) (by omega)
  have hf : ¬ status.Height > wrapInt64 (titleStatus.Height + 1) := by rw [hw]; omega
  simp [Commit, hc, hs, hv, hnodes, hmem, htitle, hf, hH, makeRecordReceipt]

/-- C7, witness: roster `A, B, C, D`, cursor at height 1, `D` commits height 1. -/
theorem Commit_stale_record_witness :
    Commit id (mkAction "D") (cursorKV ["A", "B", "C", "D"] 1) (mkCommit "T" 1 "h") =
      (cursorKV ["A", "B", "C", "D"] 1,
        Outcome.ret
          (some
            { Ty := ReceiptTy.ExecOk
              KV := []
              Logs := [{ Ty := LogTy.TyLogParacrossRecord,
                         Log := Bytes.recordLog
                          { Addr := "D", Status := some ⟨"T", 1, "h"⟩ } }] })
          none) :=
  Commit_stale_record id (mkAction "D") (cursorKV ["A", "B", "C", "D"] 1) (mkCommit "T" 1 "h")
    ⟨"T", 1, "h"⟩ ["A", "B", "C", "D"] ⟨"T", 1⟩ rfl (by decide) (by rfl) (by decide) (by rfl)
    (by decide) (by decide) (by decide)

/-- C7, counterexample: roster `A`, cursor at the largest `int64` height.  The
payload `(T, 5, h)` of `A` is valid and `5 <= Cur`, but `Cur + 1` wraps to the
smallest `int64`, the test `H > Cur + 1` succeeds and the call is rejected with
`ErrInputPara` instead of returning the Record receipt. -/
theorem Commit_stale_at_max_cursor_rejected :
    checkCommitInfo (mkCommit "T" 5 "h") = none ∧
      getNodes (cursorKV ["A"] 9223372036854775807) "T" = Except.ok ["A"] ∧
      cursorHeight (cursorKV ["A"] 9223372036854775807) "T" =
        Except.ok 9223372036854775807 ∧
      (5 : Int) ≤ 9223372036854775807 ∧
      Commit id (mkAction "A") (cursorKV ["A"] 9223372036854775807) (mkCommit "T" 5 "h") =
        (cursorKV ["A"] 9223372036854775807, Outcome.ret none (some Err.ErrInputPara)) := by
  refine ⟨by decide, by rfl, by rfl, by decide, by rfl⟩

/-! ## C8: no write on an error return -/

/-- C8: if `Commit` returns a non-nil error, then the receipt it returns is
nil and the store after the call is the store before it. -/
theorem Commit_error_no_write (order : MapOrder) (a : action) (db : KV)
    (commit : ParacrossCommitAction) (receipt : Option Receipt) (e : Err)
    (h : (Commit order a db commit).2 = Outcome.ret receipt (some e)) :
    receipt = none ∧ (Commit order a db commit).1 = db := by
  rcases Commit_cases order a db commit with
    ⟨e1, h1⟩ | h1 | ⟨_, _, _, _, _, h1⟩ | ⟨_, _, _, _, _, _, _, _, h1 | ⟨_, h1⟩⟩
  · rw [h1] at h
    simp only [Outcome.ret.injEq] at h
    rw [h1]
    exact ⟨h.1.symm, rfl⟩
  all_goals
    rw [h1] at h
    simp at h

/-- C8, witness: a commit for height 3 while the cursor is at 1 is rejected,
with a nil receipt and an unchanged store. -/
theorem Commit_error_no_write_witness :
    (none : Option Receipt) = none ∧
      (Commit id (mkAction "A") (cursorKV ["A", "B", "C", "D"] 1) (mkCommit "T" 3 "h")).1 =
        cursorKV ["A", "B", "C", "D"] 1 :=
  Commit_error_no_write id (mkAction "A") (cursorKV ["A", "B", "C", "D"] 1)
    (mkCommit "T" 3 "h") none Err.ErrInputPara (by rfl)

/-! ## C9: the log kinds of a receipt -/

/-- C9: a call of `Commit` that returns without error returns a receipt whose
log kinds are exactly `[Record]`, `[Commit]` or `[Commit, Done]`. -/
theorem Commit_log_kinds (order : MapOrder) (a : action) (db : KV)
    (commit : ParacrossCommitAction) (receipt : Option Receipt)
    (h : (Commit order a db commit).2 = Outcome.ret receipt none) :
    ∃ r, receipt = some r ∧
      (logKinds r = [LogTy.TyLogParacrossRecord] ∨
        logKinds r = [LogTy.TyLogParacrossCommit] ∨
        logKinds r = [LogTy.TyLogParacrossCommit, LogTy.TyLogParacrossDode]) := by
  rcases Commit_cases order a db commit with
    ⟨e1, h1⟩ | h1 | ⟨_, _, _, _, _, h1⟩ | ⟨_, _, _, _, _, _, _, _, h1 | ⟨_, h1⟩⟩
  · rw [h1] at h; simp at h
  · rw [h1] at h; simp at h
  · rw [h1] at h
    simp only [Outcome.ret.injEq, and_true] at h
    exact ⟨_, h.symm, Or.inl rfl⟩
  · rw [h1] at h
    simp only [Outcome.ret.injEq, and_true] at h
    exact ⟨_, h.symm, Or.inr (Or.inl rfl)⟩
  · rw [h1] at h
    simp only [Outcome.ret.injEq, and_true] at h
    exact ⟨_, h.symm, Or.inr (Or.inr rfl)⟩

/-- C9, witness: a commit for a stale height returns `[Record]`. -/
theorem Commit_log_kinds_witness :
    ∃ r, some (makeRecordReceipt "D" (mkCommit "T" 1 "h")) = some r ∧
      (logKinds r = [LogTy.TyLogParacrossRecord] ∨
        logKinds r = [LogTy.TyLogParacrossCommit] ∨
        logKinds r = [LogTy.TyLogParacrossCommit, LogTy.TyLogParacrossDode]) :=
  Commit_log_kinds id (mkAction "D") (cursorKV ["A", "B", "C", "D"] 1) (mkCommit "T" 1 "h")
    (some (makeRecordReceipt "D" (mkCommit "T" 1 "h"))) (by rfl)

/-! ## C10: the cursor -/

theorem cursorHeight_saveTitleHeight (db : KV) (key title : String) (height : Int)
    (stat : ParacrossHeightStatus) :
    cursorHeight (saveTitleHeight db (calcTitleHeightKey key height) stat) title =
      cursorHeight db title := by
  simp [cursorHeight, getTitle, saveTitleHeight, KV.set, calcTitleKey, calcTitleHeightKey]

theorem cursorHeight_saveTitle_same (db : KV) (title : String) (titleStatus : ParacrossStatus) :
    cursorHeight (saveTitle db (calcTitleKey title) titleStatus) title =
      Except.ok titleStatus.Height := by
  simp [cursorHeight, getTitle, saveTitle, KV.set, decodeParacrossStatus]

theorem cursorHeight_saveTitle_other (db : KV) (title other : String)
    (titleStatus : ParacrossStatus) (h : other ≠ title) :
    cursorHeight (saveTitle db (calcTitleKey title) titleStatus) other =
      cursorHeight db other := by
  simp [cursorHeight, getTitle, saveTitle, KV.set, calcTitleKey, h]

theorem cursorHeight_of_getTitle (db : KV) (title : String) (titleStatus : ParacrossStatus)
    (h : getTitle db (calcTitleKey title) = Except.ok titleStatus) :
    cursorHeight db title = Except.ok titleStatus.Height := by
  simp [cursorHeight, h]

theorem wrapInt64_lt (x : Int) : wrapInt64 x < 2 ^ 63 := by
  unfold wrapInt64
  omega

/-- One call of `Commit` moves the cursor of a title by zero or by one, and by
one exactly when the call put the record at the next height into status Done. -/
theorem Commit_cursor_step (order : MapOrder) (a : action) (db : KV)
    (commit : ParacrossCommitAction) (title : String) (cur : Int)
    (hcur : cursorHeight db title = Except.ok cur) (hr : isInt64 cur) :
    ∃ cur1, cursorHeight (Commit order a db commit).1 title = Except.ok cur1 ∧
      isInt64 cur1 ∧ (cur1 = cur ∨ cur1 = cur + 1) ∧
      (cur1 = cur + 1 ↔ putsDone title cur commit (Commit order a db commit)) := by
  have hsame : ∀ out, emitsDone out = false →
      Commit order a db commit = (db, out) →
      ∃ cur1, cursorHeight (Commit order a db commit).1 title = Except.ok cur1 ∧
        isInt64 cur1 ∧ (cur1 = cur ∨ cur1 = cur + 1) ∧
        (cur1 = cur + 1 ↔ putsDone title cur commit (Commit order a db commit)) := by
    intro out hout h
    rw [h]
    refine ⟨cur, hcur, hr, Or.inl rfl, ?_⟩
    constructor
    · intro hc; omega
    · rintro ⟨_, _, _, _, _, hd, _⟩
      simp [hout] at hd
  rcases Commit_cases order a db commit with
    ⟨e1, h1⟩ | h1 | ⟨_, _, _, _, _, h1⟩ |
      ⟨status, titleStatus, stat, log, hs, ht, hlt, hle, h1 | ⟨done, h1⟩⟩
  · exact hsame (Outcome.ret none (some e1)) rfl h1
  · exact hsame Outcome.panic rfl h1
  · exact hsame _ (by simp [emitsDone, logKinds, makeRecordReceipt]) h1
  · rw [h1]
    refine ⟨cur, ?_, hr, Or.inl rfl, ?_⟩
    · rw [cursorHeight_saveTitleHeight]; exact hcur
    · constructor
      · intro hc; omega
      · rintro ⟨_, _, _, _, _, hd, _⟩
        simp [emitsDone, logKinds] at hd
  · rw [h1]
    by_cases htitle : status.Title = title
    · subst htitle
      have hcur2 := cursorHeight_of_getTitle db status.Title titleStatus ht
      rw [hcur] at hcur2
      have hcur3 : cur = titleStatus.Height := by simpa using hcur2
      subst hcur3
      have hwlt := wrapInt64_lt (titleStatus.Height + 1)
      have hH : status.Height = titleStatus.Height + 1 := by
        unfold isInt64 at hr
        unfold wrapInt64 at hle hwlt
        omega
      refine ⟨status.Height, ?_, ?_, Or.inr hH, ?_⟩
      · rw [cursorHeight_saveTitle_same]
      · unfold isInt64 at hr ⊢
        omega
      · constructor
        · intro _
          refine ⟨status, { stat with Status := ParacrossStatusDone }, hs, rfl, hH, ?_, ?_, rfl⟩
          · simp [emitsDone, logKinds]
          · rw [← hH]
            simp [getTitleHeight, saveTitle, saveTitleHeight, KV.set,
              decodeParacrossHeightStatus, calcTitleHeightKey, calcTitleKey]
        · intro _; exact hH
    · refine ⟨cur, ?_, hr, Or.inl rfl, ?_⟩
      · rw [cursorHeight_saveTitle_other _ _ _ _ (fun e => htitle e.symm),
          cursorHeight_saveTitleHeight]
        exact hcur
      · constructor
        · intro hc; omega
        · rintro ⟨status2, _, hs2, ht2, _⟩
          rw [hs] at hs2
          cases hs2
          exact absurd ht2 htitle

/-- Over a sequence of `Commit` calls the cursor of a title never decreases. -/
theorem runCommits_cursor_mono (calls : List (MapOrder × action × ParacrossCommitAction))
    (db : KV) (title : String) (cur : Int) (hcur : cursorHeight db title = Except.ok cur)
    (hr : isInt64 cur) :
    ∃ cur1, cursorHeight (runCommits calls db) title = Except.ok cur1 ∧ isInt64 cur1 ∧
      cur ≤ cur1 := by
  induction calls generalizing db cur with
  | nil => exact ⟨cur, hcur, hr, le_refl _⟩
  | cons call rest ih =>
    obtain ⟨order, a, commit⟩ := call
    obtain ⟨cur1, h1, hr1, hstep, _⟩ := Commit_cursor_step order a db commit title cur hcur hr
    obtain ⟨cur2, h2, hr2, hle⟩ := ih (Commit order a db commit).1 cur1 h1 hr1
    refine ⟨cur2, ?_, hr2, ?_⟩
    · simpa [runCommits] using h2
    · rcases hstep with rfl | rfl <;> omega

theorem runCommits_append (pre post : List (MapOrder × action × ParacrossCommitAction))
    (db : KV) : runCommits (pre ++ post) db = runCommits post (runCommits pre db) := by
  induction pre generalizing db with
  | nil => rfl
  | cons call rest ih =>
    obtain ⟨order, a, commit⟩ := call
    simp [runCommits, ih]

/-- C10: for every `Commit` call, started with the cursor of a title at the
`int64` height `Cur`, the cursor height stored after the call is `Cur` or
`Cur + 1`, and it is `Cur + 1` exactly when the call put the record of that
title at height `Cur + 1` into status Done; hence along every sequence of
`Commit` calls the cursor height never decreases: it is at least `Cur` after
any prefix of the sequence and at least that after any longer prefix. -/
theorem Commit_cursor_advance (order : MapOrder) (a : action) (db : KV)
    (commit : ParacrossCommitAction) (title : String) (cur : Int)
    (hcur : cursorHeight db title = Except.ok cur) (hr : isInt64 cur) :
    (∃ cur1, cursorHeight (Commit order a db commit).1 title = Except.ok cur1 ∧
        (cur1 = cur ∨ cur1 = cur + 1) ∧
        (cur1 = cur + 1 ↔ putsDone title cur commit (Commit order a db commit))) ∧
      ∀ pre post : List (MapOrder × action × ParacrossCommitAction),
        ∃ cur1 cur2, cursorHeight (runCommits pre db) title = Except.ok cur1 ∧
          cursorHeight (runCommits (pre ++ post) db) title = Except.ok cur2 ∧
          cur ≤ cur1 ∧ cur1 ≤ cur2 := by
  constructor
  · obtain ⟨cur1, h1, _, h2, h3⟩ := Commit_cursor_step order a db commit title cur hcur hr
    exact ⟨cur1, h1, h2, h3⟩
  · intro pre post
    obtain ⟨cur1, h1, hr1, hle1⟩ := runCommits_cursor_mono pre db title cur hcur hr
    obtain ⟨cur2, h2, _, hle2⟩ :=
      runCommits_cursor_mono post (runCommits pre db) title cur1 h1 hr1
    exact ⟨cur1, cur2, h1, by rw [runCommits_append]; exact h2, hle1, hle2⟩

/-- C10, witness: roster `A` alone and no cursor (height `-1`); the conclusion
of the theorem for the commit `(T, 0, h)` of `A`. -/
theorem Commit_cursor_advance_witness :
    (∃ cur1,
        cursorHeight (Commit id (mkAction "A") (rosterKV "T" ["A"]) (mkCommit "T" 0 "h")).1 "T" =
            Except.ok cur1 ∧
          (cur1 = -1 ∨ cur1 = -1 + 1) ∧
          (cur1 = -1 + 1 ↔
            putsDone "T" (-1) (mkCommit "T" 0 "h")
              (Commit id (mkAction "A") (rosterKV "T" ["A"]) (mkCommit "T" 0 "h")))) ∧
      ∀ pre post : List (MapOrder × action × ParacrossCommitAction),
        ∃ cur1 cur2, cursorHeight (runCommits pre (rosterKV "T" ["A"])) "T" = Except.ok cur1 ∧
          cursorHeight (runCommits (pre ++ post) (rosterKV "T" ["A"])) "T" = Except.ok cur2 ∧
          -1 ≤ cur1 ∧ cur1 ≤ cur2 :=
  Commit_cursor_advance id (mkAction "A") (rosterKV "T" ["A"]) (mkCommit "T" 0 "h") "T" (-1)
    (by rfl) (by unfold isInt64; decide)

/-! ## The tally -/

theorem statOf_bump (stats : Stats) (h k : String) :
    statOf (bump stats h) k = statOf stats k + (if k = h then 1 else 0) := by
  induction stats with
  | nil =>
    by_cases hk : h = k
    · subst hk; simp [bump, statOf]
    · have hk2 : ¬ k = h := fun e => hk e.symm
      simp [bump, statOf, hk, hk2]
  | cons e rest ih =>
    obtain ⟨k0, v0⟩ := e
    by_cases hkh : k0 = h
    · subst hkh
      by_cases hk : k0 = k
      · subst hk; simp [bump, statOf]
      · have hk2 : ¬ k = k0 := fun e => hk e.symm
        simp [bump, statOf, hk, hk2]
    · by_cases hk : k0 = k
      · subst hk
        simp [bump, statOf, hkh]
      · simp [bump, statOf, hkh, hk, ih]

theorem keys_bump (stats : Stats) (h : String) :
    (bump stats h).map Prod.fst =
      if h ∈ stats.map Prod.fst then stats.map Prod.fst else stats.map Prod.fst ++ [h] := by
  induction stats with
  | nil => simp [bump]
  | cons e rest ih =>
    obtain ⟨k0, v0⟩ := e
    by_cases hkh : k0 = h
    · subst hkh
      simp [bump]
    · have hkh2 : ¬ h = k0 := fun e => hkh e.symm
      simp only [bump, hkh, if_false, List.map_cons, ih, List.mem_cons, hkh2, false_or]
      split_ifs <;> simp

theorem mem_keys_bump (stats : Stats) (h k : String) :
    k ∈ (bump stats h).map Prod.fst ↔ k = h ∨ k ∈ stats.map Prod.fst := by
  rw [keys_bump]
  split_ifs with hm
  · constructor
    · intro hk; exact Or.inr hk
    · rintro (rfl | hk)
      · exact hm
      · exact hk
  · simp only [List.mem_append, List.mem_singleton]
    tauto

theorem nodup_keys_bump (stats : Stats) (h : String) (hnd : (stats.map Prod.fst).Nodup) :
    ((bump stats h).map Prod.fst).Nodup := by
  rw [keys_bump]
  split_ifs with hm
  · exact hnd
  · rw [List.nodup_append]
    refine ⟨hnd, List.nodup_singleton h, ?_⟩
    intro a ha hb
    simp only [List.mem_singleton] at hb
    subst hb
    exact hm ha

theorem foldl_bump_spec (l : List String) (stats : Stats)
    (hnd : (stats.map Prod.fst).Nodup) :
    ((l.foldl bump stats).map Prod.fst).Nodup ∧
      (∀ k, statOf (l.foldl bump stats) k = statOf stats k + (l.count k : Int)) ∧
      ∀ k, k ∈ (l.foldl bump stats).map Prod.fst ↔ k ∈ stats.map Prod.fst ∨ k ∈ l := by
  induction l generalizing stats with
  | nil => simp [hnd]
  | cons h rest ih =>
    obtain ⟨h1, h2, h3⟩ := ih (bump stats h) (nodup_keys_bump stats h hnd)
    refine ⟨h1, ?_, ?_⟩
    · intro k
      rw [List.foldl_cons, h2 k, statOf_bump]
      by_cases hk : k = h
      · subst hk; simp; ring
      · have hk2 : ¬ h = k := fun e => hk e.symm
        simp [hk, List.count_cons, hk2]
    · intro k
      rw [List.foldl_cons, h3 k, mem_keys_bump]
      simp only [List.mem_cons]
      tauto

theorem statOf_of_mem (stats : Stats) (k : String) (v : Int)
    (hnd : (stats.map Prod.fst).Nodup) (hm : (k, v) ∈ stats) : statOf stats k = v := by
  induction stats with
  | nil => cases hm
  | cons e rest ih =>
    obtain ⟨k0, v0⟩ := e
    simp only [List.map_cons, List.nodup_cons] at hnd
    rcases List.mem_cons.1 hm with heq | hmem
    · cases heq; simp [statOf]
    · have hne : k0 ≠ k := by
        rintro rfl
        exact hnd.1 (List.mem_map.2 ⟨(k0, v), hmem, rfl⟩)
      simp [statOf, hne, ih hnd.2 hmem]

theorem mem_of_key (stats : Stats) (k : String) (hk : k ∈ stats.map Prod.fst) :
    (k, statOf stats k) ∈ stats := by
  induction stats with
  | nil => simp at hk
  | cons e rest ih =>
    obtain ⟨k0, v0⟩ := e
    by_cases hkk : k0 = k
    · subst hkk; simp [statOf]
    · have : k ∈ rest.map Prod.fst := by
        simp only [List.map_cons, List.mem_cons] at hk
        rcases hk with rfl | hk
        · exact absurd rfl hkk
        · exact hk
      simp only [statOf, hkk, if_false, List.mem_cons]
      exact Or.inr (ih this)

/-- The entries of the counting map after a run over `l`: one entry per hash
that occurs in `l`, holding the number of its occurrences. -/
theorem mem_tally (l : List String) (k : String) (v : Int) :
    (k, v) ∈ tally l ↔ k ∈ l ∧ v = (l.count k : Int) := by
  obtain ⟨h1, h2, h3⟩ := foldl_bump_spec l [] (by simp)
  constructor
  · intro hm
    have hk : k ∈ (tally l).map Prod.fst := List.mem_map.2 ⟨(k, v), hm, rfl⟩
    have hv := statOf_of_mem (tally l) k v h1 hm
    have := h2 k
    simp only [statOf, zero_add] at this
    refine ⟨by simpa using (h3 k).1 hk, ?_⟩
    rw [← hv]
    exact this
  · rintro ⟨hk, rfl⟩
    have hk2 : k ∈ (tally l).map Prod.fst := (h3 k).2 (Or.inr hk)
    have := mem_of_key (tally l) k hk2
    have h2k := h2 k
    simp only [statOf, zero_add] at h2k
    unfold tally at this ⊢
    rw [h2k] at this
    exact this

/-- The counting loop from index `i` with `fuel` iterations inside the list. -/
theorem countLoop_eq (stateHash : List String) (fuel i : Nat) (stats : Stats)
    (h : i + fuel ≤ stateHash.length) :
    countLoop stateHash fuel i stats =
      some (((stateHash.drop i).take fuel).foldl bump stats) := by
  induction fuel generalizing i stats with
  | zero => simp [countLoop]
  | succ k ih =>
    have hi : i < stateHash.length := by omega
    rw [countLoop, List.get?_eq_get hi]
    simp only
    rw [ih (i + 1) _ (by omega)]
    have hd : stateHash.drop i = stateHash.get ⟨i, hi⟩ :: stateHash.drop (i + 1) :=
      List.drop_eq_getElem_cons hi
    rw [hd, List.take_succ_cons, List.foldl_cons]

theorem countLoop_tally (stateHash : List String) (n : Nat) (h : n ≤ stateHash.length) :
    countLoop stateHash n 0 [] = some (tally (stateHash.take n)) := by
  rw [countLoop_eq stateHash n 0 [] (by omega)]
  simp [tally]

/-- The selection loop returns the largest count seen, and an entry that
holds it unless no entry exceeds the initial value. -/
theorem selectMost_spec (entries : List (String × Int)) (acc : Int × String) :
    acc.1 ≤ (selectMost entries acc).1 ∧
      (∀ k v, (k, v) ∈ entries → v ≤ (selectMost entries acc).1) ∧
      (selectMost entries acc = acc ∨
        ((selectMost entries acc).2, (selectMost entries acc).1) ∈ entries) := by
  induction entries generalizing acc with
  | nil => simp [selectMost]
  | cons e rest ih =>
    obtain ⟨k0, v0⟩ := e
    obtain ⟨most, statHash⟩ := acc
    by_cases hgt : v0 > most
    · obtain ⟨h1, h2, h3⟩ := ih (v0, k0)
      simp only [selectMost, hgt, if_true]
      refine ⟨by simp only at h1; omega, ?_, ?_⟩
      · intro k v hm
        rcases List.mem_cons.1 hm with heq | hmem
        · cases heq; exact h1
        · exact h2 k v hmem
      · right
        rcases h3 with h3 | h3
        · rw [h3]; simp
        · exact List.mem_cons_of_mem _ h3
    · obtain ⟨h1, h2, h3⟩ := ih (most, statHash)
      simp only [selectMost, hgt, if_false]
      refine ⟨h1, ?_, ?_⟩
      · intro k v hm
        rcases List.mem_cons.1 hm with heq | hmem
        · cases heq; simp only at h1; omega
        · exact h2 k v hmem
      · rcases h3 with h3 | h3
        · left; exact h3
        · right; exact List.mem_cons_of_mem _ h3

/-- The result of `getMostCommit` on a record whose address list is not empty
and not longer than its state-hash list: the counting runs over the first
`len(Addrs)` state hashes `l`; `most` is the largest multiplicity in `l` and
the winner is a hash of `l` with that multiplicity. -/
theorem getMostCommit_spec (order : MapOrder) (horder : order.Legit)
    (stat : ParacrossHeightStatus) (details : ParacrossStatusDetails)
    (hd : stat.Details = some details)
    (hlen : details.Addrs.length ≤ details.StateHash.length)
    (hne : 0 < details.Addrs.length) :
    ∃ most winner, getMostCommit order stat = some (most, winner) ∧
      winner ∈ details.StateHash.take details.Addrs.length ∧
      ((details.StateHash.take details.Addrs.length).count winner : Int) = most ∧
      ∀ h, ((details.StateHash.take details.Addrs.length).count h : Int) ≤ most := by
  have hg : getMostCommit order stat =
      some (selectMost (order (tally (details.StateHash.take details.Addrs.length))) (-1, "")) := by
    simp [getMostCommit, hd, countLoop_tally _ _ hlen]
  generalize hl : details.StateHash.take details.Addrs.length = l at hg
  have hlne : l ≠ [] := by
    intro he
    have : l.length = details.Addrs.length := by
      rw [← hl, List.length_take]; omega
    rw [he] at this
    simp at this
    omega
  obtain ⟨h1, h2, h3⟩ := selectMost_spec (order (tally l)) (-1, "")
  have hmem : ∀ k v, (k, v) ∈ order (tally l) ↔ k ∈ l ∧ v = (l.count k : Int) := by
    intro k v
    rw [(horder (tally l)).mem_iff, mem_tally]
  obtain ⟨h0, hh0⟩ := List.exists_mem_of_ne_nil l hlne
  have hpos : (1 : Int) ≤ (selectMost (order (tally l)) (-1, "")).1 := by
    have := h2 h0 _ ((hmem h0 _).2 ⟨hh0, rfl⟩)
    have hc : 0 < l.count h0 := List.count_pos_iff.2 hh0
    omega
  have hwin : ((selectMost (order (tally l)) (-1, "")).2,
      (selectMost (order (tally l)) (-1, "")).1) ∈ order (tally l) := by
    rcases h3 with h3 | h3
    · rw [h3] at hpos
      simp at hpos
    · exact h3
  obtain ⟨hw1, hw2⟩ := (hmem _ _).1 hwin
  refine ⟨_, _, hg, hw1, hw2.symm, ?_⟩
  intro h
  by_cases hh : h ∈ l
  · exact h2 h _ ((hmem h _).2 ⟨hh, rfl⟩)
  · rw [List.count_eq_zero_of_not_mem hh]
    simp only [Nat.cast_zero]
    omega

/-- The tally of a record with non-empty details and as many addresses as
state hashes: the largest multiplicity and a hash that has it. -/
theorem getMostCommit_largest (order : MapOrder) (horder : order.Legit)
    (stat : ParacrossHeightStatus) (details : ParacrossStatusDetails)
    (hd : stat.Details = some details)
    (hlen : details.Addrs.length = details.StateHash.length)
    (hne : details.StateHash ≠ []) :
    ∃ most winner, getMostCommit order stat = some (most, winner) ∧
      (∀ h ∈ details.StateHash, (details.StateHash.count h : Int) ≤ most) ∧
      (∃ h ∈ details.StateHash, (details.StateHash.count h : Int) = most) ∧
      winner ∈ details.StateHash ∧
      (details.StateHash.count winner : Int) = most ∧
      ∀ order2 : MapOrder, order2.Legit →
        ∃ winner2, getMostCommit order2 stat = some (most, winner2) := by
  have hpos : 0 < details.Addrs.length := by
    rw [hlen]
    exact List.length_pos.2 hne
  have htake : details.StateHash.take details.Addrs.length = details.StateHash := by
    rw [hlen, List.take_length]
  obtain ⟨most, winner, hg, hw, hc, hmax⟩ :=
    getMostCommit_spec order horder stat details hd (by omega) hpos
  rw [htake] at hw hc hmax
  refine ⟨most, winner, hg, fun h _ => hmax h, ⟨winner, hw, hc⟩, hw, hc, ?_⟩
  intro order2 horder2
  obtain ⟨most2, winner2, hg2, hw2, hc2, hmax2⟩ :=
    getMostCommit_spec order2 horder2 stat details hd (by omega) hpos
  rw [htake] at hw2 hc2 hmax2
  have e : most2 = most := by
    have a1 := hmax winner2
    have a2 := hmax2 winner
    omega
  subst e
  exact ⟨winner2, hg2⟩

/-! ## C12: the tally returns the largest multiplicity -/

/-- C12: for every record with non-empty details and as many addresses as
state hashes, `getMostCommit` (whatever the iteration order of the counting
map) returns as `most` the largest multiplicity of a hash in
`details.stateHash`, and as second result a hash of exactly that multiplicity;
every other iteration order returns the same `most`. -/
theorem getMostCommit_max (order : MapOrder) (horder : order.Legit)
    (stat : ParacrossHeightStatus) (details : ParacrossStatusDetails)
    (hd : stat.Details = some details)
    (hlen : details.Addrs.length = details.StateHash.length)
    (hne : details.StateHash ≠ []) :
    ∃ most winner, getMostCommit order stat = some (most, winner) ∧
      (∀ h ∈ details.StateHash, (details.StateHash.count h : Int) ≤ most) ∧
      (∃ h ∈ details.StateHash, (details.StateHash.count h : Int) = most) ∧
      winner ∈ details.StateHash ∧
      (details.StateHash.count winner : Int) = most ∧
      ∀ order2 : MapOrder, order2.Legit →
        ∃ winner2, getMostCommit order2 stat = some (most, winner2) :=
  getMostCommit_largest order horder stat details hd hlen hne

/-- C12, witness: the votes `x, y, y, y`, counted with the map visited in
reverse order. -/
theorem getMostCommit_max_witness :
    ∃ most winner,
      getMostCommit List.reverse (mkRecord "T" 0 ["A", "B", "C", "D"] ["x", "y", "y", "y"]) =
          some (most, winner) ∧
        (∀ h ∈ ["x", "y", "y", "y"], (["x", "y", "y", "y"].count h : Int) ≤ most) ∧
        (∃ h ∈ ["x", "y", "y", "y"], (["x", "y", "y", "y"].count h : Int) = most) ∧
        winner ∈ ["x", "y", "y", "y"] ∧
        (["x", "y", "y", "y"].count winner : Int) = most ∧
        ∀ order2 : MapOrder, order2.Legit →
          ∃ winner2,
            getMostCommit order2 (mkRecord "T" 0 ["A", "B", "C", "D"] ["x", "y", "y", "y"]) =
              some (most, winner2) :=
  getMostCommit_max List.reverse (fun stats => List.reverse_perm stats)
    (mkRecord "T" 0 ["A", "B", "C", "D"] ["x", "y", "y", "y"])
    ⟨["A", "B", "C", "D"], ["x", "y", "y", "y"]⟩ rfl (by decide) (by decide)

/-! ## C19: a supermajority hash is unique -/

theorem count_add_count_le (l : List String) (h1 h2 : String) (hne : h1 ≠ h2) :
    l.count h1 + l.count h2 ≤ l.length := by
  induction l with
  | nil => simp
  | cons x rest ih =>
    simp only [List.count_cons, List.length_cons]
    by_cases e1 : x = h1
    · have e2 : ¬ x = h2 := fun e => hne (e1.symm.trans e)
      simp [e1, e2]
      have : ¬ h1 = h2 := hne
      simp [this]
      omega
    · by_cases e2 : x = h2
      · simp [e1, e2]
        have : ¬ h2 = h1 := fun e => hne e.symm
        simp [this]
        omega
      · simp [e1, e2]
        omega

/-- C19: for every roster and every record with as many addresses as state
hashes and no more votes than roster entries, if the `most` computed by
`getMostCommit` satisfies `most * 3 > 2 * len(roster)`, then exactly one state
hash has multiplicity `most`, and `getMostCommit` returns that hash as winner
for every iteration order of the counting map. -/
theorem supermajority_winner_unique (order : MapOrder) (horder : order.Legit)
    (nodes : List String) (stat : ParacrossHeightStatus) (details : ParacrossStatusDetails)
    (most : Int) (winner : String) (hd : stat.Details = some details)
    (hlen : details.Addrs.length = details.StateHash.length)
    (hroster : details.StateHash.length ≤ nodes.length)
    (hg : getMostCommit order stat = some (most, winner))
    (h23 : most * 3 > 2 * (nodes.length : Int)) :
    (details.StateHash.count winner : Int) = most ∧
      (∀ h, (details.StateHash.count h : Int) = most → h = winner) ∧
      ∀ order2 : MapOrder, order2.Legit → getMostCommit order2 stat = some (most, winner) := by
  have hne : details.StateHash ≠ [] := by
    intro he
    have hz : details.Addrs.length = 0 := by rw [hlen, he]; rfl
    have : getMostCommit order stat = some (selectMost (order []) (-1, "")) := by
      simp [getMostCommit, hd, hz, countLoop]
    have hnil : order [] = [] := List.Perm.eq_nil (horder [])
    rw [hnil, hg] at this
    simp only [selectMost, Option.some.injEq, Prod.mk.injEq] at this
    omega
  obtain ⟨most1, winner1, hg1, _, _, hw, hc, hind⟩ :=
    getMostCommit_largest order horder stat details hd hlen hne
  rw [hg] at hg1
  simp only [Option.some.injEq, Prod.mk.injEq] at hg1
  obtain ⟨rfl, rfl⟩ := hg1
  have huniq : ∀ h, (details.StateHash.count h : Int) = most → h = winner := by
    intro h hh
    by_contra hne2
    have := count_add_count_le details.StateHash h winner hne2
    omega
  refine ⟨hc, huniq, ?_⟩
  intro order2 horder2
  obtain ⟨most2, winner2, hg2, _, _, _, hc2, _⟩ :=
    getMostCommit_largest order2 horder2 stat details hd hlen hne
  obtain ⟨winner3, hg3⟩ := hind order2 horder2
  rw [hg3] at hg2
  simp only [Option.some.injEq, Prod.mk.injEq] at hg2
  obtain ⟨rfl, rfl⟩ := hg2
  rw [hg3, huniq winner3 hc2]

/-- C19, witness: roster `A, B, C, D` and the votes `x, y, y, y`. -/
theorem supermajority_winner_unique_witness :
    (["x", "y", "y", "y"].count "y" : Int) = 3 ∧
      (∀ h, (["x", "y", "y", "y"].count h : Int) = 3 → h = "y") ∧
      ∀ order2 : MapOrder, order2.Legit →
        getMostCommit order2 (mkRecord "T" 0 ["A", "B", "C", "D"] ["x", "y", "y", "y"]) =
          some (3, "y") :=
  supermajority_winner_unique id (fun stats => List.Perm.refl stats) ["A", "B", "C", "D"]
    (mkRecord "T" 0 ["A", "B", "C", "D"] ["x", "y", "y", "y"])
    ⟨["A", "B", "C", "D"], ["x", "y", "y", "y"]⟩ 3 "y" rfl (by decide) (by decide) (by decide)
    (by decide)

/-! ## Every path of `Commit`, with what it reads and writes -/

theorem commitTally_accepted (order : MapOrder) (a : action) (db : KV)
    (commit : ParacrossCommitAction) (status : ParacrossNodeStatus) (nodes : List String)
    (titleStatus : ParacrossStatus) (hs : commit.Status = some status)
    (stat : ParacrossHeightStatus) (prev : Option ParacrossHeightStatus)
    (horigin :
      (getTitleHeight db (calcTitleHeightKey status.Title status.Height) =
            Except.error Err.ErrNotFound ∧
          prev = none ∧ stat = firstVote a status) ∨
        ∃ old od,
          getTitleHeight db (calcTitleHeightKey status.Title status.Height) = Except.ok old ∧
            old.Details = some od ∧ stat = addVote a status old od ∧ prev = some stat) :
    commitTally order a db commit status nodes titleStatus stat
          (commitReceiptOf a status prev stat) = (db, Outcome.panic) ∨
      acceptedVote order a db status nodes titleStatus
        (commitTally order a db commit status nodes titleStatus stat
          (commitReceiptOf a status prev stat)) := by
  rcases commitTally_cases order a db commit status nodes titleStatus stat
    (commitReceiptOf a status prev stat) hs with h | h | h
  · left; exact h.1
  · obtain ⟨most, winner, hm, hnd, h⟩ := h
    right
    have hdet : ∃ details, stat.Details = some details := by
      cases hd : stat.Details with
      | none => simp [getMostCommit, hd] at hm
      | some d => exact ⟨d, rfl⟩
    obtain ⟨details, hdet⟩ := hdet
    exact ⟨stat, details, prev, most, winner, horigin, hdet, hm, Or.inl ⟨hnd, h⟩⟩
  · obtain ⟨most, winner, details, hm, hdet, hdone, h⟩ := h
    right
    exact ⟨stat, details, prev, most, winner, horigin, hdet, hm, Or.inr ⟨hdone, h⟩⟩

/-- The current-height part of `Commit`, in full. -/
theorem commitCurrent_inv (order : MapOrder) (a : action) (db : KV)
    (commit : ParacrossCommitAction) (status : ParacrossNodeStatus) (nodes : List String)
    (titleStatus : ParacrossStatus) (hs : commit.Status = some status) :
    (∃ e, e ≠ Err.ErrNotFound ∧
        getTitleHeight db (calcTitleHeightKey status.Title status.Height) = Except.error e ∧
        commitCurrent order a db commit status nodes titleStatus =
          (db, Outcome.ret none (some e))) ∨
      commitCurrent order a db commit status nodes titleStatus = (db, Outcome.panic) ∨
      acceptedVote order a db status nodes titleStatus
        (commitCurrent order a db commit status nodes titleStatus) := by
  have hcases : (∃ err, getTitleHeight db (calcTitleHeightKey status.Title status.Height) =
      Except.error err) ∨ ∃ old, getTitleHeight db
        (calcTitleHeightKey status.Title status.Height) = Except.ok old := by
    cases getTitleHeight db (calcTitleHeightKey status.Title status.Height) with
    | error err => exact Or.inl ⟨err, rfl⟩
    | ok old => exact Or.inr ⟨old, rfl⟩
  rcases hcases with ⟨err, hg⟩ | ⟨old, hg⟩
  · by_cases he : err = Err.ErrNotFound
    · subst he
      have heq : commitCurrent order a db commit status nodes titleStatus =
          commitTally order a db commit status nodes titleStatus (firstVote a status)
            (commitReceiptOf a status none (firstVote a status)) := by
        unfold commitCurrent
        simp only [hg, ne_eq, not_true_eq_false, if_false, makeCommitReceipt, hs]
        rfl
      rw [heq]
      right
      exact commitTally_accepted order a db commit status nodes titleStatus hs _ _
        (Or.inl ⟨hg, rfl, rfl⟩)
    · left
      refine ⟨err, he, hg, ?_⟩
      unfold commitCurrent
      simp [hg, he]
  · cases hd : old.Details with
    | none =>
      right; left
      unfold commitCurrent
      simp [hg, hd]
    | some od =>
      have heq : commitCurrent order a db commit status nodes titleStatus =
          commitTally order a db commit status nodes titleStatus (addVote a status old od)
            (commitReceiptOf a status (some (addVote a status old od))
              (addVote a status old od)) := by
        unfold commitCurrent
        simp only [hg, hd, makeCommitReceipt, hs]
        rfl
      rw [heq]
      right
      exact commitTally_accepted order a db commit status nodes titleStatus hs _ _
        (Or.inr ⟨old, od, hg, hd, rfl, rfl⟩)

/-- Every path of `Commit`: an error or a panic with the store untouched, the
Record receipt for a stale height with the store untouched, or an accepted vote
at the current height. -/
theorem Commit_inv (order : MapOrder) (a : action) (db : KV) (commit : ParacrossCommitAction) :
    (∃ e, Commit order a db commit = (db, Outcome.ret none (some e))) ∨
      Commit order a db commit = (db, Outcome.panic) ∨
      (∃ status titleStatus, commit.Status = some status ∧
        getTitle db (calcTitleKey status.Title) = Except.ok titleStatus ∧
        status.Height ≤ titleStatus.Height ∧
        Commit order a db commit =
          (db, Outcome.ret (some (makeRecordReceipt a.fromaddr commit)) none)) ∨
      ∃ status nodes titleStatus, commit.Status = some status ∧
        checkCommitInfo commit = none ∧
        getNodes db status.Title = Except.ok nodes ∧
        validNode a.fromaddr nodes = true ∧
        getTitle db (calcTitleKey status.Title) = Except.ok titleStatus ∧
        titleStatus.Height < status.Height ∧
        status.Height ≤ wrapInt64 (titleStatus.Height + 1) ∧
        acceptedVote order a db status nodes titleStatus (Commit order a db commit) := by
  cases hc : checkCommitInfo commit with
  | some err => left; exact ⟨err, by simp [Commit, hc]⟩
  | none =>
    cases hs : commit.Status with
    | none => right; left; simp [Commit, hc, hs]
    | some status =>
      by_cases hv : validTitle status.Title = true
      swap
      · left; exact ⟨Err.ErrInputPara, by simp [Commit, hc, hs, hv]⟩
      cases hn : getNodes db status.Title with
      | error e => left; exact ⟨Err.ErrInputPara, by simp [Commit, hc, hs, hv, hn]⟩
      | ok nodes =>
        by_cases hm : validNode a.fromaddr nodes = true
        swap
        · left; exact ⟨Err.ErrInputPara, by simp [Commit, hc, hs, hv, hn, hm]⟩
        cases ht : getTitle db (calcTitleKey status.Title) with
        | error e => left; exact ⟨e, by simp [Commit, hc, hs, hv, hn, hm, ht]⟩
        | ok titleStatus =>
          by_cases hf : status.Height > wrapInt64 (titleStatus.Height + 1)
          · left; exact ⟨Err.ErrInputPara, by simp [Commit, hc, hs, hv, hn, hm, ht, hf]⟩
          by_cases hst : status.Height ≤ titleStatus.Height
          · right; right; left
            exact ⟨status, titleStatus, rfl, ht, hst,
              by simp [Commit, hc, hs, hv, hn, hm, ht, hf, hst]⟩
          have hcur : Commit order a db commit =
              commitCurrent order a db commit status nodes titleStatus := by
            simp [Commit, hc, hs, hv, hn, hm, ht, hf, hst]
          rw [hcur]
          rcases commitCurrent_inv order a db commit status nodes titleStatus hs with
            ⟨e, _, _, h⟩ | h | h
          · left; exact ⟨e, h⟩
          · right; left; exact h
          · right; right; right
            exact ⟨status, nodes, titleStatus, rfl, rfl, hn, hm, ht, by omega, by omega, h⟩

/-! ## C13: the Done log -/

theorem getMostCommit_status (order : MapOrder) (stat : ParacrossHeightStatus) (s : Int) :
    getMostCommit order { stat with Status := s } = getMostCommit order stat := by
  simp [getMostCommit]

theorem emitsDone_commitReceiptOf (a : action) (status : ParacrossNodeStatus)
    (prev : Option ParacrossHeightStatus) (stat : ParacrossHeightStatus) :
    emitsDone (Outcome.ret (some (commitReceiptOf a status prev stat)) none) = false := by
  simp [emitsDone, logKinds, commitReceiptOf]

/-- A call that emits a Done log took the Done branch of an accepted vote. -/
theorem Commit_done_inv (order : MapOrder) (a : action) (db : KV)
    (commit : ParacrossCommitAction) (h : emitsDone (Commit order a db commit).2 = true) :
    ∃ status nodes titleStatus stat details prev most winner,
      commit.Status = some status ∧
        checkCommitInfo commit = none ∧
        getNodes db status.Title = Except.ok nodes ∧
        getTitle db (calcTitleKey status.Title) = Except.ok titleStatus ∧
        titleStatus.Height < status.Height ∧
        status.Height ≤ wrapInt64 (titleStatus.Height + 1) ∧
        ((getTitleHeight db (calcTitleHeightKey status.Title status.Height) =
              Except.error Err.ErrNotFound ∧
            prev = none ∧ stat = firstVote a status) ∨
          ∃ old od,
            getTitleHeight db (calcTitleHeightKey status.Title status.Height) = Except.ok old ∧
              old.Details = some od ∧ stat = addVote a status old od ∧ prev = some stat) ∧
        stat.Details = some details ∧
        getMostCommit order stat = some (most, winner) ∧
        isCommitDone stat nodes most = true ∧
        Commit order a db commit =
          (saveTitle
              (saveTitleHeight db (calcTitleHeightKey status.Title status.Height)
                { stat with Status := ParacrossStatusDone })
              (calcTitleKey status.Title)
              { titleStatus with Title := status.Title, Height := status.Height },
            Outcome.ret
              (some
                { commitReceiptOf a status prev stat with
                  Logs := (commitReceiptOf a status prev stat).Logs ++
                    [doneLogOf status nodes details most] })
              none) := by
  rcases Commit_inv order a db commit with
    ⟨e, h1⟩ | h1 | ⟨_, _, _, _, _, h1⟩ |
      ⟨status, nodes, titleStatus, hs, hc, hn, _, ht, hlt, hle, hacc⟩
  · rw [h1] at h; simp [emitsDone] at h
  · rw [h1] at h; simp [emitsDone] at h
  · rw [h1] at h; simp [emitsDone, logKinds, makeRecordReceipt] at h
  · obtain ⟨stat, details, prev, most, winner, horigin, hdet, hm, hres⟩ := hacc
    rcases hres with ⟨_, hres⟩ | ⟨hdone, hres⟩
    · rw [hres] at h
      rw [emitsDone_commitReceiptOf] at h
      cases h
    · exact ⟨status, nodes, titleStatus, stat, details, prev, most, winner, hs, hc, hn, ht, hlt,
        hle, horigin, hdet, hm, hdone, hres⟩

/-- C13 (as amended): for every `Commit` call that emits a Done log, the Done
log is the last log of the receipt, its `StateHash` field is the state hash
submitted by the call, its title and height are those of the payload, and `N`
is `[int32(most), int32(number of votes), int32(roster size)]`, where `most` is
the first result of `getMostCommit` on the updated record and the votes are
counted in the updated record. -/
theorem Commit_done_log (order : MapOrder) (a : action) (db : KV)
    (commit : ParacrossCommitAction) (h : emitsDone (Commit order a db commit).2 = true) :
    ∃ status nodes stat1 details most winner receipt,
      commit.Status = some status ∧
        getNodes db status.Title = Except.ok nodes ∧
        (Commit order a db commit).2 = Outcome.ret (some receipt) none ∧
        getTitleHeight (Commit order a db commit).1
            (calcTitleHeightKey status.Title status.Height) = Except.ok stat1 ∧
        stat1.Details = some details ∧
        getMostCommit order stat1 = some (most, winner) ∧
        receipt.Logs.getLast? =
          some
            { Ty := LogTy.TyLogParacrossDode
              Log := Bytes.doneLog
                { N := [wrapInt32 most, wrapInt32 (details.Addrs.length : Int),
                    wrapInt32 (nodes.length : Int)]
                  Title := status.Title
                  Height := status.Height
                  StateHash := status.StateHash } } := by
  obtain ⟨status, nodes, titleStatus, stat, details, prev, most, winner, hs, _, hn, _, _, _, _,
    hdet, hm, _, hres⟩ := Commit_done_inv order a db commit h
  refine ⟨status, nodes, { stat with Status := ParacrossStatusDone }, details, most, winner, _,
    hs, hn, by rw [hres], ?_, hdet, ?_, ?_⟩
  · rw [hres]
    simp [getTitleHeight, saveTitle, saveTitleHeight, KV.set, decodeParacrossHeightStatus,
      calcTitleHeightKey, calcTitleKey]
  · rw [getMostCommit_status]; exact hm
  · simp [commitReceiptOf, doneLogOf]

set_option maxRecDepth 100000 in
/-- C13, witness: after the votes `A: x`, `B: y`, `C: y` with a roster of four,
the vote `D: y` emits the Done log; it carries `y` and `N = [3, 4, 4]`. -/
theorem Commit_done_log_witness :
    (∃ status nodes stat1 details most winner receipt,
      (mkCommit "T" 0 "y").Status = some status ∧
        getNodes xyyKV status.Title = Except.ok nodes ∧
        (Commit id (mkAction "D") xyyKV (mkCommit "T" 0 "y")).2 =
          Outcome.ret (some receipt) none ∧
        getTitleHeight (Commit id (mkAction "D") xyyKV (mkCommit "T" 0 "y")).1
            (calcTitleHeightKey status.Title status.Height) = Except.ok stat1 ∧
        stat1.Details = some details ∧
        getMostCommit id stat1 = some (most, winner) ∧
        receipt.Logs.getLast? =
          some
            { Ty := LogTy.TyLogParacrossDode
              Log := Bytes.doneLog
                { N := [wrapInt32 most, wrapInt32 (details.Addrs.length : Int),
                    wrapInt32 (nodes.length : Int)]
                  Title := status.Title
                  Height := status.Height
                  StateHash := status.StateHash } }) ∧
      ∃ receipt,
        (Commit id (mkAction "D") xyyKV (mkCommit "T" 0 "y")).2 =
            Outcome.ret (some receipt) none ∧
          receipt.Logs.getLast? =
            some
              { Ty := LogTy.TyLogParacrossDode
                Log := Bytes.doneLog
                  { N := [3, 4, 4], Title := "T", Height := 0, StateHash := "y" } } :=
  ⟨Commit_done_log id (mkAction "D") xyyKV (mkCommit "T" 0 "y") (by decide),
    ⟨_, by rfl, by decide⟩⟩

set_option maxRecDepth 100000 in
/-- C13, counterexample: roster `C, D`, no cursor, and a stored record at
height 0 with the votes `A: y`, `B: y`.  The vote `C: x` makes the tally 2 of a
roster of 2 and emits the Done log; the log carries the submitted hash `x`,
while the hash of maximal multiplicity in the updated record is `y` (two votes
against one). -/
theorem Commit_done_log_not_winner :
    (Commit id (mkAction "C") shrunkRosterKV (mkCommit "T" 0 "x")).2 =
        Outcome.ret
          (some
            { Ty := ReceiptTy.ExecOk
              KV := [{ Key := calcTitleHeightKey "T" 0,
                       Value := Bytes.heightStatus
                        (mkRecord "T" 0 ["A", "B", "C"] ["y", "y", "x"]) }]
              Logs := [{ Ty := LogTy.TyLogParacrossCommit,
                         Log := Bytes.commitLog
                          { Addr := "C"
                            Status := some ⟨"T", 0, "x"⟩
                            Prev := some (mkRecord "T" 0 ["A", "B", "C"] ["y", "y", "x"])
                            Current := some (mkRecord "T" 0 ["A", "B", "C"] ["y", "y", "x"]) } },
                       { Ty := LogTy.TyLogParacrossDode,
                         Log := Bytes.doneLog
                          { N := [2, 3, 2], Title := "T", Height := 0, StateHash := "x" } }] })
          none ∧
      getMostCommit id (mkRecord "T" 0 ["A", "B", "C"] ["y", "y", "x"]) = some (2, "y") ∧
      ["y", "y", "x"].count "y" = 2 ∧ ["y", "y", "x"].count "x" = 1 := by
  refine ⟨by decide, by decide, by decide, by decide⟩

/-! ## C16: the fields `Prev` and `Current` of the Commit log -/

set_option maxRecDepth 100000 in
/-- C16 (the code at the failing input): roster `A, B, C, D`, no cursor, the
stored record at height 0 holds the vote `A: h`, and `B` commits `(T, 0, h)`.
The record stored before the call has the details `[A]`, `[h]`, but the `Prev`
field of the emitted Commit log has the details `[A, B]`, `[h, h]`: it equals
the `Current` field, because `copyStat` shares the details of `stat`. -/
theorem Commit_prev_holds_new_vote :
    getTitleHeight votedKV (calcTitleHeightKey "T" 0) =
        Except.ok (mkRecord "T" 0 ["A"] ["h"]) ∧
      (Commit id (mkAction "B") votedKV (mkCommit "T" 0 "h")).2 =
        Outcome.ret
          (some
            { Ty := ReceiptTy.ExecOk
              KV := [{ Key := calcTitleHeightKey "T" 0,
                       Value := Bytes.heightStatus (mkRecord "T" 0 ["A", "B"] ["h", "h"]) }]
              Logs := [{ Ty := LogTy.TyLogParacrossCommit,
                         Log := Bytes.commitLog
                          { Addr := "B"
                            Status := some ⟨"T", 0, "h"⟩
                            Prev := some (mkRecord "T" 0 ["A", "B"] ["h", "h"])
                            Current := some (mkRecord "T" 0 ["A", "B"] ["h", "h"]) } }] })
          none := by
  refine ⟨by rfl, by decide⟩

/-! ## C17: errors of the reads -/

/-- C17 (as amended): for a valid payload, an error of `getNodes` is replaced
by `ErrInputPara`; an error of `getTitle` is returned as it is; and an error
of `getTitleHeight` other than `ErrNotFound`, read when the height is the
current one, is returned as it is.  In each case the receipt is nil and the
store is unchanged. -/
theorem Commit_read_errors (order : MapOrder) (a : action) (db : KV)
    (commit : ParacrossCommitAction) (status : ParacrossNodeStatus)
    (hs : commit.Status = some status) (hc : checkCommitInfo commit = none) :
    (∀ e, getNodes db status.Title = Except.error e →
        Commit order a db commit = (db, Outcome.ret none (some Err.ErrInputPara))) ∧
      (∀ nodes e, getNodes db status.Title = Except.ok nodes →
        validNode a.fromaddr nodes = true →
        getTitle db (calcTitleKey status.Title) = Except.error e →
        Commit order a db commit = (db, Outcome.ret none (some e))) ∧
      ∀ nodes titleStatus e, getNodes db status.Title = Except.ok nodes →
        validNode a.fromaddr nodes = true →
        getTitle db (calcTitleKey status.Title) = Except.ok titleStatus →
        titleStatus.Height < status.Height →
        status.Height ≤ wrapInt64 (titleStatus.Height + 1) →
        getTitleHeight db (calcTitleHeightKey status.Title status.Height) = Except.error e →
        e ≠ Err.ErrNotFound →
        Commit order a db commit = (db, Outcome.ret none (some e)) := by
  have hv : validTitle status.Title = true := by
    unfold checkCommitInfo at hc
    rw [hs] at hc
    simp only at hc
    split_ifs at hc with h1 h2
    exact (by simpa using h2 : validTitle status.Title = true ∧ 0 ≤ status.Height).1
  refine ⟨?_, ?_, ?_⟩
  · intro e hn
    simp [Commit, hc, hs, hv, hn]
  · intro nodes e hn hm ht
    simp [Commit, hc, hs, hv, hn, hm, ht]
  · intro nodes titleStatus e hn hm ht hlt hle hg he
    have hf : ¬ status.Height > wrapInt64 (titleStatus.Height + 1) := by omega
    have hst : ¬ status.Height ≤ titleStatus.Height := by omega
    simp [Commit, hc, hs, hv, hn, hm, ht, hf, hst, commitCurrent, hg, he]

/-- C17, witness: the roster entry of `T` does not decode. -/
theorem Commit_read_errors_witness :
    (∀ e, getNodes garbledRosterKV "T" = Except.error e →
        Commit id (mkAction "A") garbledRosterKV (mkCommit "T" 0 "h") =
          (garbledRosterKV, Outcome.ret none (some Err.ErrInputPara))) ∧
      (∀ nodes e, getNodes garbledRosterKV "T" = Except.ok nodes →
        validNode "A" nodes = true →
        getTitle garbledRosterKV (calcTitleKey "T") = Except.error e →
        Commit id (mkAction "A") garbledRosterKV (mkCommit "T" 0 "h") =
          (garbledRosterKV, Outcome.ret none (some e))) ∧
      ∀ nodes titleStatus e, getNodes garbledRosterKV "T" = Except.ok nodes →
        validNode "A" nodes = true →
        getTitle garbledRosterKV (calcTitleKey "T") = Except.ok titleStatus →
        titleStatus.Height < 0 →
        (0 : Int) ≤ wrapInt64 (titleStatus.Height + 1) →
        getTitleHeight garbledRosterKV (calcTitleHeightKey "T" 0) = Except.error e →
        e ≠ Err.ErrNotFound →
        Commit id (mkAction "A") garbledRosterKV (mkCommit "T" 0 "h") =
          (garbledRosterKV, Outcome.ret none (some e)) :=
  Commit_read_errors id (mkAction "A") garbledRosterKV (mkCommit "T" 0 "h") ⟨"T", 0, "h"⟩ rfl
    (by decide)

/-- C17, counterexample: the roster entry of `T` holds bytes that do not
decode, so `getNodes` returns the decode error; `Commit` returns
`ErrInputPara`, not that error. -/
theorem Commit_getNodes_error_replaced :
    getNodes garbledRosterKV "T" = Except.error Err.ErrDecode ∧
      checkCommitInfo (mkCommit "T" 0 "h") = none ∧
      Commit id (mkAction "A") garbledRosterKV (mkCommit "T" 0 "h") =
        (garbledRosterKV, Outcome.ret none (some Err.ErrInputPara)) ∧
      Err.ErrInputPara ≠ Err.ErrDecode := by
  refine ⟨by rfl, by decide, by rfl, by decide⟩

/-! ## Reads after writes -/

theorem getTitleHeight_saveTitleHeight (db : KV) (title0 title : String) (height0 height : Int)
    (stat : ParacrossHeightStatus) :
    getTitleHeight (saveTitleHeight db (calcTitleHeightKey title0 height0) stat)
        (calcTitleHeightKey title height) =
      if title = title0 ∧ height = height0 then Except.ok stat
      else getTitleHeight db (calcTitleHeightKey title height) := by
  by_cases h : title = title0 ∧ height = height0
  · obtain ⟨rfl, rfl⟩ := h
    simp [getTitleHeight, saveTitleHeight, KV.set, decodeParacrossHeightStatus]
  · have hne : calcTitleHeightKey title height ≠ calcTitleHeightKey title0 height0 := by
      intro e
      simp only [calcTitleHeightKey, Key.titleHeight.injEq] at e
      exact h e
    simp [getTitleHeight, saveTitleHeight, KV.set, hne, h]

theorem getTitleHeight_saveTitle (db : KV) (title0 title : String) (height : Int)
    (titleStatus : ParacrossStatus) :
    getTitleHeight (saveTitle db (calcTitleKey title0) titleStatus)
        (calcTitleHeightKey title height) =
      getTitleHeight db (calcTitleHeightKey title height) := by
  simp [getTitleHeight, saveTitle, KV.set, calcTitleKey, calcTitleHeightKey]

theorem getTitle_saveTitleHeight (db : KV) (title0 title : String) (height0 : Int)
    (stat : ParacrossHeightStatus) :
    getTitle (saveTitleHeight db (calcTitleHeightKey title0 height0) stat) (calcTitleKey title) =
      getTitle db (calcTitleKey title) := by
  simp [getTitle, saveTitleHeight, KV.set, calcTitleKey, calcTitleHeightKey]

theorem getTitle_saveTitle (db : KV) (title0 title : String) (titleStatus : ParacrossStatus) :
    getTitle (saveTitle db (calcTitleKey title0) titleStatus) (calcTitleKey title) =
      if title = title0 then Except.ok titleStatus else getTitle db (calcTitleKey title) := by
  by_cases h : title = title0
  · subst h
    simp [getTitle, saveTitle, KV.set, decodeParacrossStatus]
  · simp [getTitle, saveTitle, KV.set, calcTitleKey, h]

theorem getNodes_saveTitleHeight (db : KV) (title0 title : String) (height0 : Int)
    (stat : ParacrossHeightStatus) :
    getNodes (saveTitleHeight db (calcTitleHeightKey title0 height0) stat) title =
      getNodes db title := by
  simp [getNodes, saveTitleHeight, KV.set, calcConfigNodesKey, calcTitleHeightKey]

theorem getNodes_saveTitle (db : KV) (title0 title : String) (titleStatus : ParacrossStatus) :
    getNodes (saveTitle db (calcTitleKey title0) titleStatus) title = getNodes db title := by
  simp [getNodes, saveTitle, KV.set, calcConfigNodesKey, calcTitleKey]

/-- With an `int64` cursor the two height tests leave only `H = Cur + 1`. -/
theorem current_height_eq (cur height : Int) (hr : isInt64 cur) (hlt : cur < height)
    (hle : height ≤ wrapInt64 (cur + 1)) : height = cur + 1 ∧ isInt64 height := by
  unfold isInt64 at hr ⊢
  unfold wrapInt64 at hle
  omega

/-- The record tallied by an accepted vote has details with equal lengths and
is not Done, when the stored records satisfy the invariant. -/
theorem accepted_stat_ok (a : action) (db : KV) (status : ParacrossNodeStatus)
    (titleStatus : ParacrossStatus) (stat : ParacrossHeightStatus)
    (prev : Option ParacrossHeightStatus) (hinv : RecordsOk db)
    (ht : getTitle db (calcTitleKey status.Title) = Except.ok titleStatus)
    (hlt : titleStatus.Height < status.Height)
    (horigin :
      (getTitleHeight db (calcTitleHeightKey status.Title status.Height) =
            Except.error Err.ErrNotFound ∧
          prev = none ∧ stat = firstVote a status) ∨
        ∃ old od,
          getTitleHeight db (calcTitleHeightKey status.Title status.Height) = Except.ok old ∧
            old.Details = some od ∧ stat = addVote a status old od ∧ prev = some stat) :
    (∃ details, stat.Details = some details ∧
        details.Addrs.length = details.StateHash.length ∧ details.StateHash ≠ []) ∧
      stat.Status ≠ ParacrossStatusDone := by
  rcases horigin with ⟨_, _, rfl⟩ | ⟨old, od, hg, hd, rfl, _⟩
  · refine ⟨⟨_, rfl, by simp, by simp⟩, ?_⟩
    simp [firstVote, ParacrossStatusCommiting, ParacrossStatusDone]
  · obtain ⟨ts, d, ht2, _, hd2, hlen, hdone⟩ := hinv.2 _ _ _ hg
    rw [ht] at ht2
    cases ht2
    rw [hd] at hd2
    cases hd2
    refine ⟨⟨_, rfl, by simp [hlen], by simp⟩, ?_⟩
    intro hst
    have := hdone hst
    omega

/-- One call of `Commit` keeps the invariant of the stored records. -/
theorem Commit_RecordsOk (order : MapOrder) (a : action) (db : KV)
    (commit : ParacrossCommitAction) (hinv : RecordsOk db) :
    RecordsOk (Commit order a db commit).1 := by
  rcases Commit_inv order a db commit with
    ⟨e, h1⟩ | h1 | ⟨_, _, _, _, _, h1⟩ |
      ⟨status, nodes, titleStatus, hs, hc, hn, _, ht, hlt, hle, hacc⟩
  · rw [h1]; exact hinv
  · rw [h1]; exact hinv
  · rw [h1]; exact hinv
  · obtain ⟨stat, details, prev, most, winner, horigin, hdet, hm, hres⟩ := hacc
    obtain ⟨⟨d, hd, hlen, _⟩, hnd⟩ :=
      accepted_stat_ok a db status titleStatus stat prev hinv ht hlt horigin
    obtain ⟨hH, hHr⟩ := current_height_eq _ _ (hinv.1 _ _ ht) hlt hle
    rcases hres with ⟨_, hres⟩ | ⟨_, hres⟩
    · rw [hres]
      refine ⟨?_, ?_⟩
      · intro title ts hts
        rw [getTitle_saveTitleHeight] at hts
        exact hinv.1 _ _ hts
      · intro title height stat1 hrec
        rw [getTitleHeight_saveTitleHeight] at hrec
        split_ifs at hrec with hk
        · obtain ⟨rfl, rfl⟩ := hk
          cases hrec
          refine ⟨titleStatus, d, ?_, by omega, hd, hlen, fun hst => absurd hst hnd⟩
          rw [getTitle_saveTitleHeight]; exact ht
        · obtain ⟨ts, d1, h1, h2, h3, h4, h5⟩ := hinv.2 _ _ _ hrec
          refine ⟨ts, d1, ?_, h2, h3, h4, h5⟩
          rw [getTitle_saveTitleHeight]; exact h1
    · rw [hres]
      refine ⟨?_, ?_⟩
      · intro title ts hts
        rw [getTitle_saveTitle] at hts
        split_ifs at hts with hk
        · cases hts
          exact hHr
        · rw [getTitle_saveTitleHeight] at hts
          exact hinv.1 _ _ hts
      · intro title height stat1 hrec
        rw [getTitleHeight_saveTitle, getTitleHeight_saveTitleHeight] at hrec
        split_ifs at hrec with hk
        · obtain ⟨rfl, rfl⟩ := hk
          cases hrec
          refine ⟨{ titleStatus with Title := status.Title, Height := status.Height }, d, ?_,
            by simp, hd, hlen, fun _ => by simp⟩
          rw [getTitle_saveTitle]; simp
        · obtain ⟨ts, d1, h1, h2, h3, h4, h5⟩ := hinv.2 _ _ _ hrec
          by_cases hT : title = status.Title
          · subst hT
            rw [ht] at h1
            cases h1
            refine ⟨{ titleStatus with Title := status.Title, Height := status.Height }, d1, ?_,
              by simp only; omega, h3, h4, fun hst => by have := h5 hst; simp only; omega⟩
            rw [getTitle_saveTitle]; simp
          · refine ⟨ts, d1, ?_, h2, h3, h4, h5⟩
            rw [getTitle_saveTitle, getTitle_saveTitleHeight]
            simp [hT, h1]

/-- A store with no records whose cursors are `int64` values satisfies the
invariant of the stored records. -/
theorem RecordsOk_of_NoRecords (db : KV) (h0 : NoRecords db) (hc : CursorsInt64 db) :
    RecordsOk db := by
  refine ⟨hc, ?_⟩
  intro title height stat hrec
  simp [getTitleHeight, h0 title height] at hrec

theorem CursorsInt64_of_NoCursors (db : KV) (h0 : NoCursors db) : CursorsInt64 db := by
  intro title ts hts
  simp only [getTitle, h0 title, if_true] at hts
  cases hts
  unfold isInt64
  decide

theorem runCommits_RecordsOk (calls : List (MapOrder × action × ParacrossCommitAction))
    (db : KV) (hinv : RecordsOk db) : RecordsOk (runCommits calls db) := by
  induction calls generalizing db with
  | nil => exact hinv
  | cons call rest ih =>
    obtain ⟨order, a, commit⟩ := call
    exact ih _ (Commit_RecordsOk order a db commit hinv)

/-! ## C11: a Done record is frozen -/

/-- A call of `Commit` does not touch a stored record with status Done, when
the stored records satisfy the invariant. -/
theorem Commit_done_frozen (order : MapOrder) (a : action) (db : KV)
    (commit : ParacrossCommitAction) (hinv : RecordsOk db) (title : String) (height : Int)
    (stat : ParacrossHeightStatus)
    (hrec : getTitleHeight db (calcTitleHeightKey title height) = Except.ok stat)
    (hdone : stat.Status = ParacrossStatusDone) :
    (Commit order a db commit).1 (calcTitleHeightKey title height) =
      db (calcTitleHeightKey title height) := by
  rcases Commit_inv order a db commit with
    ⟨e, h1⟩ | h1 | ⟨_, _, _, _, _, h1⟩ |
      ⟨status, nodes, titleStatus, hs, hc, hn, _, ht, hlt, hle, hacc⟩
  · rw [h1]
  · rw [h1]
  · rw [h1]
  · obtain ⟨ts, d, ht2, _, _, _, hd⟩ := hinv.2 _ _ _ hrec
    have hle2 := hd hdone
    have hne : calcTitleHeightKey title height ≠
        calcTitleHeightKey status.Title status.Height := by
      intro e
      simp only [calcTitleHeightKey, Key.titleHeight.injEq] at e
      obtain ⟨rfl, rfl⟩ := e
      rw [ht] at ht2
      cases ht2
      omega
    obtain ⟨stat1, details, prev, most, winner, _, _, _, hres⟩ := hacc
    rcases hres with ⟨_, hres⟩ | ⟨_, hres⟩
    · rw [hres]
      simp only [saveTitleHeight]
      exact KV.set_other _ _ _ _ hne
    · rw [hres]
      simp only [saveTitleHeight, saveTitle]
      rw [KV.set_other _ _ _ _ (by simp [calcTitleKey, calcTitleHeightKey])]
      exact KV.set_other _ _ _ _ hne

theorem runCommits_done_frozen (calls : List (MapOrder × action × ParacrossCommitAction))
    (db : KV) (hinv : RecordsOk db) (title : String) (height : Int)
    (stat : ParacrossHeightStatus)
    (hrec : getTitleHeight db (calcTitleHeightKey title height) = Except.ok stat)
    (hdone : stat.Status = ParacrossStatusDone) :
    (runCommits calls db) (calcTitleHeightKey title height) =
      db (calcTitleHeightKey title height) := by
  induction calls generalizing db with
  | nil => rfl
  | cons call rest ih =>
    obtain ⟨order, a, commit⟩ := call
    have hstep := Commit_done_frozen order a db commit hinv title height stat hrec hdone
    have hrec1 : getTitleHeight (Commit order a db commit).1 (calcTitleHeightKey title height) =
        Except.ok stat := by
      unfold getTitleHeight at hrec ⊢
      rw [hstep]; exact hrec
    have := ih (Commit order a db commit).1 (Commit_RecordsOk order a db commit hinv) hrec1
    simp only [runCommits]
    rw [this, hstep]

/-- C11: in every store reached by a sequence of `Commit` calls from a store
with no aggregation record and no cursor, a record with status Done at `(T, H)`
implies that the cursor of `T` is at least `H`, and every further sequence of
`Commit` calls (any senders, titles, heights, hashes and iteration orders)
leaves the stored bytes of the record at `(T, H)` as they are: the details are
not extended and the status stays Done. -/
theorem Commit_done_record_frozen (db0 : KV) (h0 : NoRecords db0) (hc : NoCursors db0)
    (calls : List (MapOrder × action × ParacrossCommitAction)) (title : String) (height : Int)
    (stat : ParacrossHeightStatus)
    (hrec : getTitleHeight (runCommits calls db0) (calcTitleHeightKey title height) =
      Except.ok stat)
    (hdone : stat.Status = ParacrossStatusDone) :
    (∃ cur, cursorHeight (runCommits calls db0) title = Except.ok cur ∧ height ≤ cur) ∧
      ∀ later : List (MapOrder × action × ParacrossCommitAction),
        (runCommits (calls ++ later) db0) (calcTitleHeightKey title height) =
            (runCommits calls db0) (calcTitleHeightKey title height) ∧
          getTitleHeight (runCommits (calls ++ later) db0) (calcTitleHeightKey title height) =
            Except.ok stat := by
  have hinv : RecordsOk (runCommits calls db0) :=
    runCommits_RecordsOk calls db0
      (RecordsOk_of_NoRecords db0 h0 (CursorsInt64_of_NoCursors db0 hc))
  constructor
  · obtain ⟨ts, d, ht, _, _, _, hd⟩ := hinv.2 _ _ _ hrec
    exact ⟨ts.Height, by simp [cursorHeight, ht], hd hdone⟩
  · intro later
    have hraw := runCommits_done_frozen later (runCommits calls db0) hinv title height stat
      hrec hdone
    rw [runCommits_append]
    refine ⟨hraw, ?_⟩
    unfold getTitleHeight at hrec ⊢
    rw [hraw]; exact hrec

set_option maxRecDepth 100000 in
/-- C11, witness: roster `A` alone, no record and no cursor; the commit
`(T, 0, h)` of `A` puts the record at `(T, 0)` into status Done, and the
conclusion of the theorem holds for it. -/
theorem Commit_done_record_frozen_witness :
    (getTitleHeight
          (runCommits [(id, mkAction "A", mkCommit "T" 0 "h")] (rosterKV "T" ["A"]))
          (calcTitleHeightKey "T" 0) =
        Except.ok { mkRecord "T" 0 ["A"] ["h"] with Status := ParacrossStatusDone }) ∧
      (∃ cur,
        cursorHeight (runCommits [(id, mkAction "A", mkCommit "T" 0 "h")] (rosterKV "T" ["A"]))
            "T" = Except.ok cur ∧ (0 : Int) ≤ cur) ∧
      ∀ later : List (MapOrder × action × ParacrossCommitAction),
        (runCommits ([(id, mkAction "A", mkCommit "T" 0 "h")] ++ later) (rosterKV "T" ["A"]))
              (calcTitleHeightKey "T" 0) =
            (runCommits [(id, mkAction "A", mkCommit "T" 0 "h")] (rosterKV "T" ["A"]))
              (calcTitleHeightKey "T" 0) ∧
          getTitleHeight
              (runCommits ([(id, mkAction "A", mkCommit "T" 0 "h")] ++ later)
                (rosterKV "T" ["A"]))
              (calcTitleHeightKey "T" 0) =
            Except.ok { mkRecord "T" 0 ["A"] ["h"] with Status := ParacrossStatusDone } :=
  ⟨by rfl,
    Commit_done_record_frozen (rosterKV "T" ["A"]) (fun _ _ => rfl) (fun _ => rfl)
      [(id, mkAction "A", mkCommit "T" 0 "h")] "T" 0
      { mkRecord "T" 0 ["A"] ["h"] with Status := ParacrossStatusDone } (by rfl) (by rfl)⟩

/-! ## C18: the two lists of a record have the same length -/

/-- C18: for every `Commit` call that returns a receipt for a height above the
cursor, started from a store in which the record at `(T, H)` is absent or has as
many addresses as state hashes: the record stored at `(T, H)` after the call has
as many addresses as state hashes, both lists have length 1 when no record was
stored before, and both are one longer than before otherwise.  Hence every
record in every store reached by `Commit` calls from a store with no record and
no cursor (the empty store among them) has as many addresses as state
hashes. -/
theorem Commit_lengths_equal (order : MapOrder) (a : action) (db : KV)
    (commit : ParacrossCommitAction) (status : ParacrossNodeStatus)
    (titleStatus : ParacrossStatus) (receipt : Receipt)
    (hs : commit.Status = some status)
    (ht : getTitle db (calcTitleKey status.Title) = Except.ok titleStatus)
    (hcur : titleStatus.Height < status.Height)
    (hok : (Commit order a db commit).2 = Outcome.ret (some receipt) none)
    (hbefore : ∀ old od,
      getTitleHeight db (calcTitleHeightKey status.Title status.Height) = Except.ok old →
      old.Details = some od → od.Addrs.length = od.StateHash.length) :
    (∃ stat1 d1,
        getTitleHeight (Commit order a db commit).1
            (calcTitleHeightKey status.Title status.Height) = Except.ok stat1 ∧
          stat1.Details = some d1 ∧
          d1.Addrs.length = d1.StateHash.length ∧
          ((getTitleHeight db (calcTitleHeightKey status.Title status.Height) =
                Except.error Err.ErrNotFound ∧
              d1.Addrs.length = 1 ∧ d1.StateHash.length = 1) ∨
            ∃ old od,
              getTitleHeight db (calcTitleHeightKey status.Title status.Height) =
                  Except.ok old ∧
                old.Details = some od ∧
                d1.Addrs.length = od.Addrs.length + 1 ∧
                d1.StateHash.length = od.StateHash.length + 1)) ∧
      ∀ (db0 : KV) (calls : List (MapOrder × action × ParacrossCommitAction)) (title : String)
        (height : Int) (stat : ParacrossHeightStatus),
        NoRecords db0 → NoCursors db0 →
        getTitleHeight (runCommits calls db0) (calcTitleHeightKey title height) =
          Except.ok stat →
        ∃ d, stat.Details = some d ∧ d.Addrs.length = d.StateHash.length := by
  constructor
  · rcases Commit_inv order a db commit with
      ⟨e, h1⟩ | h1 | ⟨status2, ts2, hs2, ht2, hle2, h1⟩ |
        ⟨status2, nodes, ts2, hs2, _, _, _, ht2, _, _, hacc⟩
    · rw [h1] at hok; simp at hok
    · rw [h1] at hok; simp at hok
    · rw [hs] at hs2
      cases hs2
      rw [ht] at ht2
      cases ht2
      omega
    · rw [hs] at hs2
      cases hs2
      obtain ⟨stat, details, prev, most, winner, horigin, hdet, _, hres⟩ := hacc
      have hstored : ∃ stat1,
          getTitleHeight (Commit order a db commit).1
              (calcTitleHeightKey status.Title status.Height) = Except.ok stat1 ∧
            stat1.Details = some details := by
        rcases hres with ⟨_, hres⟩ | ⟨_, hres⟩
        · refine ⟨stat, ?_, hdet⟩
          rw [hres, getTitleHeight_saveTitleHeight]
          simp
        · refine ⟨{ stat with Status := ParacrossStatusDone }, ?_, hdet⟩
          rw [hres, getTitleHeight_saveTitle, getTitleHeight_saveTitleHeight]
          simp
      obtain ⟨stat1, hst1, hd1⟩ := hstored
      rcases horigin with ⟨hnf, _, rfl⟩ | ⟨old, od, hg, hd, rfl, _⟩
      · simp only [firstVote, Option.some.injEq] at hdet
        subst hdet
        exact ⟨stat1, _, hst1, hd1, by simp, Or.inl ⟨hnf, by simp, by simp⟩⟩
      · simp only [addVote, Option.some.injEq] at hdet
        subst hdet
        have hlen := hbefore old od hg hd
        exact ⟨stat1, _, hst1, hd1, by simp [hlen], Or.inr ⟨old, od, hg, hd, by simp, by simp⟩⟩
  · intro db0 calls title height stat h0 hc hrec
    have hinv : RecordsOk (runCommits calls db0) :=
      runCommits_RecordsOk calls db0
        (RecordsOk_of_NoRecords db0 h0 (CursorsInt64_of_NoCursors db0 hc))
    obtain ⟨_, d, _, _, hd, hlen, _⟩ := hinv.2 _ _ _ hrec
    exact ⟨d, hd, hlen⟩

set_option maxRecDepth 100000 in
/-- C18, witness: roster `A, B, C, D`, no cursor, the record at `(T, 0)` holds
the vote `A: h`, and `B` commits `(T, 0, h)`; the stored record goes from one
address and one state hash to two of each. -/
theorem Commit_lengths_equal_witness :
    (getTitleHeight (Commit id (mkAction "B") votedKV (mkCommit "T" 0 "h")).1
          (calcTitleHeightKey "T" 0) =
        Except.ok (mkRecord "T" 0 ["A", "B"] ["h", "h"])) ∧
      ((∃ stat1 d1,
          getTitleHeight (Commit id (mkAction "B") votedKV (mkCommit "T" 0 "h")).1
              (calcTitleHeightKey "T" 0) = Except.ok stat1 ∧
            stat1.Details = some d1 ∧
            d1.Addrs.length = d1.StateHash.length ∧
            ((getTitleHeight votedKV (calcTitleHeightKey "T" 0) =
                  Except.error Err.ErrNotFound ∧
                d1.Addrs.length = 1 ∧ d1.StateHash.length = 1) ∨
              ∃ old od,
                getTitleHeight votedKV (calcTitleHeightKey "T" 0) = Except.ok old ∧
                  old.Details = some od ∧
                  d1.Addrs.length = od.Addrs.length + 1 ∧
                  d1.StateHash.length = od.StateHash.length + 1)) ∧
        ∀ (db0 : KV) (calls : List (MapOrder × action × ParacrossCommitAction)) (title : String)
          (height : Int) (stat : ParacrossHeightStatus),
          NoRecords db0 → NoCursors db0 →
          getTitleHeight (runCommits calls db0) (calcTitleHeightKey title height) =
            Except.ok stat →
          ∃ d, stat.Details = some d ∧ d.Addrs.length = d.StateHash.length) :=
  ⟨by rfl,
    Commit_lengths_equal id (mkAction "B") votedKV (mkCommit "T" 0 "h") ⟨"T", 0, "h"⟩
      ⟨"", -1⟩ _ (by rfl) (by rfl) (by decide) (by rfl)
      (by
        intro old od hg hd
        have hold : old = mkRecord "T" 0 ["A"] ["h"] := by
          have h2 : getTitleHeight votedKV (calcTitleHeightKey "T" 0) =
              Except.ok (mkRecord "T" 0 ["A"] ["h"]) := by rfl
          rw [h2] at hg
          cases hg
          rfl
        subst hold
        cases hd
        rfl)⟩

/-! ## C20: the hash of the Done log is the tally winner -/

theorem maxVotes_unique (l : List String) (m1 m2 : Int) (h1 : maxVotes l m1)
    (h2 : maxVotes l m2) : m1 = m2 := by
  obtain ⟨a1, k1, _, e1⟩ := h1
  obtain ⟨a2, k2, _, e2⟩ := h2
  have := a1 k2
  have := a2 k1
  omega

/-- With a legitimate iteration order the first result of `getMostCommit` is
the largest multiplicity. -/
theorem getMostCommit_maxVotes (order : MapOrder) (horder : order.Legit)
    (stat : ParacrossHeightStatus) (details : ParacrossStatusDetails)
    (hd : stat.Details = some details)
    (hlen : details.Addrs.length = details.StateHash.length)
    (hne : details.StateHash ≠ []) (most : Int) (winner : String)
    (hg : getMostCommit order stat = some (most, winner)) :
    maxVotes details.StateHash most := by
  obtain ⟨most1, winner1, hg1, _, _, hw, hc, _⟩ :=
    getMostCommit_largest order horder stat details hd hlen hne
  have hmax := getMostCommit_spec order horder stat details hd (by omega)
    (by rw [hlen]; exact List.length_pos.2 hne)
  obtain ⟨most2, winner2, hg2, _, _, hall⟩ := hmax
  rw [hg] at hg1 hg2
  simp only [Option.some.injEq, Prod.mk.injEq] at hg1 hg2
  obtain ⟨rfl, rfl⟩ := hg1
  obtain ⟨rfl, _⟩ := hg2
  have htake : details.StateHash.take details.Addrs.length = details.StateHash := by
    rw [hlen, List.take_length]
  rw [htake] at hall
  exact ⟨hall, winner, hw, hc⟩

/-- A call of `Commit` does not change any roster. -/
theorem Commit_getNodes (order : MapOrder) (a : action) (db : KV)
    (commit : ParacrossCommitAction) (title : String) :
    getNodes (Commit order a db commit).1 title = getNodes db title := by
  rcases Commit_inv order a db commit with
    ⟨e, h1⟩ | h1 | ⟨_, _, _, _, _, h1⟩ | ⟨status, nodes, titleStatus, _, _, _, _, _, _, _, hacc⟩
  · rw [h1]
  · rw [h1]
  · rw [h1]
  · obtain ⟨stat, details, prev, most, winner, _, _, _, hres⟩ := hacc
    rcases hres with ⟨_, hres⟩ | ⟨_, hres⟩
    · rw [hres, getNodes_saveTitleHeight]
    · rw [hres, getNodes_saveTitle, getNodes_saveTitleHeight]

theorem runCommits_getNodes (calls : List (MapOrder × action × ParacrossCommitAction))
    (db : KV) (title : String) : getNodes (runCommits calls db) title = getNodes db title := by
  induction calls generalizing db with
  | nil => rfl
  | cons call rest ih =>
    obtain ⟨order, a, commit⟩ := call
    simp only [runCommits]
    rw [ih, Commit_getNodes]

/-- One call of `Commit` with a legitimate iteration order keeps the invariant
of the record at the current height. -/
theorem Commit_CurrentNotDone (order : MapOrder) (horder : order.Legit) (a : action) (db : KV)
    (commit : ParacrossCommitAction) (hinv : RecordsOk db) (hcur : CurrentNotDone db) :
    CurrentNotDone (Commit order a db commit).1 := by
  rcases Commit_inv order a db commit with
    ⟨e, h1⟩ | h1 | ⟨_, _, _, _, _, h1⟩ |
      ⟨status, nodes, titleStatus, hs, hc, hn, _, ht, hlt, hle, hacc⟩
  · rw [h1]; exact hcur
  · rw [h1]; exact hcur
  · rw [h1]; exact hcur
  · obtain ⟨stat, details, prev, most, winner, horigin, hdet, hm, hres⟩ := hacc
    obtain ⟨⟨d, hd, hlen, hne⟩, hnd⟩ :=
      accepted_stat_ok a db status titleStatus stat prev hinv ht hlt horigin
    rw [hdet] at hd
    cases hd
    obtain ⟨hH, hHr⟩ := current_height_eq _ _ (hinv.1 _ _ ht) hlt hle
    have hmax := getMostCommit_maxVotes order horder stat details hdet hlen hne most winner hm
    rcases hres with ⟨hnot, hres⟩ | ⟨_, hres⟩
    · rw [hres]
      intro title ts stat1 d1 nodes1 m hts hrec hd1 hn1 hm1
      rw [getTitle_saveTitleHeight] at hts
      rw [getNodes_saveTitleHeight] at hn1
      rw [getTitleHeight_saveTitleHeight] at hrec
      split_ifs at hrec with hk
      · obtain ⟨rfl, _⟩ := hk
        cases hrec
        rw [hdet] at hd1
        cases hd1
        rw [hn] at hn1
        cases hn1
        have := maxVotes_unique _ _ _ hm1 hmax
        subst this
        exact hnot
      · exact hcur title ts stat1 d1 nodes1 m hts hrec hd1 hn1 hm1
    · rw [hres]
      intro title ts stat1 d1 nodes1 m hts hrec hd1 hn1 hm1
      rw [getNodes_saveTitle, getNodes_saveTitleHeight] at hn1
      rw [getTitle_saveTitle] at hts
      rw [getTitleHeight_saveTitle, getTitleHeight_saveTitleHeight] at hrec
      split_ifs at hts with hT
      · subst hT
        cases hts
        simp only at hrec
        rw [if_neg (by omega)] at hrec
        obtain ⟨ts2, _, ht2, hle2, _⟩ := hinv.2 _ _ _ hrec
        rw [ht] at ht2
        cases ht2
        omega
      · rw [getTitle_saveTitleHeight] at hts
        rw [if_neg (fun hk => hT hk.1)] at hrec
        exact hcur title ts stat1 d1 nodes1 m hts hrec hd1 hn1 hm1

theorem CurrentNotDone_of_NoRecords (db : KV) (h0 : NoRecords db) : CurrentNotDone db := by
  intro title ts stat d nodes m _ hrec
  simp [getTitleHeight, h0 title (ts.Height + 1)] at hrec

theorem runCommits_CurrentNotDone (calls : List (MapOrder × action × ParacrossCommitAction))
    (hlegit : LegitCalls calls) (db : KV) (hinv : RecordsOk db) (hcur : CurrentNotDone db) :
    CurrentNotDone (runCommits calls db) := by
  induction calls generalizing db with
  | nil => exact hcur
  | cons call rest ih =>
    obtain ⟨order, a, commit⟩ := call
    have horder : order.Legit := hlegit (order, a, commit) (List.mem_cons_self _ _)
    exact ih (fun c hc => hlegit c (List.mem_cons_of_mem _ hc)) _
      (Commit_RecordsOk order a db commit hinv)
      (Commit_CurrentNotDone order horder a db commit hinv hcur)

/-- A call that emits a Done log from a store satisfying both invariants has
submitted the one hash of largest multiplicity in the updated record. -/
theorem Commit_done_winner_step (order : MapOrder) (horder : order.Legit) (a : action)
    (db : KV) (commit : ParacrossCommitAction) (hinv : RecordsOk db)
    (hcur : CurrentNotDone db) (hdone : emitsDone (Commit order a db commit).2 = true) :
    ∃ status stat1 d1, commit.Status = some status ∧
      getTitleHeight (Commit order a db commit).1
          (calcTitleHeightKey status.Title status.Height) = Except.ok stat1 ∧
        stat1.Status = ParacrossStatusDone ∧
        stat1.Details = some d1 ∧
        ∀ h, h ≠ status.StateHash →
          d1.StateHash.count h < d1.StateHash.count status.StateHash := by
  obtain ⟨status, nodes, titleStatus, stat, details, prev, most, winner, hs, _, hn, ht, hlt,
    hle, horigin, hdet, hm, hd, hres⟩ := Commit_done_inv order a db commit hdone
  obtain ⟨⟨d, hd2, hlen, hne⟩, _⟩ :=
    accepted_stat_ok a db status titleStatus stat prev hinv ht hlt horigin
  rw [hdet] at hd2
  cases hd2
  obtain ⟨hH, _⟩ := current_height_eq _ _ (hinv.1 _ _ ht) hlt hle
  have hmax := getMostCommit_maxVotes order horder stat details hdet hlen hne most winner hm
  refine ⟨status, { stat with Status := ParacrossStatusDone }, details, hs, ?_, rfl, hdet, ?_⟩
  · rw [hres, getTitleHeight_saveTitle, getTitleHeight_saveTitleHeight]
    simp
  · rcases horigin with ⟨_, _, rfl⟩ | ⟨old, od, hg, hod, rfl, _⟩
    · simp only [firstVote, Option.some.injEq] at hdet
      subst hdet
      intro h hne2
      simp [List.count_cons, hne2, Ne.symm hne2]
    · simp only [addVote, Option.some.injEq] at hdet
      subst hdet
      simp only at hmax hd ⊢
      intro h hne2
      by_contra hcon
      have hge : (od.StateHash ++ [status.StateHash]).count status.StateHash ≤
          (od.StateHash ++ [status.StateHash]).count h := by omega
      obtain ⟨hall, w, hw, hcw⟩ := hmax
      -- a hash other than the submitted one attains the largest multiplicity
      have hother : ∃ k, k ≠ status.StateHash ∧
          ((od.StateHash ++ [status.StateHash]).count k : Int) = most := by
        by_cases e : w = status.StateHash
        · subst e
          refine ⟨h, hne2, ?_⟩
          have := hall h
          omega
        · exact ⟨w, e, hcw⟩
      obtain ⟨k, hk, hck⟩ := hother
      have hcount : ∀ g, g ≠ status.StateHash →
          (od.StateHash ++ [status.StateHash]).count g = od.StateHash.count g := by
        intro g hg2
        simp [List.count_append, List.count_cons, Ne.symm hg2]
      have hpos : 1 ≤ (od.StateHash ++ [status.StateHash]).count status.StateHash := by
        simp [List.count_append]
      have hmost1 : (1 : Int) ≤ most := by
        have := hall status.StateHash
        omega
      have hold : maxVotes od.StateHash most := by
        refine ⟨?_, k, ?_, ?_⟩
        · intro g
          have h1 := hall g
          have h2 : od.StateHash.count g ≤ (od.StateHash ++ [status.StateHash]).count g := by
            simp [List.count_append]
          omega
        · apply List.count_pos_iff.1
          rw [← hcount k hk]
          omega
        · rw [← hcount k hk]; exact hck
      have hfalse := hcur status.Title titleStatus old od nodes most ht
        (by rw [← hH]; exact hg) hod hn hold
      have htrue : isCommitDone () nodes most = true := hd
      rw [hfalse] at htrue
      cases htrue

set_option maxRecDepth 100000 in
/-- C20: in every store reached from a store with no aggregation record by a
sequence of `Commit` calls (each with a legitimate iteration order of the
counting map; the calls never change a roster, so the roster of a title is the
one of the initial store in every call), whenever a further `Commit` call emits
a Done log, the record stored for its title and height has status Done and the
state hash submitted by the call occurs in it strictly more often than every
other hash.  With a roster that shrinks between the calls this fails: after the
votes `A: y`, `B: y` under the roster `A, B, C, D`, with the roster replaced by
`C, D`, the vote `C: x` emits a Done log although `y` has two votes and `x`
one. -/
theorem Commit_done_hash_is_winner (db0 : KV) (h0 : NoRecords db0) (hc : CursorsInt64 db0)
    (calls : List (MapOrder × action × ParacrossCommitAction)) (hlegit : LegitCalls calls)
    (order : MapOrder) (horder : order.Legit) (a : action) (commit : ParacrossCommitAction)
    (hdone : emitsDone (Commit order a (runCommits calls db0) commit).2 = true) :
    (∃ status stat1 d1, commit.Status = some status ∧
        getNodes (runCommits calls db0) status.Title = getNodes db0 status.Title ∧
        getTitleHeight (Commit order a (runCommits calls db0) commit).1
            (calcTitleHeightKey status.Title status.Height) = Except.ok stat1 ∧
        stat1.Status = ParacrossStatusDone ∧
        stat1.Details = some d1 ∧
        ∀ h, h ≠ status.StateHash →
          d1.StateHash.count h < d1.StateHash.count status.StateHash) ∧
      (emitsDone (Commit id (mkAction "C") shrinkingRosterKV (mkCommit "T" 0 "x")).2 = true ∧
        getTitleHeight (Commit id (mkAction "C") shrinkingRosterKV (mkCommit "T" 0 "x")).1
            (calcTitleHeightKey "T" 0) =
          Except.ok
            { mkRecord "T" 0 ["A", "B", "C"] ["y", "y", "x"] with
              Status := ParacrossStatusDone } ∧
        ["y", "y", "x"].count "x" < ["y", "y", "x"].count "y") := by
  have hinv0 : RecordsOk db0 := RecordsOk_of_NoRecords db0 h0 hc
  have hinv : RecordsOk (runCommits calls db0) := runCommits_RecordsOk calls db0 hinv0
  have hcur : CurrentNotDone (runCommits calls db0) :=
    runCommits_CurrentNotDone calls hlegit db0 hinv0 (CurrentNotDone_of_NoRecords db0 h0)
  constructor
  · obtain ⟨status, stat1, d1, hs, hrec, hst, hd1, hwin⟩ :=
      Commit_done_winner_step order horder a (runCommits calls db0) commit hinv hcur hdone
    exact ⟨status, stat1, d1, hs, runCommits_getNodes calls db0 status.Title, hrec, hst, hd1,
      hwin⟩
  · exact ⟨by decide, by rfl, by decide⟩

set_option maxRecDepth 100000 in
/-- C20, witness: roster `A, B, C, D`, no record and no cursor; after the
commits `A: h` and `B: h` for `(T, 0)` the commit `C: h` emits the Done log, and
the conclusion of the theorem holds for it. -/
theorem Commit_done_hash_is_winner_witness :
    emitsDone
          (Commit id (mkAction "C")
            (runCommits
              [(id, mkAction "A", mkCommit "T" 0 "h"), (id, mkAction "B", mkCommit "T" 0 "h")]
              (rosterKV "T" ["A", "B", "C", "D"]))
            (mkCommit "T" 0 "h")).2 = true ∧
      ((∃ status stat1 d1, (mkCommit "T" 0 "h").Status = some status ∧
          getNodes
              (runCommits
                [(id, mkAction "A", mkCommit "T" 0 "h"), (id, mkAction "B", mkCommit "T" 0 "h")]
                (rosterKV "T" ["A", "B", "C", "D"]))
              status.Title =
            getNodes (rosterKV "T" ["A", "B", "C", "D"]) status.Title ∧
          getTitleHeight
              (Commit id (mkAction "C")
                (runCommits
                  [(id, mkAction "A", mkCommit "T" 0 "h"),
                    (id, mkAction "B", mkCommit "T" 0 "h")]
                  (rosterKV "T" ["A", "B", "C", "D"]))
                (mkCommit "T" 0 "h")).1
              (calcTitleHeightKey status.Title status.Height) = Except.ok stat1 ∧
          stat1.Status = ParacrossStatusDone ∧
          stat1.Details = some d1 ∧
          ∀ h, h ≠ status.StateHash →
            d1.StateHash.count h < d1.StateHash.count status.StateHash) ∧
        (emitsDone (Commit id (mkAction "C") shrinkingRosterKV (mkCommit "T" 0 "x")).2 = true ∧
          getTitleHeight (Commit id (mkAction "C") shrinkingRosterKV (mkCommit "T" 0 "x")).1
              (calcTitleHeightKey "T" 0) =
            Except.ok
              { mkRecord "T" 0 ["A", "B", "C"] ["y", "y", "x"] with
                Status := ParacrossStatusDone } ∧
          ["y", "y", "x"].count "x" < ["y", "y", "x"].count "y")) :=
  ⟨by decide,
    Commit_done_hash_is_winner (rosterKV "T" ["A", "B", "C", "D"]) (fun _ _ => rfl)
      (CursorsInt64_of_NoCursors _ (fun _ => rfl))
      [(id, mkAction "A", mkCommit "T" 0 "h"), (id, mkAction "B", mkCommit "T" 0 "h")]
      (by
        intro c hc
        simp only [List.mem_cons, List.mem_singleton, List.not_mem_nil, or_false] at hc
        rcases hc with rfl | rfl <;> exact fun s => List.Perm.refl s)
      id (fun s => List.Perm.refl s) (mkAction "C") (mkCommit "T" 0 "h") (by decide)⟩

/-! ## A vote at the current height, in full -/

/-- A valid payload. -/
theorem checkCommitInfo_mkCommit (title : String) (height : Int) (stateHash : String)
    (ht : 0 < title.length) (hh : 0 < stateHash.length) (hH : 0 ≤ height) :
    checkCommitInfo (mkCommit title height stateHash) = none := by
  have h1 : ¬ stateHash.length = 0 := by omega
  have h2 : ¬ height < 0 := by omega
  simp [checkCommitInfo, mkCommit, validTitle, h1, h2, ht]

/-- A vote at the current height by a roster member, on a store whose record
for that height is absent or has details with at least as many state hashes as
addresses, is accepted. -/
theorem Commit_vote (order : MapOrder) (a : action) (db : KV) (commit : ParacrossCommitAction)
    (status : ParacrossNodeStatus) (nodes : List String) (titleStatus : ParacrossStatus)
    (hs : commit.Status = some status) (hc : checkCommitInfo commit = none)
    (hnodes : getNodes db status.Title = Except.ok nodes)
    (hmem : a.fromaddr ∈ nodes)
    (htitle : getTitle db (calcTitleKey status.Title) = Except.ok titleStatus)
    (hlo : -2 ^ 63 ≤ titleStatus.Height) (hhi : titleStatus.Height < 2 ^ 63 - 1)
    (hH : status.Height = titleStatus.Height + 1)
    (hrec : getTitleHeight db (calcTitleHeightKey status.Title status.Height) =
        Except.error Err.ErrNotFound ∨
      ∃ old od,
        getTitleHeight db (calcTitleHeightKey status.Title status.Height) = Except.ok old ∧
          old.Details = some od ∧ od.Addrs.length ≤ od.StateHash.length) :
    acceptedVote order a db status nodes titleStatus (Commit order a db commit) := by
  have hcur := Commit_eq_commitCurrent order a db commit status nodes titleStatus hs hc hnodes
    ((validNode_iff _ _).2 hmem) htitle hlo hhi hH
  have hret : ∃ receipt,
      (commitCurrent order a db commit status nodes titleStatus).2 =
        Outcome.ret (some receipt) none := by
    rcases hrec with hnf | ⟨old, od, hg, hd, hlen⟩
    · obtain ⟨r, hr, _⟩ := commitCurrent_first order a db commit status nodes titleStatus hs hnf
      exact ⟨r, hr⟩
    · obtain ⟨r, _, hr, _⟩ :=
        commitCurrent_append order a db commit status nodes titleStatus old od hs hg hd hlen
      exact ⟨r, hr⟩
  obtain ⟨receipt, hret⟩ := hret
  rw [hcur]
  rcases commitCurrent_inv order a db commit status nodes titleStatus hs with
    ⟨e, _, _, h⟩ | h | h
  · rw [h] at hret
    simp at hret
  · rw [h] at hret
    simp at hret
  · exact h

theorem emitsDone_doneReceipt (a : action) (status : ParacrossNodeStatus)
    (prev : Option ParacrossHeightStatus) (stat : ParacrossHeightStatus) (nodes : List String)
    (details : ParacrossStatusDetails) (most : Int) :
    emitsDone
        (Outcome.ret
          (some
            { commitReceiptOf a status prev stat with
              Logs := (commitReceiptOf a status prev stat).Logs ++
                [doneLogOf status nodes details most] })
          none) = true := by
  simp [emitsDone, logKinds, commitReceiptOf, doneLogOf]

/-- The tally of a record in which every vote is for `h`. -/
theorem getMostCommit_unanimous (order : MapOrder) (horder : order.Legit)
    (stat : ParacrossHeightStatus) (details : ParacrossStatusDetails) (h : String)
    (hd : stat.Details = some details)
    (hlen : details.Addrs.length = details.StateHash.length)
    (hne : details.StateHash ≠ [])
    (hall : ∀ x ∈ details.StateHash, x = h) :
    getMostCommit order stat = some ((details.StateHash.length : Int), h) := by
  obtain ⟨most, winner, hg, _, _, hw, hc, _⟩ :=
    getMostCommit_largest order horder stat details hd hlen hne
  have hwin : winner = h := hall winner hw
  subst hwin
  have hcount : details.StateHash.count winner = details.StateHash.length :=
    List.count_eq_length.2 (fun b hb => (hall b hb).symm)
  rw [hg, ← hc, hcount]

set_option maxRecDepth 100000 in
/-- With a roster of four, one or two equal votes are no supermajority and
three are. -/
theorem isCommitDone_four {α : Type} (f : α) (nodes : List String) (h4 : nodes.length = 4) :
    isCommitDone f nodes 1 = false ∧ isCommitDone f nodes 2 = false ∧
      isCommitDone f nodes 3 = true := by
  unfold isCommitDone
  rw [h4]
  refine ⟨by decide, by decide, by decide⟩

/-- An accepted vote after which every state hash of the record is the
submitted one: the tally is the number of votes, and the call ends in the Commit
receipt or, when that number passes `isCommitDone`, in the receipt with the Done
log. -/
theorem Commit_vote_unanimous (order : MapOrder) (horder : order.Legit) (a : action) (db : KV)
    (commit : ParacrossCommitAction) (status : ParacrossNodeStatus) (nodes : List String)
    (titleStatus : ParacrossStatus) (stat : ParacrossHeightStatus)
    (prev : Option ParacrossHeightStatus) (details : ParacrossStatusDetails)
    (hs : commit.Status = some status) (hc : checkCommitInfo commit = none)
    (hnodes : getNodes db status.Title = Except.ok nodes)
    (hmem : a.fromaddr ∈ nodes)
    (htitle : getTitle db (calcTitleKey status.Title) = Except.ok titleStatus)
    (hlo : -2 ^ 63 ≤ titleStatus.Height) (hhi : titleStatus.Height < 2 ^ 63 - 1)
    (hH : status.Height = titleStatus.Height + 1)
    (horigin :
      (getTitleHeight db (calcTitleHeightKey status.Title status.Height) =
            Except.error Err.ErrNotFound ∧
          prev = none ∧ stat = firstVote a status) ∨
        ∃ old od,
          getTitleHeight db (calcTitleHeightKey status.Title status.Height) = Except.ok old ∧
            old.Details = some od ∧ stat = addVote a status old od ∧ prev = some stat)
    (hdet : stat.Details = some details)
    (hlen : details.Addrs.length = details.StateHash.length)
    (hall : ∀ x ∈ details.StateHash, x = status.StateHash) :
    (isCommitDone () nodes (details.StateHash.length : Int) = false →
        Commit order a db commit =
          (saveTitleHeight db (calcTitleHeightKey status.Title status.Height) stat,
            Outcome.ret (some (commitReceiptOf a status prev stat)) none)) ∧
      (isCommitDone () nodes (details.StateHash.length : Int) = true →
        Commit order a db commit =
          (saveTitle
              (saveTitleHeight db (calcTitleHeightKey status.Title status.Height)
                { stat with Status := ParacrossStatusDone })
              (calcTitleKey status.Title)
              { titleStatus with Title := status.Title, Height := status.Height },
            Outcome.ret
              (some
                { commitReceiptOf a status prev stat with
                  Logs := (commitReceiptOf a status prev stat).Logs ++
                    [doneLogOf status nodes details (details.StateHash.length : Int)] })
              none)) := by
  have hne : details.StateHash ≠ [] := by
    rcases horigin with ⟨_, _, rfl⟩ | ⟨old, od, _, _, rfl, _⟩
    · simp only [firstVote, Option.some.injEq] at hdet
      subst hdet
      simp
    · simp only [addVote, Option.some.injEq] at hdet
      subst hdet
      simp
  have hrec : getTitleHeight db (calcTitleHeightKey status.Title status.Height) =
        Except.error Err.ErrNotFound ∨
      ∃ old od,
        getTitleHeight db (calcTitleHeightKey status.Title status.Height) = Except.ok old ∧
          old.Details = some od ∧ od.Addrs.length ≤ od.StateHash.length := by
    rcases horigin with ⟨hnf, _, _⟩ | ⟨old, od, hg, hod, rfl, _⟩
    · exact Or.inl hnf
    · right
      refine ⟨old, od, hg, hod, ?_⟩
      simp only [addVote, Option.some.injEq] at hdet
      subst hdet
      simp only [List.length_append, List.length_singleton] at hlen
      omega
  obtain ⟨stat2, details2, prev2, most, winner, horigin2, hdet2, hm, hres⟩ :=
    Commit_vote order a db commit status nodes titleStatus hs hc hnodes hmem htitle hlo hhi hH
      hrec
  have hsame : stat2 = stat ∧ prev2 = prev := by
    rcases horigin with ⟨hnf, rfl, rfl⟩ | ⟨old, od, hg, hod, rfl, rfl⟩
    · rcases horigin2 with ⟨_, rfl, rfl⟩ | ⟨old2, od2, hg2, _⟩
      · exact ⟨rfl, rfl⟩
      · rw [hnf] at hg2
        cases hg2
    · rcases horigin2 with ⟨hnf2, _⟩ | ⟨old2, od2, hg2, hod2, rfl, rfl⟩
      · rw [hg] at hnf2
        cases hnf2
      · rw [hg] at hg2
        cases hg2
        rw [hod] at hod2
        cases hod2
        exact ⟨rfl, rfl⟩
  obtain ⟨rfl, rfl⟩ := hsame
  rw [hdet] at hdet2
  cases hdet2
  rw [getMostCommit_unanimous order horder stat2 details status.StateHash hdet hlen hne hall]
    at hm
  simp only [Option.some.injEq, Prod.mk.injEq] at hm
  obtain ⟨rfl, rfl⟩ := hm
  have hiso : isCommitDone stat2 nodes (details.StateHash.length : Int) =
      isCommitDone () nodes (details.StateHash.length : Int) := rfl
  rw [hiso] at hres
  constructor
  · intro hf
    rcases hres with ⟨_, hres⟩ | ⟨ht, _⟩
    · exact hres
    · rw [hf] at ht
      cases ht
  · intro ht
    rcases hres with ⟨hf, _⟩ | ⟨_, hres⟩
    · rw [ht] at hf
      cases hf
    · exact hres

/-! ## C14: four equal votes with a roster of four -/

/-- C14 (as amended): for every store whose roster of the non-empty title `T`
has four entries, with the senders of the four calls among them, whose cursor
of `T` is at a height `c` with `-1 <= c < 2^63 - 2` and which holds no record at
`(T, c+1)`, and for every non-empty hash `h`: four `Commit` calls for
`(T, c+1, h)` (the first three with a legitimate iteration order of the counting
map) return a receipt with the logs `[Commit]` (the stored record is Committing
with one vote, the cursor is still `c`), again `[Commit]` (two votes, still
Committing, cursor `c`), then `[Commit, Done]` (the stored record has status
Done and three votes, the cursor is `c+1`), and then `[Record]` with the store
left as it was before the fourth call. -/
theorem Commit_four_votes (o1 o2 o3 o4 : MapOrder) (hl1 : o1.Legit) (hl2 : o2.Legit)
    (hl3 : o3.Legit) (a1 a2 a3 a4 : action) (db : KV) (T : String) (c : Int) (h : String)
    (nodes : List String) (hT : 0 < T.length) (hh : 0 < h.length) (hc1 : -1 ≤ c)
    (hc2 : c < 2 ^ 63 - 2) (hnodes : getNodes db T = Except.ok nodes) (h4 : nodes.length = 4)
    (hm1 : a1.fromaddr ∈ nodes) (hm2 : a2.fromaddr ∈ nodes) (hm3 : a3.fromaddr ∈ nodes)
    (hm4 : a4.fromaddr ∈ nodes) (hcur : cursorHeight db T = Except.ok c)
    (hrec : getTitleHeight db (calcTitleHeightKey T (c + 1)) = Except.error Err.ErrNotFound) :
    ∃ r1 r2 r3,
      (Commit o1 a1 db (mkCommit T (c + 1) h)).2 = Outcome.ret (some r1) none ∧
        logKinds r1 = [LogTy.TyLogParacrossCommit] ∧
        getTitleHeight (runCommits [(o1, a1, mkCommit T (c + 1) h)] db)
            (calcTitleHeightKey T (c + 1)) =
          Except.ok (mkRecord T (c + 1) [a1.fromaddr] [h]) ∧
        cursorHeight (runCommits [(o1, a1, mkCommit T (c + 1) h)] db) T = Except.ok c ∧
        (Commit o2 a2 (runCommits [(o1, a1, mkCommit T (c + 1) h)] db)
            (mkCommit T (c + 1) h)).2 = Outcome.ret (some r2) none ∧
        logKinds r2 = [LogTy.TyLogParacrossCommit] ∧
        getTitleHeight
            (runCommits [(o1, a1, mkCommit T (c + 1) h), (o2, a2, mkCommit T (c + 1) h)] db)
            (calcTitleHeightKey T (c + 1)) =
          Except.ok (mkRecord T (c + 1) [a1.fromaddr, a2.fromaddr] [h, h]) ∧
        cursorHeight
            (runCommits [(o1, a1, mkCommit T (c + 1) h), (o2, a2, mkCommit T (c + 1) h)] db)
            T = Except.ok c ∧
        (Commit o3 a3
            (runCommits [(o1, a1, mkCommit T (c + 1) h), (o2, a2, mkCommit T (c + 1) h)] db)
            (mkCommit T (c + 1) h)).2 = Outcome.ret (some r3) none ∧
        logKinds r3 = [LogTy.TyLogParacrossCommit, LogTy.TyLogParacrossDode] ∧
        getTitleHeight
            (runCommits
              [(o1, a1, mkCommit T (c + 1) h), (o2, a2, mkCommit T (c + 1) h),
                (o3, a3, mkCommit T (c + 1) h)] db)
            (calcTitleHeightKey T (c + 1)) =
          Except.ok
            { mkRecord T (c + 1) [a1.fromaddr, a2.fromaddr, a3.fromaddr] [h, h, h] with
              Status := ParacrossStatusDone } ∧
        cursorHeight
            (runCommits
              [(o1, a1, mkCommit T (c + 1) h), (o2, a2, mkCommit T (c + 1) h),
                (o3, a3, mkCommit T (c + 1) h)] db)
            T = Except.ok (c + 1) ∧
        Commit o4 a4
            (runCommits
              [(o1, a1, mkCommit T (c + 1) h), (o2, a2, mkCommit T (c + 1) h),
                (o3, a3, mkCommit T (c + 1) h)] db)
            (mkCommit T (c + 1) h) =
          (runCommits
              [(o1, a1, mkCommit T (c + 1) h), (o2, a2, mkCommit T (c + 1) h),
                (o3, a3, mkCommit T (c + 1) h)] db,
            Outcome.ret (some (makeRecordReceipt a4.fromaddr (mkCommit T (c + 1) h))) none) ∧
        logKinds (makeRecordReceipt a4.fromaddr (mkCommit T (c + 1) h)) =
          [LogTy.TyLogParacrossRecord] := by
  obtain ⟨ts, hts, hcts⟩ : ∃ ts, getTitle db (calcTitleKey T) = Except.ok ts ∧ ts.Height = c := by
    unfold cursorHeight at hcur
    cases hg : getTitle db (calcTitleKey T) with
    | error e => rw [hg] at hcur; cases hcur
    | ok ts =>
      rw [hg] at hcur
      simp only [Except.ok.injEq] at hcur
      exact ⟨ts, rfl, hcur⟩
  subst hcts
  have hchk : checkCommitInfo (mkCommit T (ts.Height + 1) h) = none :=
    checkCommitInfo_mkCommit T (ts.Height + 1) h hT hh (by omega)
  obtain ⟨hd1, hd2, hd3⟩ := isCommitDone_four () nodes h4
  -- first call
  have e1 := (Commit_vote_unanimous o1 hl1 a1 db (mkCommit T (ts.Height + 1) h)
    ⟨T, ts.Height + 1, h⟩ nodes ts (firstVote a1 ⟨T, ts.Height + 1, h⟩) none
    ⟨[a1.fromaddr], [h]⟩ rfl hchk hnodes hm1 hts (by omega) (by omega) rfl
    (Or.inl ⟨hrec, rfl, rfl⟩) rfl rfl (by simp)).1 hd1
  have hrun1 : runCommits [(o1, a1, mkCommit T (ts.Height + 1) h)] db =
      saveTitleHeight db (calcTitleHeightKey T (ts.Height + 1))
        (firstVote a1 ⟨T, ts.Height + 1, h⟩) := by
    simp only [runCommits, e1]
  have hn1 : getNodes (runCommits [(o1, a1, mkCommit T (ts.Height + 1) h)] db) T =
      Except.ok nodes := by rw [hrun1, getNodes_saveTitleHeight]; exact hnodes
  have ht1 : getTitle (runCommits [(o1, a1, mkCommit T (ts.Height + 1) h)] db)
      (calcTitleKey T) = Except.ok ts := by rw [hrun1, getTitle_saveTitleHeight]; exact hts
  have hr1 : getTitleHeight (runCommits [(o1, a1, mkCommit T (ts.Height + 1) h)] db)
      (calcTitleHeightKey T (ts.Height + 1)) =
        Except.ok (firstVote a1 ⟨T, ts.Height + 1, h⟩) := by
    rw [hrun1, getTitleHeight_saveTitleHeight]; simp
  -- second call
  have e2 := (Commit_vote_unanimous o2 hl2 a2
    (runCommits [(o1, a1, mkCommit T (ts.Height + 1) h)] db) (mkCommit T (ts.Height + 1) h)
    ⟨T, ts.Height + 1, h⟩ nodes ts
    (addVote a2 ⟨T, ts.Height + 1, h⟩ (firstVote a1 ⟨T, ts.Height + 1, h⟩)
      ⟨[a1.fromaddr], [h]⟩)
    (some (addVote a2 ⟨T, ts.Height + 1, h⟩ (firstVote a1 ⟨T, ts.Height + 1, h⟩)
      ⟨[a1.fromaddr], [h]⟩))
    ⟨[a1.fromaddr, a2.fromaddr], [h, h]⟩ rfl hchk hn1 hm2 ht1 (by omega) (by omega) rfl
    (Or.inr ⟨_, _, hr1, rfl, rfl, rfl⟩) rfl rfl (by simp)).1 hd2
  have hrun2 : runCommits
      [(o1, a1, mkCommit T (ts.Height + 1) h), (o2, a2, mkCommit T (ts.Height + 1) h)] db =
      saveTitleHeight (runCommits [(o1, a1, mkCommit T (ts.Height + 1) h)] db)
        (calcTitleHeightKey T (ts.Height + 1))
        (addVote a2 ⟨T, ts.Height + 1, h⟩ (firstVote a1 ⟨T, ts.Height + 1, h⟩)
          ⟨[a1.fromaddr], [h]⟩) := by
    have : runCommits
        [(o1, a1, mkCommit T (ts.Height + 1) h), (o2, a2, mkCommit T (ts.Height + 1) h)] db =
        (Commit o2 a2 (runCommits [(o1, a1, mkCommit T (ts.Height + 1) h)] db)
          (mkCommit T (ts.Height + 1) h)).1 := rfl
    rw [this, e2]
  have hn2 : getNodes (runCommits
      [(o1, a1, mkCommit T (ts.Height + 1) h), (o2, a2, mkCommit T (ts.Height + 1) h)] db) T =
      Except.ok nodes := by rw [hrun2, getNodes_saveTitleHeight]; exact hn1
  have ht2 : getTitle (runCommits
      [(o1, a1, mkCommit T (ts.Height + 1) h), (o2, a2, mkCommit T (ts.Height + 1) h)] db)
      (calcTitleKey T) = Except.ok ts := by rw [hrun2, getTitle_saveTitleHeight]; exact ht1
  have hr2 : getTitleHeight (runCommits
      [(o1, a1, mkCommit T (ts.Height + 1) h), (o2, a2, mkCommit T (ts.Height + 1) h)] db)
      (calcTitleHeightKey T (ts.Height + 1)) =
        Except.ok (addVote a2 ⟨T, ts.Height + 1, h⟩ (firstVote a1 ⟨T, ts.Height + 1, h⟩)
          ⟨[a1.fromaddr], [h]⟩) := by
    rw [hrun2, getTitleHeight_saveTitleHeight]; simp
  -- third call
  have e3 := (Commit_vote_unanimous o3 hl3 a3
    (runCommits
      [(o1, a1, mkCommit T (ts.Height + 1) h), (o2, a2, mkCommit T (ts.Height + 1) h)] db)
    (mkCommit T (ts.Height + 1) h) ⟨T, ts.Height + 1, h⟩ nodes ts
    (addVote a3 ⟨T, ts.Height + 1, h⟩
      (addVote a2 ⟨T, ts.Height + 1, h⟩ (firstVote a1 ⟨T, ts.Height + 1, h⟩)
        ⟨[a1.fromaddr], [h]⟩)
      ⟨[a1.fromaddr, a2.fromaddr], [h, h]⟩)
    (some (addVote a3 ⟨T, ts.Height + 1, h⟩
      (addVote a2 ⟨T, ts.Height + 1, h⟩ (firstVote a1 ⟨T, ts.Height + 1, h⟩)
        ⟨[a1.fromaddr], [h]⟩)
      ⟨[a1.fromaddr, a2.fromaddr], [h, h]⟩))
    ⟨[a1.fromaddr, a2.fromaddr, a3.fromaddr], [h, h, h]⟩ rfl hchk hn2 hm3 ht2 (by omega)
    (by omega) rfl (Or.inr ⟨_, _, hr2, rfl, rfl, rfl⟩) rfl rfl (by simp)).2 hd3
  have hrun3 : runCommits
      [(o1, a1, mkCommit T (ts.Height + 1) h), (o2, a2, mkCommit T (ts.Height + 1) h),
        (o3, a3, mkCommit T (ts.Height + 1) h)] db =
      (Commit o3 a3 (runCommits
        [(o1, a1, mkCommit T (ts.Height + 1) h), (o2, a2, mkCommit T (ts.Height + 1) h)] db)
        (mkCommit T (ts.Height + 1) h)).1 := rfl
  rw [e3] at hrun3
  simp only at hrun3
  have hn3 : getNodes (runCommits
      [(o1, a1, mkCommit T (ts.Height + 1) h), (o2, a2, mkCommit T (ts.Height + 1) h),
        (o3, a3, mkCommit T (ts.Height + 1) h)] db) T = Except.ok nodes := by
    rw [hrun3, getNodes_saveTitle, getNodes_saveTitleHeight]; exact hn2
  have ht3 : getTitle (runCommits
      [(o1, a1, mkCommit T (ts.Height + 1) h), (o2, a2, mkCommit T (ts.Height + 1) h),
        (o3, a3, mkCommit T (ts.Height + 1) h)] db) (calcTitleKey T) =
      Except.ok { ts with Title := T, Height := ts.Height + 1 } := by
    rw [hrun3, getTitle_saveTitle]; simp
  have hr3 : getTitleHeight (runCommits
      [(o1, a1, mkCommit T (ts.Height + 1) h), (o2, a2, mkCommit T (ts.Height + 1) h),
        (o3, a3, mkCommit T (ts.Height + 1) h)] db) (calcTitleHeightKey T (ts.Height + 1)) =
      Except.ok
        { mkRecord T (ts.Height + 1) [a1.fromaddr, a2.fromaddr, a3.fromaddr] [h, h, h] with
          Status := ParacrossStatusDone } := by
    rw [hrun3, getTitleHeight_saveTitle, getTitleHeight_saveTitleHeight]
    simp [addVote, firstVote, mkRecord]
  -- fourth call
  have hw : wrapInt64 (ts.Height + 1 + 1) = ts.Height + 1 + 1 :=
    wrapInt64_of_range _ (by omega) (by omega)
  have e4 : Commit o4 a4 (runCommits
      [(o1, a1, mkCommit T (ts.Height + 1) h), (o2, a2, mkCommit T (ts.Height + 1) h),
        (o3, a3, mkCommit T (ts.Height + 1) h)] db) (mkCommit T (ts.Height + 1) h) =
      (runCommits
        [(o1, a1, mkCommit T (ts.Height + 1) h), (o2, a2, mkCommit T (ts.Height + 1) h),
          (o3, a3, mkCommit T (ts.Height + 1) h)] db,
        Outcome.ret (some (makeRecordReceipt a4.fromaddr (mkCommit T (ts.Height + 1) h)))
          none) := by
    have hv : validTitle T = true := by simp [validTitle, hT]
    have hmem : validNode a4.fromaddr nodes = true := (validNode_iff _ _).2 hm4
    have hs : (mkCommit T (ts.Height + 1) h).Status = some ⟨T, ts.Height + 1, h⟩ := rfl
    unfold Commit
    simp only [hchk, hs, hv, hn3, hmem, ht3, hw]
    simp
  refine ⟨_, _, _, by rw [e1], ?_, ?_, ?_, by rw [e2], ?_, ?_, ?_, by rw [e3], ?_, hr3, ?_,
    e4, rfl⟩
  · rfl
  · rw [hr1]; rfl
  · simp [cursorHeight, ht1]
  · rfl
  · rw [hr2]; rfl
  · simp [cursorHeight, ht2]
  · rfl
  · simp [cursorHeight, ht3]

set_option maxRecDepth 100000 in
/-- C14, witness: roster `A, B, C, D` of `T`, no cursor (height `-1`), no
record; the four commits `(T, 0, h)` of `A`, `B`, `C`, `D`. -/
theorem Commit_four_votes_witness :
    ∃ r1 r2 r3,
      (Commit id (mkAction "A") (rosterKV "T" ["A", "B", "C", "D"])
            (mkCommit "T" (-1 + 1) "h")).2 = Outcome.ret (some r1) none ∧
        logKinds r1 = [LogTy.TyLogParacrossCommit] ∧
        getTitleHeight
            (runCommits [(id, mkAction "A", mkCommit "T" (-1 + 1) "h")]
              (rosterKV "T" ["A", "B", "C", "D"]))
            (calcTitleHeightKey "T" (-1 + 1)) =
          Except.ok (mkRecord "T" (-1 + 1) [(mkAction "A").fromaddr] ["h"]) ∧
        cursorHeight
            (runCommits [(id, mkAction "A", mkCommit "T" (-1 + 1) "h")]
              (rosterKV "T" ["A", "B", "C", "D"]))
            "T" = Except.ok (-1) ∧
        (Commit id (mkAction "B")
            (runCommits [(id, mkAction "A", mkCommit "T" (-1 + 1) "h")]
              (rosterKV "T" ["A", "B", "C", "D"]))
            (mkCommit "T" (-1 + 1) "h")).2 = Outcome.ret (some r2) none ∧
        logKinds r2 = [LogTy.TyLogParacrossCommit] ∧
        getTitleHeight
            (runCommits
              [(id, mkAction "A", mkCommit "T" (-1 + 1) "h"),
                (id, mkAction "B", mkCommit "T" (-1 + 1) "h")]
              (rosterKV "T" ["A", "B", "C", "D"]))
            (calcTitleHeightKey "T" (-1 + 1)) =
          Except.ok
            (mkRecord "T" (-1 + 1) [(mkAction "A").fromaddr, (mkAction "B").fromaddr]
              ["h", "h"]) ∧
        cursorHeight
            (runCommits
              [(id, mkAction "A", mkCommit "T" (-1 + 1) "h"),
                (id, mkAction "B", mkCommit "T" (-1 + 1) "h")]
              (rosterKV "T" ["A", "B", "C", "D"]))
            "T" = Except.ok (-1) ∧
        (Commit id (mkAction "C")
            (runCommits
              [(id, mkAction "A", mkCommit "T" (-1 + 1) "h"),
                (id, mkAction "B", mkCommit "T" (-1 + 1) "h")]
              (rosterKV "T" ["A", "B", "C", "D"]))
            (mkCommit "T" (-1 + 1) "h")).2 = Outcome.ret (some r3) none ∧
        logKinds r3 = [LogTy.TyLogParacrossCommit, LogTy.TyLogParacrossDode] ∧
        getTitleHeight
            (runCommits
              [(id, mkAction "A", mkCommit "T" (-1 + 1) "h"),
                (id, mkAction "B", mkCommit "T" (-1 + 1) "h"),
                (id, mkAction "C", mkCommit "T" (-1 + 1) "h")]
              (rosterKV "T" ["A", "B", "C", "D"]))
            (calcTitleHeightKey "T" (-1 + 1)) =
          Except.ok
            { mkRecord "T" (-1 + 1)
                [(mkAction "A").fromaddr, (mkAction "B").fromaddr, (mkAction "C").fromaddr]
                ["h", "h", "h"] with
              Status := ParacrossStatusDone } ∧
        cursorHeight
            (runCommits
              [(id, mkAction "A", mkCommit "T" (-1 + 1) "h"),
                (id, mkAction "B", mkCommit "T" (-1 + 1) "h"),
                (id, mkAction "C", mkCommit "T" (-1 + 1) "h")]
              (rosterKV "T" ["A", "B", "C", "D"]))
            "T" = Except.ok (-1 + 1) ∧
        Commit id (mkAction "D")
            (runCommits
              [(id, mkAction "A", mkCommit "T" (-1 + 1) "h"),
                (id, mkAction "B", mkCommit "T" (-1 + 1) "h"),
                (id, mkAction "C", mkCommit "T" (-1 + 1) "h")]
              (rosterKV "T" ["A", "B", "C", "D"]))
            (mkCommit "T" (-1 + 1) "h") =
          (runCommits
              [(id, mkAction "A", mkCommit "T" (-1 + 1) "h"),
                (id, mkAction "B", mkCommit "T" (-1 + 1) "h"),
                (id, mkAction "C", mkCommit "T" (-1 + 1) "h")]
              (rosterKV "T" ["A", "B", "C", "D"]),
            Outcome.ret
              (some (makeRecordReceipt (mkAction "D").fromaddr (mkCommit "T" (-1 + 1) "h")))
              none) ∧
        logKinds (makeRecordReceipt (mkAction "D").fromaddr (mkCommit "T" (-1 + 1) "h")) =
          [LogTy.TyLogParacrossRecord] :=
  Commit_four_votes id id id id (fun s => List.Perm.refl s) (fun s => List.Perm.refl s)
    (fun s => List.Perm.refl s) (mkAction "A") (mkAction "B") (mkAction "C") (mkAction "D")
    (rosterKV "T" ["A", "B", "C", "D"]) "T" (-1) "h" ["A", "B", "C", "D"] (by decide)
    (by decide) (by decide) (by decide) (by rfl) (by rfl) (by decide) (by decide) (by decide)
    (by decide) (by rfl) (by rfl)

set_option maxRecDepth 100000 in
/-- C14, counterexample: roster `A, B, C, D` of `T`, cursor at the height
`2^63 - 2`, no record at `(T, 2^63 - 1)`.  The commits of `A`, `B`, `C` for
`(T, 2^63 - 1, h)` end with the Done log and move the cursor to `2^63 - 1`; for
the fourth call `Cur + 1` wraps to the smallest `int64`, the test `H > Cur + 1`
succeeds and `D` gets `ErrInputPara` instead of a Record receipt.  And with the
empty title the first call is already rejected with `ErrInputPara`. -/
theorem Commit_fourth_call_rejected :
    (getNodes (cursorKV ["A", "B", "C", "D"] 9223372036854775806) "T" =
          Except.ok ["A", "B", "C", "D"] ∧
        cursorHeight (cursorKV ["A", "B", "C", "D"] 9223372036854775806) "T" =
          Except.ok 9223372036854775806 ∧
        getTitleHeight (cursorKV ["A", "B", "C", "D"] 9223372036854775806)
            (calcTitleHeightKey "T" 9223372036854775807) = Except.error Err.ErrNotFound ∧
        emitsDone
            (Commit id (mkAction "C")
              (runCommits
                [(id, mkAction "A", mkCommit "T" 9223372036854775807 "h"),
                  (id, mkAction "B", mkCommit "T" 9223372036854775807 "h")]
                (cursorKV ["A", "B", "C", "D"] 9223372036854775806))
              (mkCommit "T" 9223372036854775807 "h")).2 = true ∧
        cursorHeight
            (runCommits
              [(id, mkAction "A", mkCommit "T" 9223372036854775807 "h"),
                (id, mkAction "B", mkCommit "T" 9223372036854775807 "h"),
                (id, mkAction "C", mkCommit "T" 9223372036854775807 "h")]
              (cursorKV ["A", "B", "C", "D"] 9223372036854775806))
            "T" = Except.ok 9223372036854775807 ∧
        (Commit id (mkAction "D")
            (runCommits
              [(id, mkAction "A", mkCommit "T" 9223372036854775807 "h"),
                (id, mkAction "B", mkCommit "T" 9223372036854775807 "h"),
                (id, mkAction "C", mkCommit "T" 9223372036854775807 "h")]
              (cursorKV ["A", "B", "C", "D"] 9223372036854775806))
            (mkCommit "T" 9223372036854775807 "h")).2 =
          Outcome.ret none (some Err.ErrInputPara)) ∧
      (getNodes (rosterKV "" ["A", "B", "C", "D"]) "" = Except.ok ["A", "B", "C", "D"] ∧
        (Commit id (mkAction "A") (rosterKV "" ["A", "B", "C", "D"]) (mkCommit "" 0 "h")).2 =
          Outcome.ret none (some Err.ErrInputPara)) := by
  refine ⟨⟨by rfl, by rfl, by rfl, by decide, by rfl, by rfl⟩, by rfl, by rfl⟩

/-! ## C15: two votes for the same height in either order -/

/-- Two votes for the current height, the first of which emits no Done log:
the record stored afterwards holds the earlier votes `pa`, `ph` followed by the
two new ones. -/
theorem Commit_two_votes (o1 o2 : MapOrder) (a b : action) (db : KV) (T : String) (H : Int)
    (ha hb : String) (nodes : List String) (ts : ParacrossStatus) (pa ph : List String)
    (hca : checkCommitInfo (mkCommit T H ha) = none)
    (hcb : checkCommitInfo (mkCommit T H hb) = none)
    (hnodes : getNodes db T = Except.ok nodes) (hma : a.fromaddr ∈ nodes)
    (hmb : b.fromaddr ∈ nodes) (hts : getTitle db (calcTitleKey T) = Except.ok ts)
    (hlo : -2 ^ 63 ≤ ts.Height) (hhi : ts.Height < 2 ^ 63 - 1) (hH : H = ts.Height + 1)
    (hprior :
      (getTitleHeight db (calcTitleHeightKey T H) = Except.error Err.ErrNotFound ∧
          pa = [] ∧ ph = []) ∨
        ∃ old, getTitleHeight db (calcTitleHeightKey T H) = Except.ok old ∧
          old.Details = some ⟨pa, ph⟩)
    (hlen : pa.length = ph.length)
    (hna : emitsDone (Commit o1 a db (mkCommit T H ha)).2 = false) :
    ∃ r, getTitleHeight (runCommits [(o1, a, mkCommit T H ha), (o2, b, mkCommit T H hb)] db)
          (calcTitleHeightKey T H) = Except.ok r ∧
        r.Details = some ⟨(pa ++ [a.fromaddr]) ++ [b.fromaddr], (ph ++ [ha]) ++ [hb]⟩ := by
  have hrec : getTitleHeight db (calcTitleHeightKey T H) = Except.error Err.ErrNotFound ∨
      ∃ old od, getTitleHeight db (calcTitleHeightKey T H) = Except.ok old ∧
        old.Details = some od ∧ od.Addrs.length ≤ od.StateHash.length := by
    rcases hprior with ⟨hnf, _, _⟩ | ⟨old, hg, hod⟩
    · exact Or.inl hnf
    · exact Or.inr ⟨old, _, hg, hod, by simp [hlen]⟩
  obtain ⟨stat, details, prev, most, winner, horigin, hdet, _, hres⟩ :=
    Commit_vote o1 a db (mkCommit T H ha) ⟨T, H, ha⟩ nodes ts rfl hca hnodes hma hts hlo hhi hH
      hrec
  have hd1 : details = ⟨pa ++ [a.fromaddr], ph ++ [ha]⟩ := by
    rcases horigin with ⟨hnf, _, rfl⟩ | ⟨old, od, hg, hod, rfl, _⟩
    · rcases hprior with ⟨_, rfl, rfl⟩ | ⟨old2, hg2, _⟩
      · simp only [firstVote, Option.some.injEq] at hdet
        rw [← hdet]
        rfl
      · simp only at hnf
        rw [hnf] at hg2
        cases hg2
    · rcases hprior with ⟨hnf, _, _⟩ | ⟨old2, hg2, hod2⟩
      · simp only at hg
        rw [hnf] at hg
        cases hg
      · simp only at hg
        rw [hg] at hg2
        cases hg2
        rw [hod] at hod2
        cases hod2
        simp only [addVote, Option.some.injEq] at hdet
        rw [← hdet]
  subst hd1
  have e1 : Commit o1 a db (mkCommit T H ha) =
      (saveTitleHeight db (calcTitleHeightKey T H) stat,
        Outcome.ret (some (commitReceiptOf a ⟨T, H, ha⟩ prev stat)) none) := by
    rcases hres with ⟨_, hres⟩ | ⟨_, hres⟩
    · exact hres
    · rw [hres, emitsDone_doneReceipt] at hna
      cases hna
  have hrun : runCommits [(o1, a, mkCommit T H ha), (o2, b, mkCommit T H hb)] db =
      (Commit o2 b (saveTitleHeight db (calcTitleHeightKey T H) stat) (mkCommit T H hb)).1 := by
    simp only [runCommits, e1]
  have hn1 : getNodes (saveTitleHeight db (calcTitleHeightKey T H) stat) T = Except.ok nodes := by
    rw [getNodes_saveTitleHeight]; exact hnodes
  have ht1 : getTitle (saveTitleHeight db (calcTitleHeightKey T H) stat) (calcTitleKey T) =
      Except.ok ts := by rw [getTitle_saveTitleHeight]; exact hts
  have hr1 : getTitleHeight (saveTitleHeight db (calcTitleHeightKey T H) stat)
      (calcTitleHeightKey T H) = Except.ok stat := by
    rw [getTitleHeight_saveTitleHeight]; simp
  obtain ⟨stat2, details2, prev2, most2, winner2, horigin2, hdet2, _, hres2⟩ :=
    Commit_vote o2 b (saveTitleHeight db (calcTitleHeightKey T H) stat) (mkCommit T H hb)
      ⟨T, H, hb⟩ nodes ts rfl hcb hn1 hmb ht1 hlo hhi hH
      (Or.inr ⟨stat, _, hr1, hdet, by simp [hlen]⟩)
  have hd2 : details2 = ⟨(pa ++ [a.fromaddr]) ++ [b.fromaddr], (ph ++ [ha]) ++ [hb]⟩ := by
    rcases horigin2 with ⟨hnf, _⟩ | ⟨old, od, hg, hod, rfl, _⟩
    · simp only at hnf
      rw [hr1] at hnf
      cases hnf
    · simp only at hg
      rw [hr1] at hg
      cases hg
      rw [hdet] at hod
      cases hod
      simp only [addVote, Option.some.injEq] at hdet2
      rw [← hdet2]
  subst hd2
  rw [hrun]
  rcases hres2 with ⟨_, hres2⟩ | ⟨_, hres2⟩
  · refine ⟨stat2, ?_, hdet2⟩
    rw [hres2, getTitleHeight_saveTitleHeight]
    simp
  · refine ⟨{ stat2 with Status := ParacrossStatusDone }, ?_, hdet2⟩
    rw [hres2, getTitleHeight_saveTitle, getTitleHeight_saveTitleHeight]
    simp

/-- C15 (as amended): for every store and every two commits, by roster members
`a` and `b`, with valid payloads for the same `(T, H)` at the current height
(`H = Cur + 1`, cursor below the largest `int64`), the record at `(T, H)` being
absent or having as many addresses as state hashes: if neither vote, applied
first, emits a Done log, then `Commit` for `a` then `b` and `Commit` for `b`
then `a` leave stored records at `(T, H)` whose details are equal as multisets
of (address, state hash) pairs. -/
theorem Commit_votes_commute (o1 o2 o3 o4 : MapOrder) (a b : action) (db : KV) (T : String)
    (H : Int) (ha hb : String) (nodes : List String) (ts : ParacrossStatus)
    (hca : checkCommitInfo (mkCommit T H ha) = none)
    (hcb : checkCommitInfo (mkCommit T H hb) = none)
    (hnodes : getNodes db T = Except.ok nodes) (hma : a.fromaddr ∈ nodes)
    (hmb : b.fromaddr ∈ nodes) (hts : getTitle db (calcTitleKey T) = Except.ok ts)
    (hlo : -2 ^ 63 ≤ ts.Height) (hhi : ts.Height < 2 ^ 63 - 1) (hH : H = ts.Height + 1)
    (hrec : getTitleHeight db (calcTitleHeightKey T H) = Except.error Err.ErrNotFound ∨
      ∃ old od, getTitleHeight db (calcTitleHeightKey T H) = Except.ok old ∧
        old.Details = some od ∧ od.Addrs.length = od.StateHash.length)
    (hna : emitsDone (Commit o1 a db (mkCommit T H ha)).2 = false)
    (hnb : emitsDone (Commit o3 b db (mkCommit T H hb)).2 = false) :
    ∃ r1 r2 d1 d2,
      getTitleHeight (runCommits [(o1, a, mkCommit T H ha), (o2, b, mkCommit T H hb)] db)
          (calcTitleHeightKey T H) = Except.ok r1 ∧
        getTitleHeight (runCommits [(o3, b, mkCommit T H hb), (o4, a, mkCommit T H ha)] db)
          (calcTitleHeightKey T H) = Except.ok r2 ∧
        r1.Details = some d1 ∧ r2.Details = some d2 ∧
        List.Perm (d1.Addrs.zip d1.StateHash) (d2.Addrs.zip d2.StateHash) := by
  obtain ⟨pa, ph, hprior, hlen⟩ : ∃ pa ph : List String,
      ((getTitleHeight db (calcTitleHeightKey T H) = Except.error Err.ErrNotFound ∧
          pa = [] ∧ ph = []) ∨
        ∃ old, getTitleHeight db (calcTitleHeightKey T H) = Except.ok old ∧
          old.Details = some ⟨pa, ph⟩) ∧ pa.length = ph.length := by
    rcases hrec with hnf | ⟨old, od, hg, hod, hl⟩
    · exact ⟨[], [], Or.inl ⟨hnf, rfl, rfl⟩, rfl⟩
    · exact ⟨od.Addrs, od.StateHash, Or.inr ⟨old, hg, hod⟩, hl⟩
  obtain ⟨r1, hr1, hd1⟩ := Commit_two_votes o1 o2 a b db T H ha hb nodes ts pa ph hca hcb
    hnodes hma hmb hts hlo hhi hH hprior hlen hna
  obtain ⟨r2, hr2, hd2⟩ := Commit_two_votes o3 o4 b a db T H hb ha nodes ts pa ph hcb hca
    hnodes hmb hma hts hlo hhi hH hprior hlen hnb
  refine ⟨r1, r2, _, _, hr1, hr2, hd1, hd2, ?_⟩
  simp only [List.append_assoc, List.singleton_append]
  rw [List.zip_append hlen, List.zip_append hlen]
  exact List.Perm.append_left _ (List.Perm.swap _ _ _)

set_option maxRecDepth 100000 in
/-- C15, witness: roster `A, B, C, D`, no cursor, the record at `(T, 0)` holds
the vote `A: h`; the votes `B: h` and `C: x` in either order leave the pairs
`(A, h), (B, h), (C, x)` and `(A, h), (C, x), (B, h)`. -/
theorem Commit_votes_commute_witness :
    (getTitleHeight
          (runCommits
            [(id, mkAction "B", mkCommit "T" 0 "h"), (id, mkAction "C", mkCommit "T" 0 "x")]
            votedKV)
          (calcTitleHeightKey "T" 0) =
        Except.ok (mkRecord "T" 0 ["A", "B", "C"] ["h", "h", "x"]) ∧
      getTitleHeight
          (runCommits
            [(id, mkAction "C", mkCommit "T" 0 "x"), (id, mkAction "B", mkCommit "T" 0 "h")]
            votedKV)
          (calcTitleHeightKey "T" 0) =
        Except.ok (mkRecord "T" 0 ["A", "C", "B"] ["h", "x", "h"])) ∧
      ∃ r1 r2 d1 d2,
        getTitleHeight
            (runCommits
              [(id, mkAction "B", mkCommit "T" 0 "h"), (id, mkAction "C", mkCommit "T" 0 "x")]
              votedKV)
            (calcTitleHeightKey "T" 0) = Except.ok r1 ∧
          getTitleHeight
            (runCommits
              [(id, mkAction "C", mkCommit "T" 0 "x"), (id, mkAction "B", mkCommit "T" 0 "h")]
              votedKV)
            (calcTitleHeightKey "T" 0) = Except.ok r2 ∧
          r1.Details = some d1 ∧ r2.Details = some d2 ∧
          List.Perm (d1.Addrs.zip d1.StateHash) (d2.Addrs.zip d2.StateHash) :=
  ⟨⟨by rfl, by rfl⟩,
    Commit_votes_commute id id id id (mkAction "B") (mkAction "C") votedKV "T" 0 "h" "x"
      ["A", "B", "C", "D"] ⟨"", -1⟩ (by decide) (by decide) (by rfl) (by decide) (by decide)
      (by rfl) (by decide) (by decide) (by decide)
      (Or.inr ⟨mkRecord "T" 0 ["A"] ["h"], ⟨["A"], ["h"]⟩, by rfl, rfl, rfl⟩) (by decide)
      (by decide)⟩

set_option maxRecDepth 100000 in
/-- C15, counterexample: roster `A, B, C, D`, no cursor, the record at `(T, 0)`
holds the votes `C: x` and `D: x`; `A` commits `(T, 0, x)` and `B` commits
`(T, 0, y)`, so both are roster members voting at the current height.  With
`A` first the vote of `A` completes the supermajority, the cursor moves to 0,
the vote of `B` is stale and the record keeps three entries; with `B` first
both votes are appended and the record has four entries. -/
theorem Commit_votes_do_not_commute :
    getNodes xxKV "T" = Except.ok ["A", "B", "C", "D"] ∧
      cursorHeight xxKV "T" = Except.ok (-1) ∧
      getTitleHeight
          (runCommits
            [(id, mkAction "A", mkCommit "T" 0 "x"), (id, mkAction "B", mkCommit "T" 0 "y")]
            xxKV)
          (calcTitleHeightKey "T" 0) =
        Except.ok
          { mkRecord "T" 0 ["C", "D", "A"] ["x", "x", "x"] with
            Status := ParacrossStatusDone } ∧
      getTitleHeight
          (runCommits
            [(id, mkAction "B", mkCommit "T" 0 "y"), (id, mkAction "A", mkCommit "T" 0 "x")]
            xxKV)
          (calcTitleHeightKey "T" 0) =
        Except.ok
          { mkRecord "T" 0 ["C", "D", "B", "A"] ["x", "x", "y", "x"] with
            Status := ParacrossStatusDone } ∧
      ¬ List.Perm (["C", "D", "A"].zip ["x", "x", "x"])
          (["C", "D", "B", "A"].zip ["x", "x", "y", "x"]) := by
  refine ⟨by rfl, by rfl, by rfl, by rfl, ?_⟩
  intro hp
  have := hp.length_eq
  simp at this

end Paracross
